import Mathlib

/-!
# Entity-component-system engine of `party.js`

A shallow embedding of `src/js/party.js`.

Modelling conventions.

* JavaScript objects have identity and are mutated in place.  Entities are
  therefore kept in a store indexed by references (`EntityRef`), and the
  World's `entities` array is a list of references; the same reference may
  occur more than once in it (`addEntity` does not guard against that).
* A component object belongs to the entity whose `components` array holds it;
  `position.x += ...` on the object returned by `getComponent` is the
  replacement of the first component of that class in the owning entity.
* Numeric fields are rationals.  In the systems, the click handler and the
  spawn schedule arithmetic is exact.  In the frame callback `loop` (lines
  345-359), where the number of ticks run depends on how the results round,
  it is that of the program: every result is rounded to the nearest binary64
  number by `toDouble`.
* An exception is a `Result.thrown`, carrying the state reached when it was
  raised (mutations made before a `throw` persist in JavaScript).
* `Math.random()` is the sequence `Env.random`; the state counts the calls.
* `console.log` and drawing are not modelled; the render pass of a frame is
  counted.
* The page script is the structure `Page` of its closure variables, with one
  function per handler; `script` runs it from `DOMContentLoaded` through a
  sequence of events.  The chain of timeouts of `addPokemonLoop` is a total
  function defined by well-founded recursion.  The `while` loop of `loop`
  need not end, so `loop` takes the number of iterations it may follow
  (`fuel`) and returns `none` when they do not suffice; the statements give
  the result for every sufficient `fuel`.
-/

namespace PokemonParty

/-! ## Components (lines 51-112) -/

/-- Component objects, one constructor per concrete subclass of `Component`. -/
inductive Component where
  | PositionComponent (x y : ℚ)
  | RectangleComponent (width height : ℚ)
  | VelocityComponent (x y : ℚ)
  | RenderableComponent
  | SelectableComponent (selected : Bool)
  | DeleteableComponent (deleted : Bool)
  | RepositionableComponent
  | SpriteSheetSpriteComponent (image : Nat) (x y width height : ℚ)
  deriving DecidableEq

/-- The concrete component classes, as passed to `getComponent`. -/
inductive ComponentClass where
  | PositionComponent
  | RectangleComponent
  | VelocityComponent
  | RenderableComponent
  | SelectableComponent
  | DeleteableComponent
  | RepositionableComponent
  | SpriteSheetSpriteComponent
  deriving DecidableEq

/-- The class a component object was constructed from. -/
def Component.constructor : Component → ComponentClass
  | .PositionComponent _ _ => .PositionComponent
  | .RectangleComponent _ _ => .RectangleComponent
  | .VelocityComponent _ _ => .VelocityComponent
  | .RenderableComponent => .RenderableComponent
  | .SelectableComponent _ => .SelectableComponent
  | .DeleteableComponent _ => .DeleteableComponent
  | .RepositionableComponent => .RepositionableComponent
  | .SpriteSheetSpriteComponent _ _ _ _ _ => .SpriteSheetSpriteComponent

/-- The test `component instanceof type` for a concrete class `type`. -/
def Component.instanceof (component : Component) (type : ComponentClass) : Bool :=
  decide (component.constructor = type)

/-! ## Entity (lines 25-35) -/

/-- An entity object: its `components` array. -/
structure Entity where
  components : List Component
  deriving DecidableEq

/-- The constructor of `Entity`: `this.components = []`. -/
def Entity.new : Entity := ⟨[]⟩

/-- The method `addComponent`: `this.components.push(component)`. -/
def Entity.addComponent (self : Entity) (component : Component) : Entity :=
  ⟨self.components ++ [component]⟩

/-- The method `getComponent`: `this.components.find(c => c instanceof type)`;
`none` is the `undefined` that `find` returns when nothing matches. -/
def Entity.getComponent (self : Entity) (type : ComponentClass) : Option Component :=
  self.components.find? (fun component => component.instanceof type)

/-- In-place mutation of the object `getComponent type` returned: the first
component of class `type` in the array takes the new field values. -/
def assignFirst (type : ComponentClass) (value : Component) : List Component → List Component
  | [] => []
  | c :: cs => if c.instanceof type then value :: cs else c :: assignFirst type value cs

/-- The entity after the fields of its first component of class `type` were assigned. -/
def Entity.assign (self : Entity) (type : ComponentClass) (value : Component) : Entity :=
  ⟨assignFirst type value self.components⟩

/-! ## World and program state (lines 4-23) -/

/-- A reference to an entity object (object identity). -/
abbrev EntityRef := Nat

/-- The system objects: the five simulation systems, and a subclass of
`System` that does not override `update` (with its constructor name). -/
inductive System where
  | VelocitySystem
  | BounceSystem
  | SelectedSystem
  | DeleteSystem
  | RepositionSystem
  | subclass (constructorName : String)
  deriving DecidableEq

/-- The World object: the `entities` array and the `systems` array. -/
structure World where
  entities : List EntityRef
  systems : List System
  deriving DecidableEq

/-- The constructor of `World`. -/
def World.new : World := ⟨[], []⟩

/-- The method `addEntity`: `this.entities.push(entity)`. -/
def World.addEntity (self : World) (entity : EntityRef) : World :=
  { self with entities := self.entities ++ [entity] }

/-- The method `removeEntity`: `this.entities = this.entities.filter(e => e !== entity)`. -/
def World.removeEntity (self : World) (entity : EntityRef) : World :=
  { self with entities := self.entities.filter (fun e => decide (e ≠ entity)) }

/-- The method `addSystem`: `this.systems.push(system)`. -/
def World.addSystem (self : World) (system : System) : World :=
  { self with systems := self.systems ++ [system] }

/-- What the systems read from the page: the canvas size, the window size and
the values `Math.random()` returns, in call order. -/
structure Env where
  canvasWidth : ℚ
  canvasHeight : ℚ
  innerWidth : ℚ
  innerHeight : ℚ
  random : Nat → ℚ

/-- The mutable program state: the world, the entity objects, and the number
of `Math.random()` calls made so far. -/
structure State where
  world : World
  store : EntityRef → Entity
  randomCalls : Nat

/-- Exceptions: `new Error(message)`, and the `TypeError` of a property access on `undefined`. -/
inductive Error where
  | error (message : String)
  | typeError
  deriving DecidableEq

/-- Outcome of a method call: normal return, or an exception together with the
state reached when it was raised. -/
inductive Result where
  | ok (s : State)
  | thrown (e : Error) (s : State)

/-- The state an outcome carries. -/
def Result.state : Result → State
  | .ok s => s
  | .thrown _ s => s

/-- Whether the call returned normally. -/
def Result.isOk : Result → Bool
  | .ok _ => true
  | .thrown _ _ => false

/-- Sequencing: an exception skips what follows. -/
def Result.andThen (r : Result) (k : State → Result) : Result :=
  match r with
  | .ok s => k s
  | .thrown e s => .thrown e s

/-- The state in which entity `entity` has had the fields of its first
component of class `type` assigned. -/
def State.assign (s : State) (entity : EntityRef) (type : ComponentClass)
    (value : Component) : State :=
  { s with store := Function.update s.store entity ((s.store entity).assign type value) }

/-- The loop `for (let entity of entities) { body }` over the array a system was handed. -/
def forOf (body : EntityRef → State → Result) : List EntityRef → State → Result
  | [], s => .ok s
  | entity :: rest, s => (body entity s).andThen (forOf body rest)

/-! ## Systems (lines 114-263) -/

/-- The body of the loop of `VelocitySystem.update` (lines 172-177). -/
def VelocitySystem.body (entity : EntityRef) (s : State) : Result :=
  match (s.store entity).getComponent .VelocityComponent,
        (s.store entity).getComponent .PositionComponent with
  | some (.VelocityComponent vx vy), some (.PositionComponent px py) =>
      .ok (s.assign entity .PositionComponent (.PositionComponent (px + vx) (py + vy)))
  | _, _ => .ok s

/-- The method `VelocitySystem.update` (lines 170-179). -/
def VelocitySystem.update (entities : List EntityRef) (s : State) : Result :=
  forOf VelocitySystem.body entities s

/-- The body of the loop of `BounceSystem.update` (lines 189-199).  With no
velocity component, `velocity.x *= -1` raises a `TypeError`. -/
def BounceSystem.body (env : Env) (entity : EntityRef) (s : State) : Result :=
  match (s.store entity).getComponent .PositionComponent,
        (s.store entity).getComponent .RectangleComponent with
  | some (.PositionComponent px py), some (.RectangleComponent width height) =>
      match (s.store entity).getComponent .VelocityComponent with
      | some (.VelocityComponent vx vy) =>
          .ok (s.assign entity .VelocityComponent
            (.VelocityComponent
              (if px < 0 ∨ px + width > env.canvasWidth then vx * -1 else vx)
              (if py < 0 ∨ py + height > env.canvasHeight then vy * -1 else vy)))
      | _ =>
          if (px < 0 ∨ px + width > env.canvasWidth)
              ∨ (py < 0 ∨ py + height > env.canvasHeight) then
            .thrown .typeError s
          else .ok s
  | _, _ => .ok s

/-- The method `BounceSystem.update` (lines 187-201). -/
def BounceSystem.update (env : Env) (entities : List EntityRef) (s : State) : Result :=
  forOf (BounceSystem.body env) entities s

/-- The body of the loop of `SelectedSystem.update` (lines 211-217). -/
def SelectedSystem.body (entity : EntityRef) (s : State) : Result :=
  match (s.store entity).getComponent .SelectableComponent,
        (s.store entity).getComponent .DeleteableComponent with
  | some (.SelectableComponent true), some (.DeleteableComponent _) =>
      .ok ((s.assign entity .SelectableComponent (.SelectableComponent false)).assign
        entity .DeleteableComponent (.DeleteableComponent true))
  | _, _ => .ok s

/-- The method `SelectedSystem.update` (lines 209-219). -/
def SelectedSystem.update (entities : List EntityRef) (s : State) : Result :=
  forOf SelectedSystem.body entities s

/-- The body of the loop of `DeleteSystem.update` (lines 230-233); `this.world`
is the world of the state. -/
def DeleteSystem.body (entity : EntityRef) (s : State) : Result :=
  match (s.store entity).getComponent .DeleteableComponent with
  | some (.DeleteableComponent true) =>
      .ok { s with world := s.world.removeEntity entity }
  | _ => .ok s

/-- The method `DeleteSystem.update` (lines 228-235). -/
def DeleteSystem.update (entities : List EntityRef) (s : State) : Result :=
  forOf DeleteSystem.body entities s

/-- The body of the loop of `RepositionSystem.update` (lines 245-260). -/
def RepositionSystem.body (env : Env) (entity : EntityRef) (s : State) : Result :=
  match (s.store entity).getComponent .RepositionableComponent,
        (s.store entity).getComponent .PositionComponent,
        (s.store entity).getComponent .RectangleComponent with
  | some _, some (.PositionComponent px py), some (.RectangleComponent width height) =>
      if px + width - 4 > env.innerWidth ∨ py + height - 4 > env.innerHeight then
        .ok { s.assign entity .PositionComponent
                (.PositionComponent (env.random s.randomCalls * (env.canvasWidth - 64))
                  (env.random (s.randomCalls + 1) * (env.canvasHeight - 64))) with
              randomCalls := s.randomCalls + 2 }
      else .ok s
  | _, _, _ => .ok s

/-- The method `RepositionSystem.update` (lines 243-262). -/
def RepositionSystem.update (env : Env) (entities : List EntityRef) (s : State) : Result :=
  forOf (RepositionSystem.body env) entities s

/-- The message of the error the base class raises (line 116). -/
def System.abstractMessage (constructorName : String) : String :=
  "Abstract " ++ String.singleton (Char.ofNat 39) ++ "method" ++ String.singleton (Char.ofNat 39)
    ++ " update not implemented for System subclass:" ++ constructorName

/-- Dynamic dispatch of `system.update(entities)`; a subclass without an
override runs `System.update` (lines 115-117), which throws. -/
def System.update (env : Env) (system : System) (entities : List EntityRef) (s : State) :
    Result :=
  match system with
  | .VelocitySystem => VelocitySystem.update entities s
  | .BounceSystem => BounceSystem.update env entities s
  | .SelectedSystem => SelectedSystem.update entities s
  | .DeleteSystem => DeleteSystem.update entities s
  | .RepositionSystem => RepositionSystem.update env entities s
  | .subclass constructorName => .thrown (.error (System.abstractMessage constructorName)) s

/-- The loop of `World.update` over the systems still to run: each call reads
`this.entities` afresh (line 20). -/
def World.runSystems (env : Env) : List System → State → Result
  | [], s => .ok s
  | system :: rest, s =>
      (system.update env s.world.entities s).andThen (World.runSystems env rest)

/-- The method `World.update` (lines 18-22); the systems ignore `timestamp`. -/
def World.update (env : Env) (_timestamp : ℚ) (s : State) : Result :=
  World.runSystems env s.world.systems s

/-! ## Auxiliary definitions used in the statements and proofs -/

/-- The state in which the entity object `entity` was mutated by `f`. -/
def State.modify (s : State) (entity : EntityRef) (f : Entity → Entity) : State :=
  { s with store := Function.update s.store entity (f (s.store entity)) }

/-- What one visit of the loop of `VelocitySystem.update` does to the entity object. -/
def VelocitySystem.visit (entity : Entity) : Entity :=
  match entity.getComponent .VelocityComponent, entity.getComponent .PositionComponent with
  | some (.VelocityComponent vx vy), some (.PositionComponent px py) =>
      entity.assign .PositionComponent (.PositionComponent (px + vx) (py + vy))
  | _, _ => entity

/-- A state whose world holds `entities` and in which every reference denotes
an object with the components `components`. -/
def State.uniform (entities : List EntityRef) (components : List Component) : State :=
  { world := { entities := entities, systems := [] }
    store := fun _ => { components := components }
    randomCalls := 0 }

/-- What one visit of the loop of `BounceSystem.update` does to the entity
object when it does not throw. -/
def BounceSystem.visit (env : Env) (entity : Entity) : Entity :=
  match entity.getComponent .PositionComponent, entity.getComponent .RectangleComponent,
        entity.getComponent .VelocityComponent with
  | some (.PositionComponent px py), some (.RectangleComponent width height),
    some (.VelocityComponent vx vy) =>
      entity.assign .VelocityComponent
        (.VelocityComponent
          (if px < 0 ∨ px + width > env.canvasWidth then vx * -1 else vx)
          (if py < 0 ∨ py + height > env.canvasHeight then vy * -1 else vy))
  | _, _, _ => entity

/-- Whether a visit of the loop of `BounceSystem.update` throws on the entity object. -/
def BounceSystem.throws (env : Env) (entity : Entity) : Bool :=
  match entity.getComponent .PositionComponent, entity.getComponent .RectangleComponent,
        entity.getComponent .VelocityComponent with
  | some (.PositionComponent px py), some (.RectangleComponent width height), none =>
      decide ((px < 0 ∨ px + width > env.canvasWidth)
        ∨ (py < 0 ∨ py + height > env.canvasHeight))
  | _, _, _ => false

/-- A page whose canvas and window both measure `width` by `height`, with
`Math.random()` returning `0`. -/
def Env.stage (width height : ℚ) : Env :=
  { canvasWidth := width, canvasHeight := height, innerWidth := width, innerHeight := height
    random := fun _ => 0 }

/-- What one visit of the loop of `SelectedSystem.update` does to the entity object. -/
def SelectedSystem.visit (entity : Entity) : Entity :=
  match entity.getComponent .SelectableComponent, entity.getComponent .DeleteableComponent with
  | some (.SelectableComponent true), some (.DeleteableComponent _) =>
      (entity.assign .SelectableComponent (.SelectableComponent false)).assign
        .DeleteableComponent (.DeleteableComponent true)
  | _, _ => entity

/-- Whether the entity has a Deletable component with `deleted = true`: the
test `deleteable && deleteable.deleted` of `DeleteSystem.update` (line 231). -/
def State.deleted (s : State) (entity : EntityRef) : Bool :=
  match (s.store entity).getComponent .DeleteableComponent with
  | some (.DeleteableComponent true) => true
  | _ => false

/-- Whether a visit of the loop of `RepositionSystem.update` relocates the
entity object: it has Repositionable, Position and Bounds, and the test of
lines 252-257 holds. -/
def RepositionSystem.triggered (env : Env) (entity : Entity) : Bool :=
  match entity.getComponent .RepositionableComponent,
        entity.getComponent .PositionComponent,
        entity.getComponent .RectangleComponent with
  | some _, some (.PositionComponent px py), some (.RectangleComponent width height) =>
      decide (px + width - 4 > env.innerWidth ∨ py + height - 4 > env.innerHeight)
  | _, _, _ => false

/-- The world as the program sets it up (lines 272-278): the five simulation
systems registered in the order Velocity, Bounce, Selected, Delete, Reposition. -/
def World.program : World :=
  ((((World.new.addSystem .VelocitySystem).addSystem .BounceSystem).addSystem
    .SelectedSystem).addSystem .DeleteSystem).addSystem .RepositionSystem

/-- The tick as the specification words it: go through the system list in
order and call `system.update(currentEntityCollection, timestamp)` for each,
reading the current collection before each call. -/
def World.tickSpec (env : Env) (systems : List System) (s : State) : Result :=
  systems.foldl
    (fun r system => r.andThen (fun current => system.update env current.world.entities current))
    (.ok s)

/-- A sequence of ticks, each with the page as it is at that tick and its
timestamp, with no other call in between (the calls of line 354). -/
def World.ticks : List (Env × ℚ) → State → Result
  | [], s => .ok s
  | frame :: rest, s => (World.update frame.1 frame.2 s).andThen (World.ticks rest)

/-- A state of the program's world (`World.program`) holding the entity
objects `objects`, numbered from `0` in the order they were added. -/
def State.ofObjects (objects : List (List Component)) : State :=
  { world := { World.program with entities := List.range objects.length }
    store := fun e => { components := objects.getD e [] }
    randomCalls := 0 }

/-- The body of the loop of the canvas click handler (lines 285-294), for a
click at `(x, y)` = `(event.clientX, event.clientY)`. -/
def onClick.body (x y : ℚ) (entity : EntityRef) (s : State) : Result :=
  match (s.store entity).getComponent .PositionComponent,
        (s.store entity).getComponent .RectangleComponent with
  | some (.PositionComponent px py), some (.RectangleComponent width height) =>
      if x > px ∧ x < px + width ∧ y > py ∧ y < py + height then
        match (s.store entity).getComponent .SelectableComponent with
        | some (.SelectableComponent false) =>
            .ok (s.assign entity .SelectableComponent (.SelectableComponent true))
        | _ => .ok s
      else .ok s
  | _, _ => .ok s

/-- The canvas click handler (lines 281-296): it goes through `world.entities`. -/
def onClick (x y : ℚ) (s : State) : Result :=
  forOf (onClick.body x y) s.world.entities s

/-- What one visit of the loop of the click handler does to the entity object. -/
def onClick.visit (x y : ℚ) (entity : Entity) : Entity :=
  match entity.getComponent .PositionComponent, entity.getComponent .RectangleComponent,
        entity.getComponent .SelectableComponent with
  | some (.PositionComponent px py), some (.RectangleComponent width height),
    some (.SelectableComponent false) =>
      if x > px ∧ x < px + width ∧ y > py ∧ y < py + height then
        entity.assign .SelectableComponent (.SelectableComponent true)
      else entity
  | _, _, _ => entity

/-- A number of ticks each consisting of a `VelocitySystem.update` pass
followed by a `BounceSystem.update` pass over the same collection. -/
def velocityBounce (env : Env) (entities : List EntityRef) : Nat → State → Result
  | 0, s => .ok s
  | n + 1, s =>
      ((VelocitySystem.update entities s).andThen (BounceSystem.update env entities)).andThen
        (velocityBounce env entities n)

/-- Containment of one coordinate `p` moving with velocity `v` on a stage of
length `L`, for bounds of length `len`: within the stage, or past the near edge
by at most `|v|` and heading back, or past the far edge by at most `|v|` and
heading back. -/
def Contained (p v L len : ℚ) : Prop :=
  (0 ≤ p ∧ p ≤ L - len) ∨ (p < 0 ∧ -|v| ≤ p ∧ 0 < v) ∨ (L - len < p ∧ p ≤ L - len + |v| ∧ v < 0)

/-! ## Numbers of the frame loop (lines 341-359)

The number of ticks a frame runs is decided by comparing rounded values, so the
arithmetic of `loop` is that of JavaScript numbers: IEEE 754 binary64 with
rounding to nearest, ties to even.  A finite number is the rational it
denotes, and the result of an operation is the exact result rounded by
`toDouble`. -/

/-- The integer nearest to `q`, the even one of the two when `q` lies halfway
between them. -/
def roundHalfEven (q : ℚ) : ℤ :=
  if q - ⌊q⌋ < 1 / 2 then ⌊q⌋
  else if 1 / 2 < q - ⌊q⌋ then ⌊q⌋ + 1
  else if ⌊q⌋ % 2 = 0 then ⌊q⌋
  else ⌊q⌋ + 1

/-- The binary64 number nearest to `x`, ties to even: `x` is rounded to a
multiple of `2 ^ e`, where `e` leaves 53 significant bits
(`2 ^ (e + 52) <= |x| < 2 ^ (e + 53)`) and is `-1074` for the subnormal numbers
below `2 ^ (-1022)`.  Where binary64 overflows to `Infinity` (from
`2 ^ 1024 - 2 ^ 970` on) the function still returns a rational; the statements
below keep every value under `2 ^ 56`. -/
def toDouble (x : ℚ) : ℚ :=
  if x = 0 then 0
  else roundHalfEven (x / 2 ^ max (Int.log 2 |x| - 52) (-1074))
    * 2 ^ max (Int.log 2 |x| - 52) (-1074)

/-- The rational `x` is a binary64 number: rounding leaves it as it is.  (Of
the rationals of magnitude `2 ^ 1024` and more, which are no binary64 numbers,
the statements below use none: they bound what they take by `2 ^ 53`.) -/
def IsDouble (x : ℚ) : Prop := toDouble x = x

/-- The accumulator after one iteration of the `while` loop of `loop`
(line 355): `acculumatedTime -= 1000 / 60`, both operations rounded. -/
def drainStep (a : ℚ) : ℚ := toDouble (a - toDouble (1000 / 60))

/-! ## The page script (lines 265-361)

The variables of the `DOMContentLoaded` closure are the fields of `Page`.  The
fields `spawned`, `ticks`, `renders` and `requests` are not variables of the
script: they record the calls it makes (the arguments `no` of `addPokemon`, and
the numbers of calls of `world.update`, `renderSystem.update` and
`requestAnimationFrame`).  `allocated` is the number of entity objects
constructed so far; a new object gets that number as its reference. -/

/-- The state of the page script. -/
structure Page where
  sim : State
  allocated : Nat
  i : Nat
  delay : ℚ
  pending : Option ℚ
  lastRender : ℚ
  acculumatedTime : ℚ
  spawned : List Nat
  ticks : Nat
  renders : Nat
  requests : Nat

/-- Outcome of a handler of the page script: normal return, or an exception
with the page state reached when it was raised. -/
inductive PageResult where
  | ok (p : Page)
  | thrown (e : Error) (p : Page)

/-- The page state an outcome carries. -/
def PageResult.page : PageResult → Page
  | .ok p => p
  | .thrown _ p => p

/-- Whether the handler returned normally. -/
def PageResult.isOk : PageResult → Bool
  | .ok _ => true
  | .thrown _ _ => false

/-- Sequencing of handlers: an exception ends the sequence, since the frame
that raised it never requests the next one. -/
def PageResult.andThen (r : PageResult) (k : Page → PageResult) : PageResult :=
  match r with
  | .ok p => k p
  | .thrown e p => .thrown e p

/-- The page when the script has set up the world (lines 272-278, 326-327,
341-343) and before its first call: the program's systems, no entity, `i = 0`,
`delay = 800`, `lastRender = 0`, `acculumatedTime = 0`. -/
def Page.initial : Page :=
  { sim := { world := World.program, store := fun _ => Entity.new, randomCalls := 0 }
    allocated := 0, i := 0, delay := 800, pending := none
    lastRender := 0, acculumatedTime := 0
    spawned := [], ticks := 0, renders := 0, requests := 0 }

/-- The image element `document.getElementById(spritesheet)`; `0` stands for
the `undefined` image of a sprite component that has not been set up. -/
def spritesheet : Nat := 1

/-- The constructor of `PokemonEntity` (lines 38-48).  The numeric fields the
component constructors leave `undefined` are `0` here: `addPokemon` assigns all
of them before the entity is added to the world. -/
def PokemonEntity.new : Entity :=
  (((((((Entity.new.addComponent (.PositionComponent 0 0)).addComponent
    (.RectangleComponent 64 64)).addComponent (.VelocityComponent 0 0)).addComponent
    .RenderableComponent).addComponent (.SpriteSheetSpriteComponent 0 0 0 0 0)).addComponent
    (.SelectableComponent false)).addComponent (.DeleteableComponent false)).addComponent
    .RepositionableComponent

/-- The function `addPokemon(no, world)` (lines 303-325); the five
`Math.random()` calls are made in the order position.x, position.y, rate, sign
of velocity.x, sign of velocity.y. -/
def addPokemon (env : Env) (no : Nat) (p : Page) : Page :=
  let row := no % 16
  let col := no / 16
  let pokemon := PokemonEntity.new.assign .SpriteSheetSpriteComponent
    (.SpriteSheetSpriteComponent spritesheet (row * 64) (col * 64) 64 64)
  match pokemon.getComponent .RectangleComponent with
  | some (.RectangleComponent width height) =>
      let r := p.sim.randomCalls
      let positioned := pokemon.assign .PositionComponent
        (.PositionComponent (env.random r * (env.canvasWidth - width))
          (env.random (r + 1) * (env.canvasHeight - height)))
      let rate := env.random (r + 2) * (3 / 2) + 1 / 2
      let moving := positioned.assign .VelocityComponent
        (.VelocityComponent (if env.random (r + 3) > 1 / 2 then rate else -rate)
          (if env.random (r + 4) > 1 / 2 then rate else -rate))
      { p with
        sim := { world := p.sim.world.addEntity p.allocated
                 store := Function.update p.sim.store p.allocated moving
                 randomCalls := r + 5 }
        allocated := p.allocated + 1
        spawned := p.spawned ++ [no] }
  | _ => p

/-- The function `addPokemonLoop` (lines 328-338); `pending` is the delay of
the timeout it sets with `setTimeout(addPokemonLoop, delay)`, if it sets one. -/
def addPokemonLoop (env : Env) (p : Page) : Page :=
  let p1 := addPokemon env p.i p
  let i := p1.i + 1
  let delay := if p1.delay > 200 then p1.delay * (9 / 10) else p1.delay
  { p1 with i := i, delay := delay, pending := if i < 151 then some delay else none }

set_option linter.unusedVariables false in
/-- The spawn schedule when every timeout set by `addPokemonLoop` fires: the
function runs again for as long as a timeout is pending. -/
def runTimeouts (env : Env) (p : Page) : Page :=
  match h : p.pending with
  | some _ => runTimeouts env (addPokemonLoop env p)
  | none => p
termination_by (match p.pending with
  | some _ => 1 + (151 - p.i)
  | none => 0)
decreasing_by
  have hi : (addPokemonLoop env p).i = p.i + 1 := by
    simp only [addPokemonLoop, addPokemon]
    split <;> rfl
  have hpending : (addPokemonLoop env p).pending
      = if (addPokemonLoop env p).i < 151 then some (addPokemonLoop env p).delay else none := by
    simp only [addPokemonLoop, addPokemon]
  rw [h, hpending, hi]
  by_cases hlt : p.i + 1 < 151
  · simp only [if_pos hlt]
    omega
  · simp only [if_neg hlt]
    omega

/-- The spawn schedule from the start of the script: the call of line 339 and
then every timeout. -/
def spawnSchedule (env : Env) : Page :=
  runTimeouts env (addPokemonLoop env Page.initial)

/-- The flag `won` (line 343), never assigned after its declaration. -/
def won : Bool := false

/-- The `while` loop of `loop` (lines 353-356), followed for at most `fuel`
iterations: `none` when the loop has not ended by then.  The comparison and
the subtraction are those of binary64 numbers, `1000 / 60` being the rounded
quotient.  A tick that throws ends the loop with the exception, the
accumulator not yet decreased. -/
def loopWhile (env : Env) (timestamp : ℚ) : Nat → Page → Option PageResult
  | 0, _ => none
  | fuel + 1, p =>
      if p.acculumatedTime ≥ toDouble (1000 / 60) then
        match World.update env timestamp p.sim with
        | .ok s1 =>
            loopWhile env timestamp fuel
              { p with sim := s1, ticks := p.ticks + 1
                       acculumatedTime := toDouble (p.acculumatedTime - toDouble (1000 / 60)) }
        | .thrown e s1 => some (.thrown e { p with sim := s1, ticks := p.ticks + 1 })
      else some (.ok p)

/-- The frame callback `loop(timestamp)` (lines 345-359), its `while` loop
followed for at most `fuel` iterations.  The difference `timestamp -
lastRender` and the sum `acculumatedTime += delta` are rounded.  The render
pass `renderSystem.update(world.entities)` draws and is counted, not
modelled. -/
def loop (env : Env) (timestamp : ℚ) (fuel : Nat) (p : Page) : Option PageResult :=
  if won then some (.ok p)
  else
    let delta := toDouble (timestamp - p.lastRender)
    (loopWhile env timestamp fuel
        { p with lastRender := timestamp
                 acculumatedTime := toDouble (p.acculumatedTime + delta) }).map
      (fun r => r.andThen
        (fun p1 => .ok { p1 with renders := p1.renders + 1, requests := p1.requests + 1 }))

/-- The contract of `BounceSystem` on the World's collection: every entity of
the collection that holds Position and Bounds holds Velocity. -/
def State.bounceSafe (s : State) : Prop :=
  ∀ e ∈ s.world.entities, (s.store e).getComponent .PositionComponent ≠ none →
    (s.store e).getComponent .RectangleComponent ≠ none →
    (s.store e).getComponent .VelocityComponent ≠ none

/-- The page with the canvas given the size `width` by `height` of the window:
`canvas.width = window.innerWidth; canvas.height = window.innerHeight`
(lines 269-270 and 299-300). -/
def Env.resized (env : Env) (width height : ℚ) : Env :=
  { env with canvasWidth := width, canvasHeight := height
             innerWidth := width, innerHeight := height }

/-- The events the page script handles once it has run: an animation frame
with its timestamp, the timeout set by `addPokemonLoop`, a click on the canvas
at `(clientX, clientY)`, and a resize of the window to a new size. -/
inductive Event where
  | frame (timestamp : ℚ)
  | timeout
  | click (clientX clientY : ℚ)
  | resize (innerWidth innerHeight : ℚ)

/-- The timestamps of the animation frames of a sequence of events, in order. -/
def frameTimes : List Event → List ℚ
  | [] => []
  | .frame timestamp :: rest => timestamp :: frameTimes rest
  | .timeout :: rest => frameTimes rest
  | .click _ _ :: rest => frameTimes rest
  | .resize _ _ :: rest => frameTimes rest

/-- The handler the page script runs for an event: `loop` for a frame (`none`
when `fuel` iterations do not end its `while` loop), `addPokemonLoop` for the
timeout if one is pending, the click handler, and the resize handler of lines
298-301. -/
def Event.handle (fuel : Nat) (event : Event) (env : Env) (p : Page) :
    Option (Env × PageResult) :=
  match event with
  | .frame timestamp => (loop env timestamp fuel p).map (fun r => (env, r))
  | .timeout =>
      match p.pending with
      | some _ => some (env, .ok (addPokemonLoop env p))
      | none => some (env, .ok p)
  | .click clientX clientY =>
      match onClick clientX clientY p.sim with
      | .ok s1 => some (env, .ok { p with sim := s1 })
      | .thrown e s1 => some (env, .thrown e { p with sim := s1 })
  | .resize innerWidth innerHeight => some (env.resized innerWidth innerHeight, .ok p)

/-- A sequence of events handled one after the other, every frame with `fuel`
iterations at most; an exception in a handler ends the sequence there. -/
def run (fuel : Nat) : List Event → Env → Page → Option (Env × PageResult)
  | [], env, p => some (env, .ok p)
  | event :: rest, env, p =>
      match event.handle fuel env p with
      | some (env1, .ok p1) => run fuel rest env1 p1
      | some (env1, .thrown e p1) => some (env1, .thrown e p1)
      | none => none

/-- The page script from `DOMContentLoaded` on: the canvas takes the size of
the window, `addPokemonLoop()` (line 339) and `loop(0)` (line 360) are called,
and then the events are handled. -/
def script (fuel : Nat) (env : Env) (events : List Event) : Option (Env × PageResult) :=
  match loop (env.resized env.innerWidth env.innerHeight) 0 fuel
      (addPokemonLoop (env.resized env.innerWidth env.innerHeight) Page.initial) with
  | some (.ok p) => run fuel events (env.resized env.innerWidth env.innerHeight) p
  | some (.thrown e p) => some (env.resized env.innerWidth env.innerHeight, .thrown e p)
  | none => none

/-- The accumulator with which the `while` loop of a frame at `timestamp`
starts (lines 350-352): `acculumatedTime + (timestamp - lastRender)`, both
operations rounded. -/
def Page.accumulated (p : Page) (timestamp : ℚ) : ℚ :=
  toDouble (p.acculumatedTime + toDouble (timestamp - p.lastRender))

/-- What holds of the page between two events: the program's systems, the
contract of `BounceSystem`, binary64 numbers in `acculumatedTime` and
`lastRender`, an accumulator within one tick duration, and simulation time
within the accumulated rounding error of the time of the last frame. -/
def Page.Consistent (p : Page) : Prop :=
  p.sim.world.systems = World.program.systems ∧ p.sim.bounceSafe
    ∧ IsDouble p.acculumatedTime ∧ IsDouble p.lastRender
    ∧ 0 ≤ p.acculumatedTime ∧ p.acculumatedTime < toDouble (1000 / 60)
    ∧ 0 ≤ p.lastRender
    ∧ |p.ticks * toDouble (1000 / 60) + p.acculumatedTime - p.lastRender|
        ≤ (2 * p.ticks + 3 * p.renders) * (p.lastRender + toDouble (1000 / 60)) / 2 ^ 53

/-! ## Lemmas on the component store -/

theorem find_assignFirst_same (type : ComponentClass) (value : Component)
    (hv : value.instanceof type = true) (cs : List Component) :
    (assignFirst type value cs).find? (fun c => c.instanceof type)
      = (cs.find? (fun c => c.instanceof type)).map (fun _ => value) := by
  induction cs with
  | nil => rfl
  | cons c cs ih =>
    by_cases hc : c.instanceof type = true
    · simp [assignFirst, hc, hv, List.find?_cons]
    · simp [assignFirst, hc, List.find?_cons, ih]

theorem find_assignFirst_other (type other : ComponentClass) (value : Component)
    (hv : value.instanceof type = true) (hne : other ≠ type) (cs : List Component) :
    (assignFirst type value cs).find? (fun c => c.instanceof other)
      = cs.find? (fun c => c.instanceof other) := by
  have hvo : value.instanceof other = false := by
    simp only [Component.instanceof, decide_eq_true_eq, decide_eq_false_iff_not] at hv ⊢
    rw [hv]; exact fun h => hne h.symm
  induction cs with
  | nil => rfl
  | cons c cs ih =>
    by_cases hc : c.instanceof type = true
    · have hco : c.instanceof other = false := by
        simp only [Component.instanceof, decide_eq_true_eq, decide_eq_false_iff_not] at hc ⊢
        rw [hc]; exact fun h => hne h.symm
      simp [assignFirst, hc, List.find?_cons, hvo, hco]
    · simp [assignFirst, hc, List.find?_cons, ih]

theorem Entity.getComponent_assign_same (self : Entity) (type : ComponentClass)
    (value : Component) (hv : value.instanceof type = true) :
    (self.assign type value).getComponent type
      = (self.getComponent type).map (fun _ => value) :=
  find_assignFirst_same type value hv self.components

theorem Entity.getComponent_assign_other (self : Entity) (type other : ComponentClass)
    (value : Component) (hv : value.instanceof type = true) (hne : other ≠ type) :
    (self.assign type value).getComponent other = self.getComponent other :=
  find_assignFirst_other type other value hv hne self.components

theorem Entity.getComponent_instanceof (self : Entity) (type : ComponentClass)
    (c : Component) (h : self.getComponent type = some c) : c.constructor = type := by
  have := List.find?_some h
  simpa [Component.instanceof] using this

theorem forOf_modify (f : Entity → Entity) (body : EntityRef → State → Result)
    (hbody : ∀ e s, body e s = .ok (s.modify e f)) (entities : List EntityRef) (s : State) :
    forOf body entities s
      = .ok { s with store := fun e => f^[entities.count e] (s.store e) } := by
  induction entities generalizing s with
  | nil => simp [forOf]
  | cons a rest ih =>
    simp only [forOf, hbody, Result.andThen, ih]
    congr 1
    simp only [State.modify]
    congr 1
    funext e
    by_cases h : a = e
    · subst h
      simp [Function.update_same, Function.iterate_succ_apply]
    · have h2 : e ≠ a := fun h3 => h h3.symm
      simp [Function.update_noteq h2, List.count_cons, h]

theorem State.modify_self (s : State) (entity : EntityRef) (f : Entity → Entity)
    (h : f (s.store entity) = s.store entity) : s.modify entity f = s := by
  simp [State.modify, h]

theorem State.assign_eq_modify (s : State) (entity : EntityRef) (type : ComponentClass)
    (value : Component) :
    s.assign entity type value = s.modify entity (fun x => x.assign type value) := rfl

theorem VelocitySystem_body_eq (entity : EntityRef) (s : State) :
    VelocitySystem.body entity s = .ok (s.modify entity VelocitySystem.visit) := by
  unfold VelocitySystem.body VelocitySystem.visit
  split
  · rename_i vx vy px py hv hp
    simp [hv, hp, State.assign_eq_modify, State.modify]
  · rename_i hne
    rw [State.modify_self]
    split
    · rename_i vx vy px py hv hp
      exact absurd hp (hne vx vy px py hv)
    · rfl

theorem VelocitySystem_update_eq (entities : List EntityRef) (s : State) :
    VelocitySystem.update entities s
      = .ok { s with store := fun e => VelocitySystem.visit^[entities.count e] (s.store e) } :=
  forOf_modify VelocitySystem.visit VelocitySystem.body VelocitySystem_body_eq entities s

theorem VelocitySystem_visit_of_lacking (entity : Entity)
    (h : entity.getComponent .PositionComponent = none
      ∨ entity.getComponent .VelocityComponent = none) :
    VelocitySystem.visit entity = entity := by
  unfold VelocitySystem.visit
  split
  · rename_i vx vy px py hv hp
    rcases h with h | h
    · rw [h] at hp; cases hp
    · rw [h] at hv; cases hv
  · rfl

theorem Entity.getComponent_cases (self : Entity) (type : ComponentClass) :
    self.getComponent type = none
      ∨ ∃ c, self.getComponent type = some c ∧ c.constructor = type := by
  cases h : self.getComponent type with
  | none => exact Or.inl rfl
  | some c => exact Or.inr ⟨c, rfl, Entity.getComponent_instanceof self type c h⟩

theorem Entity.getComponent_position (self : Entity) :
    self.getComponent .PositionComponent = none
      ∨ ∃ x y, self.getComponent .PositionComponent = some (.PositionComponent x y) := by
  rcases self.getComponent_cases .PositionComponent with h | ⟨c, h, hc⟩
  · exact Or.inl h
  · cases c <;> simp [Component.constructor] at hc
    exact Or.inr ⟨_, _, h⟩

theorem Entity.getComponent_rectangle (self : Entity) :
    self.getComponent .RectangleComponent = none
      ∨ ∃ w h, self.getComponent .RectangleComponent = some (.RectangleComponent w h) := by
  rcases self.getComponent_cases .RectangleComponent with h | ⟨c, h, hc⟩
  · exact Or.inl h
  · cases c <;> simp [Component.constructor] at hc
    exact Or.inr ⟨_, _, h⟩

theorem Entity.getComponent_velocity (self : Entity) :
    self.getComponent .VelocityComponent = none
      ∨ ∃ x y, self.getComponent .VelocityComponent = some (.VelocityComponent x y) := by
  rcases self.getComponent_cases .VelocityComponent with h | ⟨c, h, hc⟩
  · exact Or.inl h
  · cases c <;> simp [Component.constructor] at hc
    exact Or.inr ⟨_, _, h⟩

theorem BounceSystem_body_eq (env : Env) (entity : EntityRef) (s : State) :
    BounceSystem.body env entity s
      = if BounceSystem.throws env (s.store entity) then .thrown .typeError s
        else .ok (s.modify entity (BounceSystem.visit env)) := by
  unfold BounceSystem.body BounceSystem.throws BounceSystem.visit
  rcases (s.store entity).getComponent_position with hp | ⟨px, py, hp⟩
  · simp [hp, State.modify]
  rcases (s.store entity).getComponent_rectangle with hr | ⟨w, h, hr⟩
  · simp [hp, hr, State.modify]
  rcases (s.store entity).getComponent_velocity with hv | ⟨vx, vy, hv⟩
  · by_cases hc : (px < 0 ∨ px + w > env.canvasWidth) ∨ (py < 0 ∨ py + h > env.canvasHeight)
    · simp [hp, hr, hv, hc]
    · simp [hp, hr, hv, hc, State.modify]
  · simp [hp, hr, hv, State.modify, State.assign]

theorem forOf_guarded (visit : Entity → Entity) (throws : Entity → Bool) (err : Error)
    (body : EntityRef → State → Result)
    (hbody : ∀ e s, body e s
      = if throws (s.store e) then .thrown err s else .ok (s.modify e visit))
    (entities : List EntityRef) (s : State) :
    ∃ k : EntityRef → Nat, (∀ e, k e ≤ entities.count e)
      ∧ (forOf body entities s).state = { s with store := fun e => visit^[k e] (s.store e) }
      ∧ ((forOf body entities s).isOk = true → ∀ e, k e = entities.count e) := by
  induction entities generalizing s with
  | nil => exact ⟨fun _ => 0, by simp, by simp [forOf, Result.state], by simp⟩
  | cons a rest ih =>
    by_cases ht : throws (s.store a) = true
    · refine ⟨fun _ => 0, by simp, ?_, ?_⟩
      · simp [forOf, hbody, ht, Result.andThen, Result.state]
      · simp [forOf, hbody, ht, Result.andThen, Result.isOk]
    · obtain ⟨k, hk, hstate, hok⟩ := ih (s.modify a visit)
      have hrun : forOf body (a :: rest) s = forOf body rest (s.modify a visit) := by
        simp [forOf, hbody, ht, Result.andThen]
      refine ⟨fun e => k e + if a = e then 1 else 0, ?_, ?_, ?_⟩
      · intro e
        have := hk e
        by_cases h : a = e <;> simp [List.count_cons, h] <;> omega
      · rw [hrun, hstate]
        simp only [State.modify]
        congr 1
        funext e
        by_cases h : a = e
        · subst h
          simp [Function.update_same, Function.iterate_succ_apply]
        · have h2 : e ≠ a := fun h3 => h h3.symm
          simp [Function.update_noteq h2, h]
      · intro h e
        rw [hrun] at h
        have := hok h e
        by_cases h : a = e <;> simp [List.count_cons, h] <;> omega

theorem forOf_guarded_ok (visit : Entity → Entity) (throws : Entity → Bool) (err : Error)
    (body : EntityRef → State → Result)
    (hbody : ∀ e s, body e s
      = if throws (s.store e) then .thrown err s else .ok (s.modify e visit))
    (hvisit : ∀ x, throws (visit x) = throws x)
    (entities : List EntityRef) (s : State)
    (hno : ∀ e ∈ entities, throws (s.store e) = false) :
    (forOf body entities s).isOk = true := by
  induction entities generalizing s with
  | nil => simp [forOf, Result.isOk]
  | cons a rest ih =>
    have ha := hno a (List.mem_cons_self a rest)
    have hrun : forOf body (a :: rest) s = forOf body rest (s.modify a visit) := by
      simp [forOf, hbody, ha, Result.andThen]
    rw [hrun]
    apply ih
    intro e he
    simp only [State.modify]
    by_cases h : e = a
    · subst h
      simp [Function.update_same, hvisit, ha]
    · simp [Function.update_noteq h, hno e (List.mem_cons_of_mem a he)]


theorem BounceSystem_visit_of_all (env : Env) (x : Entity) (px py w h vx vy : ℚ)
    (hp : x.getComponent .PositionComponent = some (.PositionComponent px py))
    (hr : x.getComponent .RectangleComponent = some (.RectangleComponent w h))
    (hv : x.getComponent .VelocityComponent = some (.VelocityComponent vx vy)) :
    BounceSystem.visit env x = x.assign .VelocityComponent
        (.VelocityComponent
          (if px < 0 ∨ px + w > env.canvasWidth then -vx else vx)
          (if py < 0 ∨ py + h > env.canvasHeight then -vy else vy)) := by
  simp [BounceSystem.visit, hp, hr, hv]

theorem BounceSystem_visit_cases (env : Env) (x : Entity) :
    BounceSystem.visit env x = x
      ∨ ∃ px py w h vx vy,
          x.getComponent .PositionComponent = some (.PositionComponent px py)
          ∧ x.getComponent .RectangleComponent = some (.RectangleComponent w h)
          ∧ x.getComponent .VelocityComponent = some (.VelocityComponent vx vy) := by
  rcases x.getComponent_position with hp | ⟨px, py, hp⟩
  · left; simp [BounceSystem.visit, hp]
  rcases x.getComponent_rectangle with hr | ⟨w, h, hr⟩
  · left; simp [BounceSystem.visit, hp, hr]
  rcases x.getComponent_velocity with hv | ⟨vx, vy, hv⟩
  · left; simp [BounceSystem.visit, hp, hr, hv]
  · exact Or.inr ⟨px, py, w, h, vx, vy, hp, hr, hv⟩

theorem BounceSystem_visit_other (env : Env) (x : Entity) (type : ComponentClass)
    (ht : type ≠ .VelocityComponent) :
    (BounceSystem.visit env x).getComponent type = x.getComponent type := by
  rcases BounceSystem_visit_cases env x with h | ⟨px, py, w, h, vx, vy, hp, hr, hv⟩
  · rw [h]
  · rw [BounceSystem_visit_of_all env x px py w h vx vy hp hr hv]
    exact Entity.getComponent_assign_other x .VelocityComponent type _ rfl ht

theorem BounceSystem_visit_velocity (env : Env) (x : Entity) (vx vy : ℚ)
    (hv : x.getComponent .VelocityComponent = some (.VelocityComponent vx vy)) :
    ∃ wx wy, (BounceSystem.visit env x).getComponent .VelocityComponent
        = some (.VelocityComponent wx wy) ∧ |wx| = |vx| ∧ |wy| = |vy| := by
  rcases BounceSystem_visit_cases env x with h | ⟨px, py, w, h, ux, uy, hp, hr, hu⟩
  · rw [h]; exact ⟨vx, vy, hv, rfl, rfl⟩
  · rw [BounceSystem_visit_of_all env x px py w h ux uy hp hr hu,
      Entity.getComponent_assign_same x .VelocityComponent (.VelocityComponent _ _) rfl, hu]
    rw [hv] at hu
    simp only [Option.some.injEq, Component.VelocityComponent.injEq] at hu
    obtain ⟨rfl, rfl⟩ := hu
    refine ⟨_, _, rfl, ?_, ?_⟩ <;> split <;> simp

theorem BounceSystem_visit_no_velocity (env : Env) (x : Entity)
    (hv : x.getComponent .VelocityComponent = none) : BounceSystem.visit env x = x := by
  rcases BounceSystem_visit_cases env x with h | ⟨px, py, w, h, ux, uy, _, _, hu⟩
  · exact h
  · rw [hv] at hu; cases hu

theorem BounceSystem_throws_visit (env : Env) (x : Entity) :
    BounceSystem.throws env (BounceSystem.visit env x) = BounceSystem.throws env x := by
  rcases BounceSystem_visit_cases env x with h | ⟨px, py, w, h, vx, vy, hp, hr, hv⟩
  · rw [h]
  · obtain ⟨wx, wy, hw, _, _⟩ := BounceSystem_visit_velocity env x vx vy hv
    have hp2 := BounceSystem_visit_other env x .PositionComponent (by decide)
    have hr2 := BounceSystem_visit_other env x .RectangleComponent (by decide)
    simp [BounceSystem.throws, hp2, hr2, hw, hp, hr, hv]

theorem BounceSystem_throws_of_velocity (env : Env) (x : Entity)
    (hall : x.getComponent .PositionComponent ≠ none →
      x.getComponent .RectangleComponent ≠ none → x.getComponent .VelocityComponent ≠ none) :
    BounceSystem.throws env x = false := by
  rcases x.getComponent_position with hp | ⟨px, py, hp⟩
  · simp [BounceSystem.throws, hp]
  rcases x.getComponent_rectangle with hr | ⟨w, h, hr⟩
  · simp [BounceSystem.throws, hp, hr]
  rcases x.getComponent_velocity with hv | ⟨vx, vy, hv⟩
  · exact absurd hv (hall (by simp [hp]) (by simp [hr]))
  · simp [BounceSystem.throws, hp, hr, hv]

theorem BounceSystem_iterate_visit (env : Env) (n : Nat) (x : Entity) :
    (∀ type, type ≠ .VelocityComponent →
        ((BounceSystem.visit env)^[n] x).getComponent type = x.getComponent type)
    ∧ (∀ vx vy, x.getComponent .VelocityComponent = some (.VelocityComponent vx vy) →
        ∃ wx wy, ((BounceSystem.visit env)^[n] x).getComponent .VelocityComponent
          = some (.VelocityComponent wx wy) ∧ |wx| = |vx| ∧ |wy| = |vy|)
    ∧ (x.getComponent .VelocityComponent = none → (BounceSystem.visit env)^[n] x = x) := by
  induction n with
  | zero => exact ⟨fun _ _ => rfl, fun vx vy h => ⟨vx, vy, h, rfl, rfl⟩, fun _ => rfl⟩
  | succ n ih =>
    obtain ⟨h1, h2, h3⟩ := ih
    rw [Function.iterate_succ_apply']
    refine ⟨?_, ?_, ?_⟩
    · intro type ht
      rw [BounceSystem_visit_other env _ type ht, h1 type ht]
    · intro vx vy hv
      obtain ⟨wx, wy, hw, hx, hy⟩ := h2 vx vy hv
      obtain ⟨ux, uy, hu, hx2, hy2⟩ := BounceSystem_visit_velocity env _ wx wy hw
      exact ⟨ux, uy, hu, hx2.trans hx, hy2.trans hy⟩
    · intro hv
      rw [h3 hv, BounceSystem_visit_no_velocity env x hv]

theorem BounceSystem_update_state (env : Env) (entities : List EntityRef) (s : State) :
    ∃ k : EntityRef → Nat, (∀ e, k e ≤ entities.count e)
      ∧ (BounceSystem.update env entities s).state
          = { s with store := fun e => (BounceSystem.visit env)^[k e] (s.store e) }
      ∧ ((BounceSystem.update env entities s).isOk = true → ∀ e, k e = entities.count e) :=
  forOf_guarded (BounceSystem.visit env) (BounceSystem.throws env) .typeError
    (BounceSystem.body env) (BounceSystem_body_eq env) entities s

theorem Entity.getComponent_selectable (self : Entity) :
    self.getComponent .SelectableComponent = none
      ∨ ∃ b, self.getComponent .SelectableComponent = some (.SelectableComponent b) := by
  rcases self.getComponent_cases .SelectableComponent with h | ⟨c, h, hc⟩
  · exact Or.inl h
  · cases c <;> simp [Component.constructor] at hc
    exact Or.inr ⟨_, h⟩

theorem Entity.getComponent_deleteable (self : Entity) :
    self.getComponent .DeleteableComponent = none
      ∨ ∃ b, self.getComponent .DeleteableComponent = some (.DeleteableComponent b) := by
  rcases self.getComponent_cases .DeleteableComponent with h | ⟨c, h, hc⟩
  · exact Or.inl h
  · cases c <;> simp [Component.constructor] at hc
    exact Or.inr ⟨_, h⟩

theorem SelectedSystem_body_eq (entity : EntityRef) (s : State) :
    SelectedSystem.body entity s = .ok (s.modify entity SelectedSystem.visit) := by
  unfold SelectedSystem.body SelectedSystem.visit
  rcases (s.store entity).getComponent_selectable with hs | ⟨b, hs⟩
  · simp [hs, State.modify]
  rcases (s.store entity).getComponent_deleteable with hd | ⟨d, hd⟩
  · simp [hs, hd, State.modify]
  cases b
  · simp [hs, hd, State.modify]
  · simp [hs, hd, State.modify, State.assign]

theorem SelectedSystem_update_eq (entities : List EntityRef) (s : State) :
    SelectedSystem.update entities s
      = .ok { s with store := fun e => SelectedSystem.visit^[entities.count e] (s.store e) } :=
  forOf_modify SelectedSystem.visit SelectedSystem.body SelectedSystem_body_eq entities s

theorem SelectedSystem_visit_selected (x : Entity) (d : Bool)
    (hs : x.getComponent .SelectableComponent = some (.SelectableComponent true))
    (hd : x.getComponent .DeleteableComponent = some (.DeleteableComponent d)) :
    SelectedSystem.visit x
        = (x.assign .SelectableComponent (.SelectableComponent false)).assign
            .DeleteableComponent (.DeleteableComponent true)
      ∧ (SelectedSystem.visit x).getComponent .SelectableComponent
        = some (.SelectableComponent false)
      ∧ (SelectedSystem.visit x).getComponent .DeleteableComponent
        = some (.DeleteableComponent true) := by
  have hv : SelectedSystem.visit x
      = (x.assign .SelectableComponent (.SelectableComponent false)).assign
          .DeleteableComponent (.DeleteableComponent true) := by
    simp [SelectedSystem.visit, hs, hd]
  refine ⟨hv, ?_, ?_⟩
  · rw [hv, Entity.getComponent_assign_other _ .DeleteableComponent .SelectableComponent
      (.DeleteableComponent true) rfl (by decide),
      Entity.getComponent_assign_same x .SelectableComponent (.SelectableComponent false) rfl,
      hs]
    rfl
  · rw [hv, Entity.getComponent_assign_same _ .DeleteableComponent (.DeleteableComponent true)
      rfl, Entity.getComponent_assign_other x .SelectableComponent .DeleteableComponent
      (.SelectableComponent false) rfl (by decide), hd]
    rfl

theorem SelectedSystem_visit_cases (x : Entity) :
    SelectedSystem.visit x = x
      ∨ (x.getComponent .SelectableComponent = some (.SelectableComponent true)
        ∧ ∃ d, x.getComponent .DeleteableComponent = some (.DeleteableComponent d)) := by
  rcases x.getComponent_selectable with hs | ⟨b, hs⟩
  · left; simp [SelectedSystem.visit, hs]
  rcases x.getComponent_deleteable with hd | ⟨d, hd⟩
  · left; simp [SelectedSystem.visit, hs, hd]
  cases b
  · left; simp [SelectedSystem.visit, hs, hd]
  · exact Or.inr ⟨hs, d, hd⟩

theorem SelectedSystem_visit_of_not_selected (x : Entity)
    (h : x.getComponent .SelectableComponent ≠ some (.SelectableComponent true)
      ∨ x.getComponent .DeleteableComponent = none) :
    SelectedSystem.visit x = x := by
  rcases SelectedSystem_visit_cases x with hx | ⟨hs, d, hd⟩
  · exact hx
  · rcases h with h | h
    · exact absurd hs h
    · rw [h] at hd; cases hd

theorem SelectedSystem_visit_visit (x : Entity) :
    SelectedSystem.visit (SelectedSystem.visit x) = SelectedSystem.visit x := by
  rcases SelectedSystem_visit_cases x with hx | ⟨hs, d, hd⟩
  · rw [hx, hx]
  · apply SelectedSystem_visit_of_not_selected
    left
    rw [(SelectedSystem_visit_selected x d hs hd).2.1]
    simp

theorem SelectedSystem_iterate_visit (n : Nat) (x : Entity) :
    SelectedSystem.visit^[n + 1] x = SelectedSystem.visit x := by
  induction n with
  | zero => rfl
  | succ n ih => rw [Function.iterate_succ_apply', ih, SelectedSystem_visit_visit]

theorem SelectedSystem_visit_other (x : Entity) (type : ComponentClass)
    (h1 : type ≠ .SelectableComponent) (h2 : type ≠ .DeleteableComponent) :
    (SelectedSystem.visit x).getComponent type = x.getComponent type := by
  rcases SelectedSystem_visit_cases x with hx | ⟨hs, d, hd⟩
  · rw [hx]
  · rw [(SelectedSystem_visit_selected x d hs hd).1,
      Entity.getComponent_assign_other _ .DeleteableComponent type
        (.DeleteableComponent true) rfl h2,
      Entity.getComponent_assign_other x .SelectableComponent type
        (.SelectableComponent false) rfl h1]

theorem DeleteSystem_body_eq (entity : EntityRef) (s : State) :
    DeleteSystem.body entity s
      = .ok (if s.deleted entity then { s with world := s.world.removeEntity entity } else s) := by
  unfold DeleteSystem.body State.deleted
  rcases (s.store entity).getComponent_deleteable with hd | ⟨d, hd⟩
  · simp [hd]
  · cases d <;> simp [hd]

theorem DeleteSystem_update_eq (entities : List EntityRef) (s : State) :
    DeleteSystem.update entities s
      = .ok { s with world := ⟨s.world.entities.filter
                (fun x => !(decide (x ∈ entities) && s.deleted x)), s.world.systems⟩ } := by
  unfold DeleteSystem.update
  induction entities generalizing s with
  | nil => simp [forOf]
  | cons a rest ih =>
    simp only [forOf, DeleteSystem_body_eq, Result.andThen, ih]
    congr 1
    by_cases ha : s.deleted a = true
    · simp only [ha, if_true, World.removeEntity, List.filter_filter]
      congr 2
      apply List.filter_congr
      intro x _
      by_cases hx : x = a
      · subst hx
        simp [State.deleted] at ha ⊢
        simp [State.deleted, ha]
      · simp [hx, State.deleted]
    · simp only [ha]
      congr 2
      apply List.filter_congr
      intro x _
      by_cases hx : x = a
      · subst hx
        simp at ha
        simp [ha]
      · simp [hx]

theorem State.deleted_iff (s : State) (entity : EntityRef) :
    s.deleted entity = true
      ↔ (s.store entity).getComponent .DeleteableComponent = some (.DeleteableComponent true) := by
  unfold State.deleted
  rcases (s.store entity).getComponent_deleteable with hd | ⟨d, hd⟩
  · simp [hd]
  · cases d <;> simp [hd]

theorem find_instanceof_of_mem (kind : ComponentClass) (c : Component) :
    ∀ cs : List Component, (cs.map Component.constructor).Nodup → c ∈ cs →
      c.constructor = kind → cs.find? (fun d => d.instanceof kind) = some c
  | [], _, hmem, _ => by cases hmem
  | d :: ds, hnodup, hmem, hkind => by
    rw [List.map_cons, List.nodup_cons] at hnodup
    by_cases hd : d.constructor = kind
    · have hdc : d = c := by
        rcases List.mem_cons.mp hmem with h | h
        · exact h.symm
        · exact absurd (List.mem_map.mpr ⟨c, h, hkind.trans hd.symm⟩) hnodup.1
      subst hdc
      simp [List.find?_cons, Component.instanceof, hd]
    · have hne : c ≠ d := fun h => hd (h ▸ hkind)
      have hmem2 : c ∈ ds := by
        rcases List.mem_cons.mp hmem with h | h
        · exact absurd h hne
        · exact h
      simp only [List.find?_cons, Component.instanceof, hd, decide_False]
      exact find_instanceof_of_mem kind c ds hnodup.2 hmem2 hkind

theorem Entity.getComponent_eq_none (self : Entity) (kind : ComponentClass) :
    self.getComponent kind = none ↔ ∀ c ∈ self.components, c.constructor ≠ kind := by
  simp [Entity.getComponent, List.find?_eq_none, Component.instanceof]

theorem Entity.getComponent_mem (self : Entity) (kind : ComponentClass) (c : Component)
    (h : self.getComponent kind = some c) : c ∈ self.components :=
  List.mem_of_find?_eq_some h

theorem Entity.getComponent_addComponent (self : Entity) (c : Component)
    (kind : ComponentClass) :
    (self.addComponent c).getComponent kind
      = (self.getComponent kind).or (if c.constructor = kind then some c else none) := by
  simp only [Entity.getComponent, Entity.addComponent, List.find?_append, List.find?_cons,
    List.find?_nil, Component.instanceof]
  by_cases h : c.constructor = kind <;> simp [h]

theorem addComponent_foldl (cs : List Component) (self : Entity) :
    (cs.foldl Entity.addComponent self).components = self.components ++ cs := by
  induction cs generalizing self with
  | nil => simp
  | cons c cs ih => simp [List.foldl_cons, ih, Entity.addComponent]

theorem RepositionSystem_body_eq (env : Env) (entity : EntityRef) (s : State) :
    RepositionSystem.body env entity s
      = .ok (if RepositionSystem.triggered env (s.store entity) then
          { s.assign entity .PositionComponent
              (.PositionComponent (env.random s.randomCalls * (env.canvasWidth - 64))
                (env.random (s.randomCalls + 1) * (env.canvasHeight - 64))) with
            randomCalls := s.randomCalls + 2 }
        else s) := by
  unfold RepositionSystem.body RepositionSystem.triggered
  cases hq : (s.store entity).getComponent .RepositionableComponent with
  | none => simp
  | some q =>
    rcases (s.store entity).getComponent_position with hp | ⟨px, py, hp⟩
    · simp [hp]
    rcases (s.store entity).getComponent_rectangle with hr | ⟨w, h, hr⟩
    · simp [hp, hr]
    by_cases hc : px + w - 4 > env.innerWidth ∨ py + h - 4 > env.innerHeight
    · simp [hp, hr, hc]
    · simp [hp, hr, hc]

theorem RepositionSystem_update_frame (env : Env) (entities : List EntityRef) (s : State) :
    ∃ s1, RepositionSystem.update env entities s = .ok s1
      ∧ s1.world = s.world
      ∧ (∀ e, RepositionSystem.triggered env (s.store e) = false → s1.store e = s.store e)
      ∧ (∀ e type, type ≠ .PositionComponent →
          (s1.store e).getComponent type = (s.store e).getComponent type)
      ∧ (∀ e, e ∉ entities → s1.store e = s.store e) := by
  unfold RepositionSystem.update
  induction entities generalizing s with
  | nil => exact ⟨s, rfl, rfl, fun _ _ => rfl, fun _ _ _ => rfl, fun _ _ => rfl⟩
  | cons a rest ih =>
    simp only [forOf, RepositionSystem_body_eq, Result.andThen]
    by_cases ht : RepositionSystem.triggered env (s.store a) = true
    · simp only [ht, if_true]
      obtain ⟨s1, h1, h2, h3, h4, h5⟩ := ih
        { s.assign a .PositionComponent
            (.PositionComponent (env.random s.randomCalls * (env.canvasWidth - 64))
              (env.random (s.randomCalls + 1) * (env.canvasHeight - 64))) with
          randomCalls := s.randomCalls + 2 }
      refine ⟨s1, h1, h2, ?_, ?_, ?_⟩
      · intro e he
        have hne : e ≠ a := fun h => by rw [h, ht] at he; cases he
        have hstore : Function.update s.store a
            ((s.store a).assign .PositionComponent
              (.PositionComponent (env.random s.randomCalls * (env.canvasWidth - 64))
                (env.random (s.randomCalls + 1) * (env.canvasHeight - 64)))) e = s.store e :=
          Function.update_noteq hne _ _
        have := h3 e (by simpa only [State.assign, hstore] using he)
        rw [this]
        exact hstore
      · intro e type htype
        rw [h4 e type htype]
        simp only [State.assign]
        by_cases hea : e = a
        · subst hea
          rw [Function.update_same]
          exact Entity.getComponent_assign_other _ .PositionComponent type
            (.PositionComponent _ _) rfl htype
        · rw [Function.update_noteq hea]
      · intro e he
        rw [h5 e (fun h => he (List.mem_cons_of_mem a h))]
        have hea : e ≠ a := fun h => he (by rw [h]; exact List.mem_cons_self a rest)
        exact Function.update_noteq hea _ _
    · simp only [ht]
      obtain ⟨s1, h1, h2, h3, h4, h5⟩ := ih s
      exact ⟨s1, h1, h2, h3, h4, fun e he => h5 e (fun h => he (List.mem_cons_of_mem a h))⟩

theorem RepositionSystem_triggered_of_lacking (env : Env) (x : Entity)
    (h : x.getComponent .RepositionableComponent = none
      ∨ x.getComponent .PositionComponent = none
      ∨ x.getComponent .RectangleComponent = none) :
    RepositionSystem.triggered env x = false := by
  unfold RepositionSystem.triggered
  rcases h with h | h | h
  · simp [h]
  · split
    · rename_i hp _
      rw [h] at hp; cases hp
    · rfl
  · split
    · rename_i hr
      rw [h] at hr; cases hr
    · rfl

theorem RepositionSystem_triggered_of_within (env : Env) (x : Entity) (px py w h : ℚ)
    (hp : x.getComponent .PositionComponent = some (.PositionComponent px py))
    (hr : x.getComponent .RectangleComponent = some (.RectangleComponent w h))
    (hx : px ≤ env.innerWidth - w) (hy : py ≤ env.innerHeight - h) :
    RepositionSystem.triggered env x = false := by
  unfold RepositionSystem.triggered
  cases hq : x.getComponent .RepositionableComponent with
  | none => simp
  | some q =>
    simp only [hp, hr, decide_eq_false_iff_not, not_or, not_lt, gt_iff_lt]
    constructor <;> linarith

theorem Result.andThen_eq_ok (r : Result) (k : State → Result) (s2 : State) :
    r.andThen k = .ok s2 ↔ ∃ s1, r = .ok s1 ∧ k s1 = .ok s2 := by
  cases r with
  | ok s1 => simp [Result.andThen]
  | thrown e s1 => simp [Result.andThen]

theorem Result.eq_ok_of_isOk (r : Result) (h : r.isOk = true) : r = .ok r.state := by
  cases r with
  | ok s1 => rfl
  | thrown e s1 => cases h

theorem World_runSystems_append (env : Env) (pre post : List System) (s : State) :
    World.runSystems env (pre ++ post) s
      = (World.runSystems env pre s).andThen (World.runSystems env post) := by
  induction pre generalizing s with
  | nil => rfl
  | cons a rest ih =>
    simp only [List.cons_append, World.runSystems]
    cases System.update env a s.world.entities s with
    | ok s1 => exact ih s1
    | thrown e s1 => rfl

theorem State.deleted_congr (s s1 : State) (e : EntityRef)
    (h : (s1.store e).getComponent .DeleteableComponent
      = (s.store e).getComponent .DeleteableComponent) : s1.deleted e = s.deleted e := by
  simp only [State.deleted, h]

theorem VelocitySystem_visit_other (x : Entity) (type : ComponentClass)
    (ht : type ≠ .PositionComponent) :
    (VelocitySystem.visit x).getComponent type = x.getComponent type := by
  unfold VelocitySystem.visit
  split
  · exact Entity.getComponent_assign_other x .PositionComponent type
      (.PositionComponent _ _) rfl ht
  · rfl

theorem VelocitySystem_iterate_visit (n : Nat) (x : Entity) :
    (∀ type, type ≠ .PositionComponent →
        (VelocitySystem.visit^[n] x).getComponent type = x.getComponent type)
    ∧ (x.getComponent .PositionComponent = none → VelocitySystem.visit^[n] x = x) := by
  induction n with
  | zero => exact ⟨fun _ _ => rfl, fun _ => rfl⟩
  | succ n ih =>
    rw [Function.iterate_succ_apply']
    refine ⟨fun type ht => ?_, fun h => ?_⟩
    · rw [VelocitySystem_visit_other _ type ht, ih.1 type ht]
    · rw [ih.2 h, VelocitySystem_visit_of_lacking x (Or.inl h)]

theorem SelectedSystem_iterate_cases (n : Nat) (x : Entity) :
    SelectedSystem.visit^[n] x = x ∨ SelectedSystem.visit^[n] x = SelectedSystem.visit x := by
  cases n with
  | zero => exact Or.inl rfl
  | succ n => exact Or.inr (SelectedSystem_iterate_visit n x)

theorem SelectedSystem_visit_deleted (x : Entity)
    (h : x.getComponent .DeleteableComponent = some (.DeleteableComponent true)) :
    (SelectedSystem.visit x).getComponent .DeleteableComponent
      = some (.DeleteableComponent true) := by
  rcases SelectedSystem_visit_cases x with hx | ⟨hs, d, hd⟩
  · rw [hx]; exact h
  · exact (SelectedSystem_visit_selected x d hs hd).2.2

theorem System_update_frame (env : Env) (system : System) (entities : List EntityRef)
    (s : State) :
    (system.update env entities s).state.world.systems = s.world.systems
    ∧ (system.update env entities s).state.world.entities.Sublist s.world.entities
    ∧ (∀ e, s.deleted e = true → (system.update env entities s).state.deleted e = true) := by
  cases system with
  | VelocitySystem =>
    have hu : System.update env .VelocitySystem entities s = _ :=
      VelocitySystem_update_eq entities s
    rw [hu]
    refine ⟨rfl, List.Sublist.refl _, fun e he => ?_⟩
    rw [← he]
    exact State.deleted_congr _ _ e
      ((VelocitySystem_iterate_visit _ _).1 .DeleteableComponent (by decide))
  | BounceSystem =>
    obtain ⟨k, _, hstate, _⟩ := BounceSystem_update_state env entities s
    have hu : System.update env .BounceSystem entities s
        = BounceSystem.update env entities s := rfl
    rw [hu, hstate]
    refine ⟨rfl, List.Sublist.refl _, fun e he => ?_⟩
    rw [← he]
    exact State.deleted_congr _ _ e
      ((BounceSystem_iterate_visit env _ _).1 .DeleteableComponent (by decide))
  | SelectedSystem =>
    have hu : System.update env .SelectedSystem entities s = _ :=
      SelectedSystem_update_eq entities s
    rw [hu]
    refine ⟨rfl, List.Sublist.refl _, fun e he => ?_⟩
    rw [State.deleted_iff] at he ⊢
    show (SelectedSystem.visit^[entities.count e] (s.store e)).getComponent _ = _
    rcases SelectedSystem_iterate_cases (entities.count e) (s.store e) with h | h
    · rw [h]; exact he
    · rw [h]; exact SelectedSystem_visit_deleted _ he
  | DeleteSystem =>
    have hu : System.update env .DeleteSystem entities s = _ :=
      DeleteSystem_update_eq entities s
    rw [hu]
    exact ⟨rfl, List.filter_sublist _, fun e he => he⟩
  | RepositionSystem =>
    obtain ⟨s1, h1, h2, _, h4, _⟩ := RepositionSystem_update_frame env entities s
    have hu : System.update env .RepositionSystem entities s = .ok s1 := h1
    rw [hu]
    simp only [Result.state, h2]
    refine ⟨trivial, List.Sublist.refl _, fun e he => ?_⟩
    rw [← he]
    exact State.deleted_congr _ _ e (h4 e .DeleteableComponent (by decide))
  | subclass constructorName =>
    exact ⟨rfl, List.Sublist.refl _, fun e he => he⟩

theorem World_runSystems_frame (env : Env) (systems : List System) (s : State) :
    (World.runSystems env systems s).state.world.systems = s.world.systems
    ∧ (World.runSystems env systems s).state.world.entities.Sublist s.world.entities
    ∧ (∀ e, s.deleted e = true → (World.runSystems env systems s).state.deleted e = true) := by
  induction systems generalizing s with
  | nil => exact ⟨rfl, List.Sublist.refl _, fun e he => he⟩
  | cons a rest ih =>
    have ha := System_update_frame env a s.world.entities s
    simp only [World.runSystems]
    cases hr : System.update env a s.world.entities s with
    | ok s1 =>
      rw [hr] at ha
      simp only [Result.state] at ha
      simp only [Result.andThen]
      obtain ⟨i1, i2, i3⟩ := ih s1
      exact ⟨i1.trans ha.1, i2.trans ha.2.1, fun e he => i3 e (ha.2.2 e he)⟩
    | thrown err s1 =>
      rw [hr] at ha
      exact ha

theorem World_ticks_frame (frames : List (Env × ℚ)) (s : State) :
    (World.ticks frames s).state.world.systems = s.world.systems
    ∧ (World.ticks frames s).state.world.entities.Sublist s.world.entities := by
  induction frames generalizing s with
  | nil => exact ⟨rfl, List.Sublist.refl _⟩
  | cons a rest ih =>
    have ha := World_runSystems_frame a.1 s.world.systems s
    simp only [World.ticks, World.update]
    cases hr : World.runSystems a.1 s.world.systems s with
    | ok s1 =>
      rw [hr] at ha
      simp only [Result.state] at ha
      simp only [Result.andThen]
      exact ⟨(ih s1).1.trans ha.1, (ih s1).2.trans ha.2.1⟩
    | thrown err s1 =>
      rw [hr] at ha
      exact ⟨ha.1, ha.2.1⟩

theorem World_tickSpec_fold (env : Env) (systems : List System) (r : Result) :
    systems.foldl
        (fun r system =>
          r.andThen (fun current => system.update env current.world.entities current)) r
      = r.andThen (World.runSystems env systems) := by
  induction systems generalizing r with
  | nil => cases r <;> rfl
  | cons a rest ih =>
    rw [List.foldl_cons, ih]
    cases r <;> rfl

theorem World_addSystem_foldl (regs : List System) (w : World) :
    (regs.foldl World.addSystem w).systems = w.systems ++ regs
    ∧ (regs.foldl World.addSystem w).entities = w.entities := by
  induction regs generalizing w with
  | nil => simp
  | cons a rest ih =>
    rw [List.foldl_cons]
    obtain ⟨h1, h2⟩ := ih (w.addSystem a)
    exact ⟨by rw [h1]; simp [World.addSystem], by rw [h2]; rfl⟩

theorem World_program_systems :
    World.program.systems
      = [.VelocitySystem, .BounceSystem, .SelectedSystem, .DeleteSystem, .RepositionSystem] :=
  rfl

theorem World_update_program (env : Env) (timestamp : ℚ) (s : State)
    (hsys : s.world.systems = World.program.systems) :
    World.update env timestamp s
      = (World.runSystems env [.VelocitySystem, .BounceSystem, .SelectedSystem] s).andThen
          (World.runSystems env [.DeleteSystem, .RepositionSystem]) := by
  rw [World.update, hsys, World_program_systems, ← World_runSystems_append]
  rfl

theorem World_runSystems_delete_reposition (env : Env) (s : State) :
    ∃ s1, World.runSystems env [.DeleteSystem, .RepositionSystem] s = .ok s1
      ∧ s1.world.entities = s.world.entities.filter (fun e => !s.deleted e) := by
  have hfilter : s.world.entities.filter
        (fun x => !(decide (x ∈ s.world.entities) && s.deleted x))
      = s.world.entities.filter (fun e => !s.deleted e) := by
    apply List.filter_congr
    intro x hx
    simp [hx]
  obtain ⟨s1, h1, h2, _⟩ := RepositionSystem_update_frame env
    (s.world.entities.filter (fun e => !s.deleted e))
    { s with world := ⟨s.world.entities.filter (fun e => !s.deleted e), s.world.systems⟩ }
  refine ⟨s1, ?_, by rw [h2]⟩
  simp only [World.runSystems, System.update, DeleteSystem_update_eq, Result.andThen, hfilter,
    h1]

theorem World_runSystems_before_delete (env : Env) (s : State)
    (hV : ∀ e ∈ s.world.entities, (s.store e).getComponent .PositionComponent ≠ none →
      (s.store e).getComponent .RectangleComponent ≠ none →
      (s.store e).getComponent .VelocityComponent ≠ none) :
    ∃ s3, World.runSystems env [.VelocitySystem, .BounceSystem, .SelectedSystem] s = .ok s3
      ∧ s3.world = s.world
      ∧ (∀ e ∈ s.world.entities,
          (s.store e).getComponent .SelectableComponent = some (.SelectableComponent true) →
          (s.store e).getComponent .DeleteableComponent ≠ none → s3.deleted e = true) := by
  -- the Velocity pass
  have h1 := VelocitySystem_update_eq s.world.entities s
  generalize hs1 : ({ s with store := fun e =>
    VelocitySystem.visit^[s.world.entities.count e] (s.store e) } : State) = s1 at h1
  have hw1 : s1.world = s.world := by rw [← hs1]
  have hc1 : ∀ e type, type ≠ .PositionComponent →
      (s1.store e).getComponent type = (s.store e).getComponent type := by
    intro e type ht
    rw [← hs1]
    exact (VelocitySystem_iterate_visit _ _).1 type ht
  have hp1 : ∀ e, (s.store e).getComponent .PositionComponent = none →
      (s1.store e).getComponent .PositionComponent = none := by
    intro e he
    rw [← hs1]
    show (VelocitySystem.visit^[s.world.entities.count e] (s.store e)).getComponent _ = _
    rw [(VelocitySystem_iterate_visit _ _).2 he]
    exact he
  -- the Bounce pass
  have hok2 : (BounceSystem.update env s1.world.entities s1).isOk = true := by
    apply forOf_guarded_ok (BounceSystem.visit env) (BounceSystem.throws env) .typeError
      (BounceSystem.body env) (BounceSystem_body_eq env) (BounceSystem_throws_visit env)
    intro e he
    apply BounceSystem_throws_of_velocity
    intro hp hr
    rw [hc1 e .VelocityComponent (by decide)]
    rw [hc1 e .RectangleComponent (by decide)] at hr
    rw [hw1] at he
    exact hV e he (fun h => hp (hp1 e h)) hr
  obtain ⟨k, _, hstate2, _⟩ := BounceSystem_update_state env s1.world.entities s1
  have h2 := Result.eq_ok_of_isOk _ hok2
  rw [hstate2] at h2
  generalize hs2 : ({ s1 with store := fun e =>
    (BounceSystem.visit env)^[k e] (s1.store e) } : State) = s2 at h2
  have hw2 : s2.world = s1.world := by rw [← hs2]
  have hc2 : ∀ e type, type ≠ .VelocityComponent →
      (s2.store e).getComponent type = (s1.store e).getComponent type := by
    intro e type ht
    rw [← hs2]
    exact (BounceSystem_iterate_visit env _ _).1 type ht
  -- the Selected pass
  have h3 := SelectedSystem_update_eq s2.world.entities s2
  refine ⟨{ s2 with store := fun e =>
    SelectedSystem.visit^[s2.world.entities.count e] (s2.store e) }, ?_, ?_, ?_⟩
  · simp only [World.runSystems, System.update, Result.andThen, h1, h2, h3]
  · show s2.world = s.world
    rw [hw2, hw1]
  · intro e he hs hd
    rw [State.deleted_iff]
    show (SelectedSystem.visit^[s2.world.entities.count e] (s2.store e)).getComponent _ = _
    have hmem : e ∈ s2.world.entities := by rw [hw2, hw1]; exact he
    obtain ⟨n, hn⟩ : ∃ n, s2.world.entities.count e = n + 1 :=
      Nat.exists_eq_succ_of_ne_zero (Nat.pos_iff_ne_zero.mp (List.count_pos_iff.mpr hmem))
    rw [hn, SelectedSystem_iterate_visit]
    have hs2e : (s2.store e).getComponent .SelectableComponent
        = some (.SelectableComponent true) := by
      rw [hc2 e _ (by decide), hc1 e _ (by decide)]; exact hs
    have hd2e : (s2.store e).getComponent .DeleteableComponent
        = (s.store e).getComponent .DeleteableComponent := by
      rw [hc2 e _ (by decide), hc1 e _ (by decide)]
    rcases (s2.store e).getComponent_deleteable with hnone | ⟨d, hd2⟩
    · rw [hd2e] at hnone; exact absurd hnone hd
    · exact (SelectedSystem_visit_selected _ d hs2e hd2).2.2

theorem RepositionSystem_triggered_iff (env : Env) (x : Entity) :
    RepositionSystem.triggered env x = true
      ↔ x.getComponent .RepositionableComponent ≠ none
        ∧ ∃ px py w h, x.getComponent .PositionComponent = some (.PositionComponent px py)
          ∧ x.getComponent .RectangleComponent = some (.RectangleComponent w h)
          ∧ (px + w - 4 > env.innerWidth ∨ py + h - 4 > env.innerHeight) := by
  unfold RepositionSystem.triggered
  cases hq : x.getComponent .RepositionableComponent with
  | none => simp
  | some q =>
    rcases x.getComponent_position with hp | ⟨px, py, hp⟩
    · simp [hp]
    rcases x.getComponent_rectangle with hr | ⟨w, h, hr⟩
    · simp [hp, hr]
    simp only [hp, hr, decide_eq_true_eq, ne_eq, not_false_eq_true, true_and, reduceCtorEq]
    constructor
    · intro hc
      exact ⟨px, py, w, h, rfl, rfl, hc⟩
    · rintro ⟨px1, py1, w1, h1, hp1, hr1, hc⟩
      cases hp1
      cases hr1
      exact hc

theorem RepositionSystem_update_relocated (env : Env) (entities : List EntityRef) (s : State) :
    ∃ s1, RepositionSystem.update env entities s = .ok s1
      ∧ (∀ e, s1.store e = s.store e
          ∨ ∃ n m, (s1.store e).getComponent .PositionComponent
              = some (.PositionComponent (env.random n * (env.canvasWidth - 64))
                  (env.random m * (env.canvasHeight - 64))))
      ∧ (∀ e ∈ entities, RepositionSystem.triggered env (s.store e) = true →
          ∃ n m, (s1.store e).getComponent .PositionComponent
              = some (.PositionComponent (env.random n * (env.canvasWidth - 64))
                  (env.random m * (env.canvasHeight - 64)))) := by
  unfold RepositionSystem.update
  induction entities generalizing s with
  | nil => exact ⟨s, rfl, fun _ => Or.inl rfl, fun e he => by cases he⟩
  | cons a rest ih =>
    simp only [forOf, RepositionSystem_body_eq, Result.andThen]
    by_cases ht : RepositionSystem.triggered env (s.store a) = true
    · simp only [ht, if_true]
      obtain ⟨_, px, py, w, h, hp, _, _⟩ := (RepositionSystem_triggered_iff env _).mp ht
      generalize hs2 : ({ s.assign a .PositionComponent
            (.PositionComponent (env.random s.randomCalls * (env.canvasWidth - 64))
              (env.random (s.randomCalls + 1) * (env.canvasHeight - 64))) with
          randomCalls := s.randomCalls + 2 } : State) = s2
      have hsame : ∀ e, e ≠ a → s2.store e = s.store e := by
        intro e hne
        rw [← hs2]
        exact Function.update_noteq hne _ _
      have hmoved : (s2.store a).getComponent .PositionComponent
          = some (.PositionComponent (env.random s.randomCalls * (env.canvasWidth - 64))
              (env.random (s.randomCalls + 1) * (env.canvasHeight - 64))) := by
        rw [← hs2]
        show (Function.update s.store a _ a).getComponent _ = _
        rw [Function.update_same, Entity.getComponent_assign_same (s.store a)
          .PositionComponent (.PositionComponent _ _) rfl, hp]
        rfl
      obtain ⟨s1, h1, h2, h3⟩ := ih s2
      have hall : ∀ e, e = a → ∃ n m, (s1.store e).getComponent .PositionComponent
            = some (.PositionComponent (env.random n * (env.canvasWidth - 64))
                (env.random m * (env.canvasHeight - 64))) := by
        intro e hea
        subst hea
        rcases h2 e with h | h
        · exact ⟨_, _, by rw [h]; exact hmoved⟩
        · exact h
      refine ⟨s1, h1, ?_, ?_⟩
      · intro e
        by_cases hea : e = a
        · exact Or.inr (hall e hea)
        · rcases h2 e with h | h
          · exact Or.inl (h.trans (hsame e hea))
          · exact Or.inr h
      · intro e he hte
        by_cases hea : e = a
        · exact hall e hea
        · rcases List.mem_cons.mp he with h | h
          · exact absurd h hea
          · exact h3 e h (by rw [hsame e hea]; exact hte)
    · simp only [ht]
      obtain ⟨s1, h1, h2, h3⟩ := ih s
      refine ⟨s1, h1, h2, ?_⟩
      intro e he hte
      rcases List.mem_cons.mp he with h | h
      · rw [h] at hte; exact absurd hte ht
      · exact h3 e h hte

theorem forOf_guarded_thrown (visit : Entity → Entity) (throws : Entity → Bool) (err : Error)
    (body : EntityRef → State → Result)
    (hbody : ∀ e s, body e s
      = if throws (s.store e) then .thrown err s else .ok (s.modify e visit))
    (entities : List EntityRef) (s : State)
    (hsome : ∃ e ∈ entities, throws (s.store e) = true) :
    ∃ s1, forOf body entities s = .thrown err s1 := by
  induction entities generalizing s with
  | nil =>
    obtain ⟨e, he, _⟩ := hsome
    cases he
  | cons a rest ih =>
    by_cases ha : throws (s.store a) = true
    · exact ⟨s, by simp [forOf, hbody, ha, Result.andThen]⟩
    · have hrun : forOf body (a :: rest) s = forOf body rest (s.modify a visit) := by
        simp [forOf, hbody, ha, Result.andThen]
      rw [hrun]
      apply ih
      obtain ⟨e, he, hte⟩ := hsome
      rcases List.mem_cons.mp he with h | h
      · rw [h] at hte; exact absurd hte ha
      · refine ⟨e, h, ?_⟩
        simp only [State.modify]
        by_cases hea : e = a
        · rw [hea] at hte; exact absurd hte ha
        · rw [Function.update_noteq hea]; exact hte

theorem BounceSystem_throws_iff (env : Env) (x : Entity) :
    BounceSystem.throws env x = true
      ↔ x.getComponent .VelocityComponent = none
        ∧ ∃ px py w h, x.getComponent .PositionComponent = some (.PositionComponent px py)
          ∧ x.getComponent .RectangleComponent = some (.RectangleComponent w h)
          ∧ ((px < 0 ∨ px + w > env.canvasWidth) ∨ (py < 0 ∨ py + h > env.canvasHeight)) := by
  unfold BounceSystem.throws
  rcases x.getComponent_position with hp | ⟨px, py, hp⟩
  · simp [hp]
  rcases x.getComponent_rectangle with hr | ⟨w, h, hr⟩
  · simp [hp, hr]
  rcases x.getComponent_velocity with hv | ⟨vx, vy, hv⟩
  · simp only [hp, hr, hv, decide_eq_true_eq, true_and]
    constructor
    · intro hc
      exact ⟨px, py, w, h, rfl, rfl, hc⟩
    · rintro ⟨px1, py1, w1, h1, hp1, hr1, hc⟩
      cases hp1
      cases hr1
      exact hc
  · simp [hp, hr, hv]

theorem onClick_body_eq (x y : ℚ) (entity : EntityRef) (s : State) :
    onClick.body x y entity s = .ok (s.modify entity (onClick.visit x y)) := by
  unfold onClick.body onClick.visit
  rcases (s.store entity).getComponent_position with hp | ⟨px, py, hp⟩
  · simp [hp, State.modify]
  rcases (s.store entity).getComponent_rectangle with hr | ⟨w, h, hr⟩
  · simp [hp, hr, State.modify]
  by_cases hc : x > px ∧ x < px + w ∧ y > py ∧ y < py + h
  · rcases (s.store entity).getComponent_selectable with hs | ⟨b, hs⟩
    · simp [hp, hr, hs, hc, State.modify]
    · cases b
      · simp only [hp, hr, hs, hc, and_self, if_true, State.modify, State.assign]
      · simp [hp, hr, hs, hc, State.modify]
  · rcases (s.store entity).getComponent_selectable with hs | ⟨b, hs⟩
    · simp [hp, hr, hs, hc, State.modify]
    · cases b <;> simp [hp, hr, hs, hc, State.modify]

theorem onClick_eq (x y : ℚ) (s : State) :
    onClick x y s
      = .ok { s with store := fun e => (onClick.visit x y)^[s.world.entities.count e] (s.store e) } :=
  forOf_modify (onClick.visit x y) (onClick.body x y) (onClick_body_eq x y) s.world.entities s

theorem onClick_visit_cases (x y : ℚ) (entity : Entity) :
    (onClick.visit x y entity = entity
      ∧ ¬ ∃ px py w h, entity.getComponent .PositionComponent = some (.PositionComponent px py)
          ∧ entity.getComponent .RectangleComponent = some (.RectangleComponent w h)
          ∧ entity.getComponent .SelectableComponent = some (.SelectableComponent false)
          ∧ (x > px ∧ x < px + w ∧ y > py ∧ y < py + h))
    ∨ (onClick.visit x y entity
          = entity.assign .SelectableComponent (.SelectableComponent true)
      ∧ ∃ px py w h, entity.getComponent .PositionComponent = some (.PositionComponent px py)
          ∧ entity.getComponent .RectangleComponent = some (.RectangleComponent w h)
          ∧ entity.getComponent .SelectableComponent = some (.SelectableComponent false)
          ∧ (x > px ∧ x < px + w ∧ y > py ∧ y < py + h)) := by
  unfold onClick.visit
  rcases entity.getComponent_position with hp | ⟨px, py, hp⟩
  · left; simp [hp]
  rcases entity.getComponent_rectangle with hr | ⟨w, h, hr⟩
  · left; simp [hp, hr]
  rcases entity.getComponent_selectable with hs | ⟨b, hs⟩
  · left; simp [hp, hr, hs]
  cases b
  · by_cases hc : x > px ∧ x < px + w ∧ y > py ∧ y < py + h
    · right
      refine ⟨by simp only [hp, hr, hs, hc, and_self, if_true], px, py, w, h, hp, hr, hs, hc⟩
    · left
      refine ⟨by simp only [hp, hr, hs, hc, if_false], ?_⟩
      rintro ⟨px1, py1, w1, h1, hp1, hr1, _, hc1⟩
      rw [hp] at hp1
      rw [hr] at hr1
      cases hp1
      cases hr1
      exact hc hc1
  · left; simp [hp, hr, hs]

theorem onClick_visit_visit (x y : ℚ) (entity : Entity) :
    onClick.visit x y (onClick.visit x y entity) = onClick.visit x y entity := by
  rcases onClick_visit_cases x y entity with ⟨h, _⟩ | ⟨h, px, py, w, h1, _, _, hs, _⟩
  · rw [h, h]
  · rw [h]
    rcases onClick_visit_cases x y
      (entity.assign .SelectableComponent (.SelectableComponent true)) with
      ⟨h2, _⟩ | ⟨_, _, _, _, _, _, _, hs2, _⟩
    · exact h2
    · rw [Entity.getComponent_assign_same entity .SelectableComponent
        (.SelectableComponent true) rfl, hs] at hs2
      cases hs2

theorem onClick_iterate_visit (x y : ℚ) (n : Nat) (entity : Entity) :
    (onClick.visit x y)^[n + 1] entity = onClick.visit x y entity := by
  induction n with
  | zero => rfl
  | succ n ih => rw [Function.iterate_succ_apply', ih, onClick_visit_visit]

theorem onClick_frame (x y : ℚ) (s : State) :
    ∃ s1, onClick x y s = .ok s1 ∧ s1.world = s.world ∧ s1.randomCalls = s.randomCalls
      ∧ (∀ e, s1.store e = s.store e ∨ s1.store e = onClick.visit x y (s.store e))
      ∧ (∀ e ∈ s.world.entities, s1.store e = onClick.visit x y (s.store e)) := by
  refine ⟨_, onClick_eq x y s, rfl, rfl, ?_, ?_⟩
  · intro e
    show (onClick.visit x y)^[s.world.entities.count e] (s.store e) = _ ∨
      (onClick.visit x y)^[s.world.entities.count e] (s.store e) = _
    cases s.world.entities.count e with
    | zero => exact Or.inl rfl
    | succ n => exact Or.inr (onClick_iterate_visit x y n _)
  · intro e he
    show (onClick.visit x y)^[s.world.entities.count e] (s.store e) = _
    obtain ⟨n, hn⟩ : ∃ n, s.world.entities.count e = n + 1 :=
      Nat.exists_eq_succ_of_ne_zero (Nat.pos_iff_ne_zero.mp (List.count_pos_iff.mpr he))
    rw [hn, onClick_iterate_visit]

theorem onClick_visit_selected (x y : ℚ) (entity : Entity)
    (hs : entity.getComponent .SelectableComponent = some (.SelectableComponent true)) :
    onClick.visit x y entity = entity := by
  rcases onClick_visit_cases x y entity with ⟨h, _⟩ | ⟨_, _, _, _, _, _, _, hs2, _⟩
  · exact h
  · rw [hs] at hs2; cases hs2

theorem Contained_step (p v L len : ℚ) (hlen : len ≤ L) (h : Contained p v L len) :
    Contained (p + v) (if p + v < 0 ∨ p + v + len > L then -v else v) L len := by
  unfold Contained at h ⊢
  rcases le_or_lt 0 v with hv | hv
  · rw [abs_of_nonneg hv] at h
    by_cases hc : p + v < 0 ∨ p + v + len > L
    · rw [if_pos hc, abs_neg, abs_of_nonneg hv]
      rcases h with h | h | h
      · rcases hc with hc | hc
        · linarith
        · right; right
          exact ⟨by linarith, by linarith, by linarith⟩
      · rcases hc with hc | hc
        · linarith
        · right; right
          exact ⟨by linarith, by linarith, by linarith⟩
      · linarith
    · rw [if_neg hc]
      push_neg at hc
      left
      exact ⟨hc.1, by linarith⟩
  · rw [abs_of_neg hv] at h
    by_cases hc : p + v < 0 ∨ p + v + len > L
    · rw [if_pos hc, abs_neg, abs_of_neg hv]
      rcases h with h | h | h
      · rcases hc with hc | hc
        · right; left
          exact ⟨hc, by linarith, by linarith⟩
        · linarith
      · linarith
      · rcases hc with hc | hc
        · right; left
          exact ⟨hc, by linarith, by linarith⟩
        · linarith
    · rw [if_neg hc]
      push_neg at hc
      left
      exact ⟨hc.1, by linarith⟩

theorem Contained_bounds (p v L len : ℚ) (hlen : len ≤ L) (h : Contained p v L len) :
    -|v| ≤ p ∧ p ≤ L - len + |v| := by
  have hv := abs_nonneg v
  unfold Contained at h
  rcases h with h | h | h
  · exact ⟨by linarith, by linarith⟩
  · exact ⟨h.2.1, by
      have : |v| = v := abs_of_pos h.2.2
      linarith⟩
  · exact ⟨by linarith, h.2.1⟩

theorem velocityBounce_visit (env : Env) (x : Entity) (px py w h ux uy : ℚ)
    (hp : x.getComponent .PositionComponent = some (.PositionComponent px py))
    (hr : x.getComponent .RectangleComponent = some (.RectangleComponent w h))
    (hv : x.getComponent .VelocityComponent = some (.VelocityComponent ux uy)) :
    (BounceSystem.visit env (VelocitySystem.visit x)).getComponent .PositionComponent
        = some (.PositionComponent (px + ux) (py + uy))
    ∧ (BounceSystem.visit env (VelocitySystem.visit x)).getComponent .RectangleComponent
        = some (.RectangleComponent w h)
    ∧ (BounceSystem.visit env (VelocitySystem.visit x)).getComponent .VelocityComponent
        = some (.VelocityComponent
            (if px + ux < 0 ∨ px + ux + w > env.canvasWidth then -ux else ux)
            (if py + uy < 0 ∨ py + uy + h > env.canvasHeight then -uy else uy)) := by
  have hmove : VelocitySystem.visit x
      = x.assign .PositionComponent (.PositionComponent (px + ux) (py + uy)) := by
    simp [VelocitySystem.visit, hp, hv]
  have hp1 : (VelocitySystem.visit x).getComponent .PositionComponent
      = some (.PositionComponent (px + ux) (py + uy)) := by
    rw [hmove, Entity.getComponent_assign_same x .PositionComponent (.PositionComponent _ _)
      rfl, hp]
    rfl
  have hr1 : (VelocitySystem.visit x).getComponent .RectangleComponent
      = some (.RectangleComponent w h) := by
    rw [VelocitySystem_visit_other x _ (by decide), hr]
  have hv1 : (VelocitySystem.visit x).getComponent .VelocityComponent
      = some (.VelocityComponent ux uy) := by
    rw [VelocitySystem_visit_other x _ (by decide), hv]
  refine ⟨?_, ?_, ?_⟩
  · rw [BounceSystem_visit_other env _ _ (by decide), hp1]
  · rw [BounceSystem_visit_other env _ _ (by decide), hr1]
  · rw [BounceSystem_visit_of_all env _ _ _ _ _ _ _ hp1 hr1 hv1,
      Entity.getComponent_assign_same _ .VelocityComponent (.VelocityComponent _ _) rfl, hv1]
    rfl

theorem velocityBounce_step_store (env : Env) (entities : List EntityRef) (s s1 : State)
    (h : (VelocitySystem.update entities s).andThen (BounceSystem.update env entities) = .ok s1)
    (e : EntityRef) (hcount : entities.count e = 1) :
    s1.store e = BounceSystem.visit env (VelocitySystem.visit (s.store e)) := by
  rw [VelocitySystem_update_eq] at h
  simp only [Result.andThen] at h
  obtain ⟨k, _, hstate, hok⟩ := BounceSystem_update_state env entities
    { s with store := fun e => VelocitySystem.visit^[entities.count e] (s.store e) }
  rw [h] at hstate hok
  simp only [Result.state] at hstate
  have hk := hok rfl e
  rw [hstate]
  show (BounceSystem.visit env)^[k e] (VelocitySystem.visit^[entities.count e] (s.store e)) = _
  rw [hk, hcount]
  rfl

theorem velocityBounce_safe_step (env : Env) (entities : List EntityRef) (s : State)
    (hsafe : ∀ e ∈ entities, (s.store e).getComponent .PositionComponent ≠ none →
      (s.store e).getComponent .RectangleComponent ≠ none →
      (s.store e).getComponent .VelocityComponent ≠ none) :
    ∃ s1, (VelocitySystem.update entities s).andThen (BounceSystem.update env entities) = .ok s1
      ∧ s1.world = s.world
      ∧ ∀ e ∈ entities, (s1.store e).getComponent .PositionComponent ≠ none →
          (s1.store e).getComponent .RectangleComponent ≠ none →
          (s1.store e).getComponent .VelocityComponent ≠ none := by
  rw [VelocitySystem_update_eq]
  simp only [Result.andThen]
  generalize hs1 : ({ s with store := fun e =>
    VelocitySystem.visit^[entities.count e] (s.store e) } : State) = s1
  have hw1 : s1.world = s.world := by rw [← hs1]
  have hc1 : ∀ e type, type ≠ .PositionComponent →
      (s1.store e).getComponent type = (s.store e).getComponent type := by
    intro e type ht
    rw [← hs1]
    exact (VelocitySystem_iterate_visit _ _).1 type ht
  have hp1 : ∀ e, (s.store e).getComponent .PositionComponent = none →
      (s1.store e).getComponent .PositionComponent = none := by
    intro e he
    rw [← hs1]
    show (VelocitySystem.visit^[entities.count e] (s.store e)).getComponent _ = _
    rw [(VelocitySystem_iterate_visit _ _).2 he]
    exact he
  have hsafe1 : ∀ e ∈ entities, (s1.store e).getComponent .PositionComponent ≠ none →
      (s1.store e).getComponent .RectangleComponent ≠ none →
      (s1.store e).getComponent .VelocityComponent ≠ none := by
    intro e he hp hr
    rw [hc1 e .VelocityComponent (by decide)]
    rw [hc1 e .RectangleComponent (by decide)] at hr
    exact hsafe e he (fun h => hp (hp1 e h)) hr
  have hok2 : (BounceSystem.update env entities s1).isOk = true := by
    apply forOf_guarded_ok (BounceSystem.visit env) (BounceSystem.throws env) .typeError
      (BounceSystem.body env) (BounceSystem_body_eq env) (BounceSystem_throws_visit env)
    intro e he
    exact BounceSystem_throws_of_velocity env _ (hsafe1 e he)
  obtain ⟨k, _, hstate2, _⟩ := BounceSystem_update_state env entities s1
  refine ⟨_, Result.eq_ok_of_isOk _ hok2, ?_, ?_⟩
  · rw [hstate2]; exact hw1
  · intro e he hp hr
    rw [hstate2] at hp hr ⊢
    have hiter := BounceSystem_iterate_visit env (k e) (s1.store e)
    change ((BounceSystem.visit env)^[k e] (s1.store e)).getComponent _ ≠ none at hp hr
    show ((BounceSystem.visit env)^[k e] (s1.store e)).getComponent _ ≠ none
    rw [hiter.1 _ (by decide)] at hp hr
    rcases (s1.store e).getComponent_velocity with hnone | ⟨ux, uy, hv⟩
    · exact absurd hnone (hsafe1 e he hp hr)
    · obtain ⟨wx, wy, hw, _, _⟩ := hiter.2.1 ux uy hv
      rw [hw]
      simp

theorem velocityBounce_ok (env : Env) (entities : List EntityRef) (n : Nat) :
    ∀ s : State, (∀ e ∈ entities, (s.store e).getComponent .PositionComponent ≠ none →
      (s.store e).getComponent .RectangleComponent ≠ none →
      (s.store e).getComponent .VelocityComponent ≠ none) →
    (velocityBounce env entities n s).isOk = true := by
  induction n with
  | zero => intro s _; rfl
  | succ n ih =>
    intro s hsafe
    obtain ⟨s1, h1, _, hsafe1⟩ := velocityBounce_safe_step env entities s hsafe
    rw [velocityBounce, h1]
    exact ih s1 hsafe1

theorem velocityBounce_invariant (env : Env) (entities : List EntityRef) (e : EntityRef)
    (hcount : entities.count e = 1) (w h a b : ℚ)
    (hw : w ≤ env.canvasWidth) (hh : h ≤ env.canvasHeight) (n : Nat) :
    ∀ (s s1 : State) (px py ux uy : ℚ),
      (s.store e).getComponent .PositionComponent = some (.PositionComponent px py) →
      (s.store e).getComponent .RectangleComponent = some (.RectangleComponent w h) →
      (s.store e).getComponent .VelocityComponent = some (.VelocityComponent ux uy) →
      |ux| = a → |uy| = b →
      Contained px ux env.canvasWidth w → Contained py uy env.canvasHeight h →
      velocityBounce env entities n s = .ok s1 →
      ∃ x y vx vy,
        (s1.store e).getComponent .PositionComponent = some (.PositionComponent x y)
        ∧ (s1.store e).getComponent .RectangleComponent = some (.RectangleComponent w h)
        ∧ (s1.store e).getComponent .VelocityComponent = some (.VelocityComponent vx vy)
        ∧ |vx| = a ∧ |vy| = b
        ∧ Contained x vx env.canvasWidth w ∧ Contained y vy env.canvasHeight h := by
  induction n with
  | zero =>
    intro s s1 px py ux uy hp hr hv ha hb hcx hcy hrun
    cases hrun
    exact ⟨px, py, ux, uy, hp, hr, hv, ha, hb, hcx, hcy⟩
  | succ n ih =>
    intro s s1 px py ux uy hp hr hv ha hb hcx hcy hrun
    rw [velocityBounce, Result.andThen_eq_ok] at hrun
    obtain ⟨s2, hstep, hrest⟩ := hrun
    have hstore := velocityBounce_step_store env entities s s2 hstep e hcount
    obtain ⟨hp2, hr2, hv2⟩ := velocityBounce_visit env (s.store e) px py w h ux uy hp hr hv
    rw [← hstore] at hp2 hr2 hv2
    refine ih s2 s1 _ _ _ _ hp2 hr2 hv2 ?_ ?_ (Contained_step px ux _ w hw hcx)
      (Contained_step py uy _ h hh hcy) hrest
    · split
      · rw [abs_neg]; exact ha
      · exact ha
    · split
      · rw [abs_neg]; exact hb
      · exact hb

theorem addPokemon_fields (env : Env) (no : Nat) (p : Page) :
    (addPokemon env no p).i = p.i ∧ (addPokemon env no p).delay = p.delay
    ∧ (addPokemon env no p).pending = p.pending
    ∧ (addPokemon env no p).lastRender = p.lastRender
    ∧ (addPokemon env no p).acculumatedTime = p.acculumatedTime
    ∧ (addPokemon env no p).ticks = p.ticks ∧ (addPokemon env no p).renders = p.renders
    ∧ (addPokemon env no p).requests = p.requests
    ∧ (addPokemon env no p).spawned = p.spawned ++ [no]
    ∧ (addPokemon env no p).allocated = p.allocated + 1
    ∧ (addPokemon env no p).sim.world.entities = p.sim.world.entities ++ [p.allocated]
    ∧ (addPokemon env no p).sim.world.systems = p.sim.world.systems := by
  refine ⟨rfl, rfl, rfl, rfl, rfl, rfl, rfl, rfl, rfl, rfl, rfl, rfl⟩

theorem addPokemonLoop_fields (env : Env) (p : Page) :
    (addPokemonLoop env p).i = p.i + 1
    ∧ (addPokemonLoop env p).delay = (if p.delay > 200 then p.delay * (9 / 10) else p.delay)
    ∧ (addPokemonLoop env p).pending
      = (if p.i + 1 < 151 then some (addPokemonLoop env p).delay else none)
    ∧ (addPokemonLoop env p).spawned = p.spawned ++ [p.i]
    ∧ (addPokemonLoop env p).allocated = p.allocated + 1
    ∧ (addPokemonLoop env p).sim.world.entities = p.sim.world.entities ++ [p.allocated]
    ∧ (addPokemonLoop env p).sim.world.systems = p.sim.world.systems
    ∧ (addPokemonLoop env p).lastRender = p.lastRender
    ∧ (addPokemonLoop env p).acculumatedTime = p.acculumatedTime
    ∧ (addPokemonLoop env p).ticks = p.ticks ∧ (addPokemonLoop env p).renders = p.renders := by
  refine ⟨rfl, rfl, rfl, rfl, rfl, rfl, rfl, rfl, rfl, rfl, rfl⟩

theorem addPokemonLoop_iterate (env : Env) (n : Nat) :
    ∀ p : Page, ((addPokemonLoop env)^[n] p).i = p.i + n
      ∧ ((addPokemonLoop env)^[n] p).spawned = p.spawned ++ List.range' p.i n
      ∧ ((addPokemonLoop env)^[n] p).allocated = p.allocated + n
      ∧ ((addPokemonLoop env)^[n] p).sim.world.entities
        = p.sim.world.entities ++ List.range' p.allocated n
      ∧ ((addPokemonLoop env)^[n] p).sim.world.systems = p.sim.world.systems := by
  induction n with
  | zero => intro p; simp
  | succ n ih =>
    intro p
    rw [Function.iterate_succ_apply]
    obtain ⟨h1, h2, h3, h4, h5⟩ := ih (addPokemonLoop env p)
    obtain ⟨f1, _, _, f4, f5, f6, f7, _⟩ := addPokemonLoop_fields env p
    rw [h1, h2, h3, h4, h5, f1, f4, f5, f6, f7]
    refine ⟨by omega, ?_, by omega, ?_, rfl⟩
    · rw [List.range'_succ, List.append_assoc]; rfl
    · rw [List.range'_succ, List.append_assoc]; rfl

theorem runTimeouts_step (env : Env) (p : Page) (hp : p.pending ≠ none) :
    runTimeouts env p = runTimeouts env (addPokemonLoop env p) := by
  rw [runTimeouts]
  split
  · rfl
  · rename_i h
    exact absurd h hp

theorem runTimeouts_none (env : Env) (p : Page) (hp : p.pending = none) :
    runTimeouts env p = p := by
  rw [runTimeouts]
  split
  · rename_i d h
    rw [hp] at h; cases h
  · rfl

theorem runTimeouts_eq_iterate (env : Env) (k : Nat) :
    ∀ p : Page, p.i + k = 150 → p.pending ≠ none →
      runTimeouts env p = (addPokemonLoop env)^[k + 1] p := by
  induction k with
  | zero =>
    intro p hi hp
    obtain ⟨_, _, f3, _⟩ := addPokemonLoop_fields env p
    rw [runTimeouts_step env p hp, runTimeouts_none]
    · rfl
    · rw [f3, if_neg (by omega)]
  | succ k ih =>
    intro p hi hp
    obtain ⟨f1, _, f3, _⟩ := addPokemonLoop_fields env p
    rw [runTimeouts_step env p hp, ih (addPokemonLoop env p) (by omega)]
    · rw [← Function.iterate_succ_apply]
    · rw [f3, if_pos (by omega)]
      simp

theorem spawnSchedule_eq (env : Env) :
    spawnSchedule env = (addPokemonLoop env)^[151] Page.initial := by
  have h := runTimeouts_eq_iterate env 149 (addPokemonLoop env Page.initial) rfl
    (by rw [(addPokemonLoop_fields env Page.initial).2.2.1]; simp [Page.initial])
  rw [spawnSchedule, h, ← Function.iterate_succ_apply]

theorem addPokemonLoop_iterate_delay (env : Env) (n : Nat) :
    ((addPokemonLoop env)^[n] Page.initial).delay = 800 * (9 / 10) ^ (min n 14) := by
  induction n with
  | zero => simp [Page.initial]
  | succ n ih =>
    rw [Function.iterate_succ_apply', (addPokemonLoop_fields env _).2.1, ih]
    by_cases hn : n < 14
    · have hmin : min n 14 = n := by omega
      have hmin2 : min (n + 1) 14 = n + 1 := by omega
      rw [hmin, hmin2]
      have hpow : (9 / 10 : ℚ) ^ 13 ≤ (9 / 10) ^ n :=
        pow_le_pow_of_le_one (by norm_num) (by norm_num) (by omega)
      have hgt : (800 : ℚ) * (9 / 10) ^ n > 200 := by
        have : (800 : ℚ) * (9 / 10) ^ 13 > 200 := by norm_num
        linarith
      rw [if_pos hgt, pow_succ]
      ring
    · have hmin : min n 14 = 14 := by omega
      have hmin2 : min (n + 1) 14 = 14 := by omega
      rw [hmin, hmin2]
      rw [if_neg (by norm_num)]

theorem addPokemonLoop_iterate_pending (env : Env) (n : Nat) :
    ((addPokemonLoop env)^[n + 1] Page.initial).pending
      = if n + 1 < 151 then some (800 * (9 / 10) ^ (min (n + 1) 14)) else none := by
  have hd := addPokemonLoop_iterate_delay env (n + 1)
  have hi := (addPokemonLoop_iterate env n Page.initial).1
  rw [Function.iterate_succ_apply'] at hd ⊢
  rw [(addPokemonLoop_fields env _).2.2.1, hd, hi]
  simp [Page.initial]

theorem Entity.getComponent_assign_isSome (self : Entity) (type other : ComponentClass)
    (value : Component) (hv : value.instanceof type = true) :
    ((self.assign type value).getComponent other).isSome
      = (self.getComponent other).isSome := by
  by_cases h : other = type
  · subst h
    rw [Entity.getComponent_assign_same self other value hv]
    cases self.getComponent other <;> rfl
  · rw [Entity.getComponent_assign_other self type other value hv h]

theorem iterate_isSome (f : Entity → Entity)
    (hf : ∀ x type, ((f x).getComponent type).isSome = (x.getComponent type).isSome)
    (n : Nat) (x : Entity) (type : ComponentClass) :
    ((f^[n] x).getComponent type).isSome = (x.getComponent type).isSome := by
  induction n with
  | zero => rfl
  | succ n ih => rw [Function.iterate_succ_apply', hf, ih]

theorem VelocitySystem_visit_isSome (x : Entity) (type : ComponentClass) :
    ((VelocitySystem.visit x).getComponent type).isSome = (x.getComponent type).isSome := by
  unfold VelocitySystem.visit
  split
  · exact Entity.getComponent_assign_isSome x .PositionComponent type
      (.PositionComponent _ _) rfl
  · rfl

theorem BounceSystem_visit_isSome (env : Env) (x : Entity) (type : ComponentClass) :
    ((BounceSystem.visit env x).getComponent type).isSome = (x.getComponent type).isSome := by
  rcases BounceSystem_visit_cases env x with h | ⟨px, py, w, h, vx, vy, hp, hr, hv⟩
  · rw [h]
  · rw [BounceSystem_visit_of_all env x px py w h vx vy hp hr hv]
    exact Entity.getComponent_assign_isSome x .VelocityComponent type
      (.VelocityComponent _ _) rfl

theorem SelectedSystem_visit_isSome (x : Entity) (type : ComponentClass) :
    ((SelectedSystem.visit x).getComponent type).isSome = (x.getComponent type).isSome := by
  rcases SelectedSystem_visit_cases x with h | ⟨hs, d, hd⟩
  · rw [h]
  · rw [(SelectedSystem_visit_selected x d hs hd).1,
      Entity.getComponent_assign_isSome _ .DeleteableComponent type
        (.DeleteableComponent true) rfl,
      Entity.getComponent_assign_isSome x .SelectableComponent type
        (.SelectableComponent false) rfl]

theorem RepositionSystem_update_isSome (env : Env) (entities : List EntityRef) (s : State) :
    ∀ e type, (((RepositionSystem.update env entities s).state.store e).getComponent
        type).isSome = ((s.store e).getComponent type).isSome := by
  unfold RepositionSystem.update
  induction entities generalizing s with
  | nil => intro e type; rfl
  | cons a rest ih =>
    intro e type
    simp only [forOf, RepositionSystem_body_eq, Result.andThen]
    by_cases ht : RepositionSystem.triggered env (s.store a) = true
    · simp only [ht, if_true]
      rw [ih]
      simp only [State.assign]
      by_cases hea : e = a
      · subst hea
        rw [Function.update_same]
        exact Entity.getComponent_assign_isSome _ .PositionComponent type
          (.PositionComponent _ _) rfl
      · rw [Function.update_noteq hea]
    · simp only [ht]
      exact ih s e type

theorem System_update_isSome (env : Env) (system : System) (entities : List EntityRef)
    (s : State) (e : EntityRef) (type : ComponentClass) :
    (((system.update env entities s).state.store e).getComponent type).isSome
      = ((s.store e).getComponent type).isSome := by
  cases system with
  | VelocitySystem =>
    have hu : System.update env .VelocitySystem entities s = _ :=
      VelocitySystem_update_eq entities s
    rw [hu]
    exact iterate_isSome _ VelocitySystem_visit_isSome _ _ _
  | BounceSystem =>
    obtain ⟨k, _, hstate, _⟩ := BounceSystem_update_state env entities s
    have hu : System.update env .BounceSystem entities s
        = BounceSystem.update env entities s := rfl
    rw [hu, hstate]
    exact iterate_isSome _ (BounceSystem_visit_isSome env) _ _ _
  | SelectedSystem =>
    have hu : System.update env .SelectedSystem entities s = _ :=
      SelectedSystem_update_eq entities s
    rw [hu]
    exact iterate_isSome _ SelectedSystem_visit_isSome _ _ _
  | DeleteSystem =>
    have hu : System.update env .DeleteSystem entities s = _ :=
      DeleteSystem_update_eq entities s
    rw [hu]
    rfl
  | RepositionSystem => exact RepositionSystem_update_isSome env entities s e type
  | subclass constructorName => rfl

theorem World_runSystems_isSome (env : Env) (systems : List System) (s : State)
    (e : EntityRef) (type : ComponentClass) :
    (((World.runSystems env systems s).state.store e).getComponent type).isSome
      = ((s.store e).getComponent type).isSome := by
  induction systems generalizing s with
  | nil => rfl
  | cons a rest ih =>
    have ha := System_update_isSome env a s.world.entities s e type
    simp only [World.runSystems]
    cases hr : System.update env a s.world.entities s with
    | ok s1 =>
      rw [hr] at ha
      simp only [Result.andThen]
      rw [ih s1]
      exact ha
    | thrown err s1 =>
      rw [hr] at ha
      exact ha

theorem World_update_safe (env : Env) (timestamp : ℚ) (s : State)
    (hsys : s.world.systems = World.program.systems) (hsafe : s.bounceSafe) :
    ∃ s1, World.update env timestamp s = .ok s1
      ∧ s1.world.systems = World.program.systems ∧ s1.bounceSafe := by
  obtain ⟨s3, h3, _, _⟩ := World_runSystems_before_delete env s hsafe
  obtain ⟨s5, h5, _⟩ := World_runSystems_delete_reposition env s3
  have hrun : World.update env timestamp s = .ok s5 := by
    rw [World_update_program env timestamp s hsys, h3]
    exact h5
  have hframe := World_runSystems_frame env s.world.systems s
  have hsome := World_runSystems_isSome env s.world.systems s
  have hrun2 : World.runSystems env s.world.systems s = .ok s5 := hrun
  rw [hrun2] at hframe hsome
  simp only [Result.state] at hframe hsome
  refine ⟨s5, hrun, hframe.1.trans hsys, ?_⟩
  intro e he hp hr
  have hmem := hframe.2.1.subset he
  rw [Option.ne_none_iff_isSome] at hp hr ⊢
  rw [hsome] at hp hr ⊢
  rw [← Option.ne_none_iff_isSome] at hp hr ⊢
  exact hsafe e hmem hp hr

theorem World_ticks_safe (frames : List (Env × ℚ)) :
    ∀ s : State, s.world.systems = World.program.systems → s.bounceSafe →
      ∃ s1, World.ticks frames s = .ok s1
        ∧ s1.world.systems = World.program.systems ∧ s1.bounceSafe := by
  induction frames with
  | nil => intro s hsys hsafe; exact ⟨s, rfl, hsys, hsafe⟩
  | cons a rest ih =>
    intro s hsys hsafe
    obtain ⟨s1, h1, hsys1, hsafe1⟩ := World_update_safe a.1 a.2 s hsys hsafe
    obtain ⟨s2, h2, hsys2, hsafe2⟩ := ih s1 hsys1 hsafe1
    exact ⟨s2, by rw [World.ticks, h1]; exact h2, hsys2, hsafe2⟩

theorem addPokemonLoop_store (env : Env) (p : Page) :
    ∃ pokemon : Entity,
      (addPokemonLoop env p).sim.store = Function.update p.sim.store p.allocated pokemon
      ∧ (pokemon.getComponent .VelocityComponent).isSome = true :=
  ⟨_, rfl, rfl⟩

theorem onClick_visit_isSome (x y : ℚ) (entity : Entity) (type : ComponentClass) :
    ((onClick.visit x y entity).getComponent type).isSome
      = (entity.getComponent type).isSome := by
  rcases onClick_visit_cases x y entity with ⟨h, _⟩ | ⟨h, _⟩
  · rw [h]
  · rw [h]
    exact Entity.getComponent_assign_isSome entity .SelectableComponent type
      (.SelectableComponent true) rfl

theorem onClick_safe (x y : ℚ) (s : State) (hsafe : s.bounceSafe) :
    ∃ s1, onClick x y s = .ok s1 ∧ s1.world = s.world ∧ s1.bounceSafe := by
  obtain ⟨s1, h1, h2, _, h4, _⟩ := onClick_frame x y s
  refine ⟨s1, h1, h2, ?_⟩
  intro e he hp hr
  have hsome : ∀ type, ((s1.store e).getComponent type).isSome
      = ((s.store e).getComponent type).isSome := by
    intro type
    rcases h4 e with h | h
    · rw [h]
    · rw [h, onClick_visit_isSome]
  rw [h2] at he
  rw [Option.ne_none_iff_isSome] at hp hr ⊢
  rw [hsome] at hp hr ⊢
  rw [← Option.ne_none_iff_isSome] at hp hr ⊢
  exact hsafe e he hp hr

/-! ## Lemmas on the numbers of the frame loop -/

theorem roundHalfEven_abs_sub_le (q : ℚ) : |(roundHalfEven q : ℚ) - q| ≤ 1 / 2 := by
  have h1 := Int.floor_le q
  have h2 := Int.lt_floor_add_one q
  unfold roundHalfEven
  split_ifs with ha hb hc
  · rw [abs_le]; constructor <;> linarith
  · push_cast; rw [abs_le]; constructor <;> linarith
  · rw [abs_le]; constructor <;> linarith
  · push_cast; rw [abs_le]; constructor <;> linarith

theorem roundHalfEven_intCast (n : ℤ) : roundHalfEven (n : ℚ) = n := by
  unfold roundHalfEven
  simp

theorem roundHalfEven_nonneg (q : ℚ) (hq : 0 ≤ q) : 0 ≤ roundHalfEven q := by
  have h := Int.floor_nonneg.mpr hq
  unfold roundHalfEven
  split_ifs <;> omega

theorem roundHalfEven_eq_of_abs_sub_lt (q : ℚ) (m : ℤ) (h : |q - m| < 1 / 2) :
    roundHalfEven q = m := by
  rw [abs_lt] at h
  obtain ⟨h1, h2⟩ := h
  by_cases hq : (m : ℚ) ≤ q
  · have hf : ⌊q⌋ = m := by
      rw [Int.floor_eq_iff]
      constructor
      · exact hq
      · linarith
    unfold roundHalfEven
    rw [hf, if_pos (by linarith)]
  · have hf : ⌊q⌋ = m - 1 := by
      rw [Int.floor_eq_iff]
      push_cast
      constructor <;> linarith
    unfold roundHalfEven
    rw [hf]
    push_cast
    rw [if_neg (by linarith), if_pos (by linarith)]
    ring

theorem roundHalfEven_tie (q : ℚ) (m : ℤ) (h : q = m + 1 / 2) :
    roundHalfEven q = if m % 2 = 0 then m else m + 1 := by
  have hf : ⌊q⌋ = m := by
    rw [Int.floor_eq_iff]
    constructor <;> linarith
  unfold roundHalfEven
  rw [hf, if_neg (by linarith), if_neg (by linarith)]

theorem toDouble_zero : toDouble 0 = 0 := by
  simp [toDouble]

theorem Int_log_two_eq (x : ℚ) (n : ℤ) (h1 : 2 ^ n ≤ |x|) (h2 : |x| < 2 ^ (n + 1)) :
    Int.log 2 |x| = n := by
  have hpos : 0 < |x| := lt_of_lt_of_le (by positivity) h1
  have ha : n ≤ Int.log 2 |x| := by
    rw [← Int.zpow_le_iff_le_log (by norm_num) hpos]
    exact_mod_cast h1
  have hb : Int.log 2 |x| < n + 1 := by
    rw [← Int.lt_zpow_iff_log_lt (by norm_num) hpos]
    exact_mod_cast h2
  omega

theorem toDouble_eval (x : ℚ) (e m : ℤ) (he : -1074 ≤ e) (h1 : 2 ^ (e + 52) ≤ |x|)
    (h2 : |x| < 2 ^ (e + 53)) (hr : roundHalfEven (x / 2 ^ e) = m) :
    toDouble x = m * 2 ^ e := by
  have hlog : Int.log 2 |x| = e + 52 :=
    Int_log_two_eq x (e + 52) h1 (by rw [show e + 52 + 1 = e + 53 by ring]; exact h2)
  have hx : x ≠ 0 := by
    intro h0
    rw [h0, abs_zero] at h1
    exact absurd h1 (not_le.mpr (by positivity))
  unfold toDouble
  rw [if_neg hx, hlog, show e + 52 - 52 = e by ring, max_eq_left he, hr]

theorem toDouble_of_int (x : ℚ) (n : ℤ)
    (h : x / 2 ^ max (Int.log 2 |x| - 52) (-1074) = n) : toDouble x = x := by
  unfold toDouble
  split_ifs with h0
  · exact h0.symm
  · rw [h, roundHalfEven_intCast, ← h]
    have hp : (2 : ℚ) ^ max (Int.log 2 |x| - 52) (-1074) ≠ 0 := by positivity
    field_simp

theorem toDouble_grid (x : ℚ) :
    ∃ m e : ℤ, -1074 ≤ e ∧ |m| ≤ 2 ^ 53 ∧ toDouble x = m * 2 ^ e := by
  by_cases hx : x = 0
  · exact ⟨0, 0, by norm_num, by norm_num, by simp [hx, toDouble_zero]⟩
  · have hpos : 0 < |x| := abs_pos.mpr hx
    refine ⟨roundHalfEven (x / 2 ^ max (Int.log 2 |x| - 52) (-1074)),
      max (Int.log 2 |x| - 52) (-1074), le_max_right _ _, ?_, by rw [toDouble, if_neg hx]⟩
    set E := max (Int.log 2 |x| - 52) (-1074) with hE
    have hlt : |x| < 2 ^ (Int.log 2 |x| + 1) := by
      have := Int.lt_zpow_succ_log_self (b := 2) (by norm_num) |x|
      exact_mod_cast this
    have hle : (2 : ℚ) ^ (Int.log 2 |x| + 1) ≤ 2 ^ (E + 53) :=
      zpow_le_zpow_right₀ (by norm_num) (by have := le_max_left (Int.log 2 |x| - 52) (-1074); omega)
    have hq : |x / 2 ^ E| < 2 ^ 53 := by
      rw [abs_div, abs_of_pos (show (0 : ℚ) < 2 ^ E by positivity), div_lt_iff₀ (by positivity)]
      calc |x| < 2 ^ (E + 53) := lt_of_lt_of_le hlt hle
        _ = 2 ^ 53 * 2 ^ E := by rw [zpow_add₀ (by norm_num)]; norm_num; ring
    have hr := roundHalfEven_abs_sub_le (x / 2 ^ E)
    have hm : |((roundHalfEven (x / 2 ^ E) : ℤ) : ℚ)| < 2 ^ 53 + 1 := by
      have h3 := abs_sub_abs_le_abs_sub ((roundHalfEven (x / 2 ^ E) : ℤ) : ℚ) (x / 2 ^ E)
      linarith
    have hm2 : |roundHalfEven (x / 2 ^ E)| < 2 ^ 53 + 1 := by
      have : ((|roundHalfEven (x / 2 ^ E)| : ℤ) : ℚ) < ((2 ^ 53 + 1 : ℤ) : ℚ) := by
        push_cast
        norm_num at hm ⊢
        exact hm
      exact_mod_cast this
    omega

theorem toDouble_of_repr (m e : ℤ) (he : -1074 ≤ e) (hm : |m| ≤ 2 ^ 53) :
    toDouble (m * 2 ^ e) = m * 2 ^ e := by
  by_cases hm0 : m = 0
  · simp [hm0, toDouble_zero]
  have hmpos : (0 : ℚ) < |(m : ℚ)| := abs_pos.mpr (by exact_mod_cast hm0)
  have habs : |(m : ℚ) * 2 ^ e| = |(m : ℚ)| * 2 ^ e := by
    rw [abs_mul, abs_of_pos (show (0 : ℚ) < 2 ^ e by positivity)]
  have hpos : 0 < |(m : ℚ) * 2 ^ e| := by rw [habs]; positivity
  have hmq : |(m : ℚ)| ≤ 2 ^ 53 := by
    have : ((|m| : ℤ) : ℚ) ≤ ((2 ^ 53 : ℤ) : ℚ) := by exact_mod_cast hm
    simpa using this
  have hup : |(m : ℚ) * 2 ^ e| ≤ 2 ^ (e + 53) := by
    rw [habs, zpow_add₀ (by norm_num)]
    have h2 : (0 : ℚ) < 2 ^ e := by positivity
    have : |(m : ℚ)| * 2 ^ e ≤ 2 ^ 53 * 2 ^ e := by nlinarith
    calc |(m : ℚ)| * 2 ^ e ≤ 2 ^ 53 * 2 ^ e := this
      _ = 2 ^ e * 2 ^ (53 : ℤ) := by norm_num; ring
  have hL : Int.log 2 |(m : ℚ) * 2 ^ e| ≤ e + 53 := by
    have h1 := Int.zpow_log_le_self (b := 2) (by norm_num) hpos
    have h2 : (2 : ℚ) ^ Int.log 2 |(m : ℚ) * 2 ^ e| ≤ 2 ^ (e + 53) := by
      exact le_trans (by exact_mod_cast h1) hup
    exact (zpow_le_zpow_iff_right₀ (by norm_num)).mp h2
  rcases lt_or_le (Int.log 2 |(m : ℚ) * 2 ^ e|) (e + 53) with hlt | hge
  · -- the exponent of the rounding is at most e
    have hE : max (Int.log 2 |(m : ℚ) * 2 ^ e| - 52) (-1074) ≤ e := max_le (by omega) he
    obtain ⟨d, hd⟩ := Int.eq_ofNat_of_zero_le (sub_nonneg.mpr hE)
    apply toDouble_of_int _ (m * 2 ^ d)
    have he2 : e = max (Int.log 2 |(m : ℚ) * 2 ^ e| - 52) (-1074) + d := by omega
    generalize max (Int.log 2 |(m : ℚ) * 2 ^ e| - 52) (-1074) = E at he2 ⊢
    have hp : (2 : ℚ) ^ E ≠ 0 := by positivity
    rw [he2, zpow_add₀ (by norm_num)]
    push_cast
    field_simp
    ring
  · -- the magnitude is 2 ^ (e + 53)
    have hLe : Int.log 2 |(m : ℚ) * 2 ^ e| = e + 53 := by omega
    have hlow : (2 : ℚ) ^ (e + 53) ≤ |(m : ℚ) * 2 ^ e| := by
      have h1 := Int.zpow_log_le_self (b := 2) (by norm_num) hpos
      rw [hLe] at h1
      exact_mod_cast h1
    have hmeq : |(m : ℚ)| = 2 ^ 53 := by
      apply le_antisymm hmq
      rw [habs, zpow_add₀ (by norm_num)] at hlow
      have h2 : (0 : ℚ) < 2 ^ e := by positivity
      have h3 : (2 : ℚ) ^ e * 2 ^ 53 ≤ |(m : ℚ)| * 2 ^ e := by
        calc (2 : ℚ) ^ e * 2 ^ 53 = 2 ^ e * 2 ^ (53 : ℤ) := by norm_num
          _ ≤ |(m : ℚ)| * 2 ^ e := hlow
      by_contra hcon
      have : |(m : ℚ)| < 2 ^ 53 := lt_of_le_of_ne hmq (fun h => hcon (by rw [h]))
      nlinarith
    apply toDouble_of_int _ (m / 2)
    rw [hLe, show e + 53 - 52 = e + 1 by ring, max_eq_left (by omega),
      zpow_add₀ (by norm_num)]
    have hp : (2 : ℚ) ^ e ≠ 0 := by positivity
    have hm2 : m = 2 ^ 53 ∨ m = -2 ^ 53 := by
      have : |m| = 2 ^ 53 := by
        have : ((|m| : ℤ) : ℚ) = ((2 ^ 53 : ℤ) : ℚ) := by
          push_cast
          exact hmeq
        exact_mod_cast this
      rcases abs_eq (by norm_num : (0 : ℤ) ≤ 2 ^ 53) |>.mp this with h | h
      · exact Or.inl h
      · exact Or.inr h
    rcases hm2 with h | h <;> rw [h] <;> field_simp <;> norm_num <;> ring

theorem IsDouble_toDouble (x : ℚ) : IsDouble (toDouble x) := by
  obtain ⟨m, e, he, hm, h⟩ := toDouble_grid x
  unfold IsDouble
  rw [h]
  exact toDouble_of_repr m e he hm

theorem IsDouble_zero : IsDouble 0 := toDouble_zero

theorem IsDouble_onGrid (x : ℚ) (h : IsDouble x) : ∃ n : ℤ, x = n * 2 ^ (-1074 : ℤ) := by
  obtain ⟨m, e, he, _, hx⟩ := toDouble_grid x
  rw [h] at hx
  obtain ⟨d, hd⟩ := Int.eq_ofNat_of_zero_le (show 0 ≤ e + 1074 by omega)
  refine ⟨m * 2 ^ d, ?_⟩
  rw [hx, show e = (d : ℤ) + (-1074) by omega, zpow_add₀ (by norm_num), zpow_natCast]
  push_cast
  ring

theorem toDouble_err (x : ℚ) (hg : ∃ n : ℤ, x = n * 2 ^ (-1074 : ℤ)) :
    |toDouble x - x| ≤ |x| / 2 ^ 53 := by
  by_cases hx : x = 0
  · simp [hx, toDouble_zero]
  have hpos : 0 < |x| := abs_pos.mpr hx
  rcases le_or_lt (-1074) (Int.log 2 |x| - 52) with hL | hL
  · have hE : max (Int.log 2 |x| - 52) (-1074) = Int.log 2 |x| - 52 := max_eq_left hL
    rw [toDouble, if_neg hx, hE]
    set E := Int.log 2 |x| - 52 with hEdef
    have hp : (0 : ℚ) < 2 ^ E := by positivity
    have hr := roundHalfEven_abs_sub_le (x / 2 ^ E)
    have hlow : (2 : ℚ) ^ (E + 52) ≤ |x| := by
      have h1 := Int.zpow_log_le_self (b := 2) (by norm_num) hpos
      rw [show E + 52 = Int.log 2 |x| by omega]
      exact_mod_cast h1
    have heq : (roundHalfEven (x / 2 ^ E) : ℚ) * 2 ^ E - x
        = ((roundHalfEven (x / 2 ^ E) : ℚ) - x / 2 ^ E) * 2 ^ E := by
      field_simp
    rw [heq, abs_mul, abs_of_pos hp, le_div_iff₀ (by positivity)]
    rw [zpow_add₀ (by norm_num)] at hlow
    have h52 : (2 : ℚ) ^ (52 : ℤ) = 2 ^ 52 := by norm_num
    rw [h52] at hlow
    have hnn := abs_nonneg ((roundHalfEven (x / 2 ^ E) : ℚ) - x / 2 ^ E)
    calc |(roundHalfEven (x / 2 ^ E) : ℚ) - x / 2 ^ E| * 2 ^ E * 2 ^ 53
        ≤ 1 / 2 * 2 ^ E * 2 ^ 53 := by
          apply mul_le_mul_of_nonneg_right _ (by positivity)
          exact mul_le_mul_of_nonneg_right hr hp.le
      _ = 2 ^ E * 2 ^ 52 := by ring
      _ ≤ |x| := hlow
  · obtain ⟨n, hn⟩ := hg
    have hE : max (Int.log 2 |x| - 52) (-1074) = -1074 := max_eq_right hL.le
    have hfix : toDouble x = x := by
      apply toDouble_of_int x n
      rw [hE, hn]
      have hp : (2 : ℚ) ^ (-1074 : ℤ) ≠ 0 := by positivity
      field_simp
    rw [hfix, sub_self, abs_zero]
    positivity

theorem toDouble_nonneg (x : ℚ) (hx : 0 ≤ x) : 0 ≤ toDouble x := by
  unfold toDouble
  split_ifs with h0
  · exact le_refl 0
  · have hq : 0 ≤ x / 2 ^ max (Int.log 2 |x| - 52) (-1074) := div_nonneg hx (by positivity)
    have := roundHalfEven_nonneg _ hq
    have h2 : (0 : ℚ) ≤ (roundHalfEven (x / 2 ^ max (Int.log 2 |x| - 52) (-1074)) : ℚ) := by
      exact_mod_cast this
    positivity

theorem toDouble_err_add (a b : ℚ) (ha : IsDouble a) (hb : IsDouble b) :
    |toDouble (a + b) - (a + b)| ≤ |a + b| / 2 ^ 53 := by
  obtain ⟨n, hn⟩ := IsDouble_onGrid a ha
  obtain ⟨k, hk⟩ := IsDouble_onGrid b hb
  exact toDouble_err _ ⟨n + k, by rw [hn, hk]; push_cast; ring⟩

theorem toDouble_err_sub (a b : ℚ) (ha : IsDouble a) (hb : IsDouble b) :
    |toDouble (a - b) - (a - b)| ≤ |a - b| / 2 ^ 53 := by
  obtain ⟨n, hn⟩ := IsDouble_onGrid a ha
  obtain ⟨k, hk⟩ := IsDouble_onGrid b hb
  exact toDouble_err _ ⟨n - k, by rw [hn, hk]; push_cast; ring⟩

theorem toDouble_tickDuration :
    toDouble (1000 / 60) = 4691249611844267 / 281474976710656 := by
  rw [toDouble_eval (1000 / 60) (-48) 4691249611844267 (by norm_num)
    (by norm_num [abs_of_pos]) (by norm_num [abs_of_pos])
    (roundHalfEven_eq_of_abs_sub_lt _ _ (by norm_num [abs_lt]))]
  norm_num

theorem tickDuration_bounds : 16 ≤ toDouble (1000 / 60) ∧ toDouble (1000 / 60) ≤ 17 := by
  rw [toDouble_tickDuration]
  norm_num

theorem drainStep_facts (a : ℚ) (ha : IsDouble a) (hge : toDouble (1000 / 60) ≤ a) :
    IsDouble (drainStep a) ∧ 0 ≤ drainStep a
      ∧ |drainStep a - (a - toDouble (1000 / 60))| ≤ (a - toDouble (1000 / 60)) / 2 ^ 53 := by
  have h := toDouble_err_sub a (toDouble (1000 / 60)) ha (IsDouble_toDouble _)
  rw [abs_of_nonneg (sub_nonneg.mpr hge)] at h
  exact ⟨IsDouble_toDouble _, toDouble_nonneg _ (sub_nonneg.mpr hge), h⟩

theorem drain_exists (n : ℕ) :
    ∀ a : ℚ, IsDouble a → 0 ≤ a → a ≤ 2 ^ 55 → a < 8 * n →
      ∃ k : ℕ, (∀ j < k, toDouble (1000 / 60) ≤ drainStep^[j] a)
        ∧ drainStep^[k] a < toDouble (1000 / 60) ∧ 0 ≤ drainStep^[k] a
        ∧ IsDouble (drainStep^[k] a)
        ∧ |k * toDouble (1000 / 60) + drainStep^[k] a - a| ≤ k * a / 2 ^ 53 := by
  obtain ⟨hS1, hS2⟩ := tickDuration_bounds
  induction n with
  | zero =>
    intro a _ h0 _ hn
    norm_num at hn
    linarith
  | succ n ih =>
    intro a ha h0 hB hn
    by_cases hlt : a < toDouble (1000 / 60)
    · exact ⟨0, by intro j hj; omega, hlt, h0, ha, by simp⟩
    · have hge := not_lt.mp hlt
      obtain ⟨hd, hd0, herr⟩ := drainStep_facts a ha hge
      rw [abs_le] at herr
      have hu : (a - toDouble (1000 / 60)) / 2 ^ 53 ≤ 4 := by
        rw [div_le_iff₀ (by positivity)]
        norm_num at hB ⊢
        linarith
      have hle : drainStep a ≤ a - 12 := by linarith [herr.2]
      obtain ⟨k, h1, h2, h3, h4, h5⟩ := ih (drainStep a) hd hd0 (by linarith)
        (by push_cast at hn; linarith)
      refine ⟨k + 1, ?_, ?_, ?_, ?_, ?_⟩
      · intro j hj
        cases j with
        | zero => exact hge
        | succ i =>
          rw [Function.iterate_succ_apply]
          exact h1 i (by omega)
      · rw [Function.iterate_succ_apply]
        exact h2
      · rw [Function.iterate_succ_apply]
        exact h3
      · rw [Function.iterate_succ_apply]
        exact h4
      · rw [Function.iterate_succ_apply]
        have hk : (k : ℚ) * drainStep a / 2 ^ 53 ≤ k * a / 2 ^ 53 :=
          div_le_div_of_nonneg_right
            (mul_le_mul_of_nonneg_left (by linarith) (Nat.cast_nonneg k)) (by positivity)
        have hs : (a - toDouble (1000 / 60)) / 2 ^ 53 ≤ a / 2 ^ 53 :=
          div_le_div_of_nonneg_right (by linarith) (by positivity)
        rw [abs_le] at h5 ⊢
        push_cast
        have hsplit : ((k : ℚ) + 1) * a / 2 ^ 53 = k * a / 2 ^ 53 + a / 2 ^ 53 := by ring
        rw [hsplit]
        constructor <;> linarith [h5.1, h5.2, herr.1, herr.2]

theorem drain_unique (a : ℚ) (k k1 : ℕ)
    (hge : ∀ j < k, toDouble (1000 / 60) ≤ drainStep^[j] a)
    (hlt : drainStep^[k] a < toDouble (1000 / 60))
    (hge1 : ∀ j < k1, toDouble (1000 / 60) ≤ drainStep^[j] a)
    (hlt1 : drainStep^[k1] a < toDouble (1000 / 60)) : k = k1 := by
  rcases Nat.lt_trichotomy k k1 with h | h | h
  · exact absurd (hge1 k h) (not_le.mpr hlt)
  · exact h
  · exact absurd (hge k1 h) (not_le.mpr hlt1)

theorem frame_numeric (acc last t : ℚ) (hacc : IsDouble acc) (hlast : IsDouble last)
    (ht : IsDouble t) (h0 : 0 ≤ acc) (hB : acc ≤ 2 ^ 53) (hl0 : 0 ≤ last) (hmono : last ≤ t)
    (htB : t ≤ 2 ^ 53) :
    ∃ k : ℕ,
      (∀ j < k, toDouble (1000 / 60) ≤ drainStep^[j] (toDouble (acc + toDouble (t - last))))
      ∧ drainStep^[k] (toDouble (acc + toDouble (t - last))) < toDouble (1000 / 60)
      ∧ 0 ≤ drainStep^[k] (toDouble (acc + toDouble (t - last)))
      ∧ IsDouble (drainStep^[k] (toDouble (acc + toDouble (t - last))))
      ∧ |k * toDouble (1000 / 60) + drainStep^[k] (toDouble (acc + toDouble (t - last)))
          - (acc + (t - last))| ≤ (2 * k + 3) * (acc + (t - last)) / 2 ^ 53 := by
  have hd0 : 0 ≤ toDouble (t - last) := toDouble_nonneg _ (sub_nonneg.mpr hmono)
  have hderr := toDouble_err_sub t last ht hlast
  rw [abs_of_nonneg (sub_nonneg.mpr hmono), abs_le] at hderr
  have haerr := toDouble_err_add acc (toDouble (t - last)) hacc (IsDouble_toDouble _)
  rw [abs_of_nonneg (add_nonneg h0 hd0), abs_le] at haerr
  have ha0 : 0 ≤ toDouble (acc + toDouble (t - last)) :=
    toDouble_nonneg _ (add_nonneg h0 hd0)
  set d := toDouble (t - last) with hd
  set a := toDouble (acc + d) with ha
  set x := acc + (t - last) with hx
  have hx0 : 0 ≤ x := by rw [hx]; linarith
  have hxB : x ≤ 2 ^ 54 := by rw [hx]; norm_num at hB htB ⊢; linarith
  have hdiv : (t - last) / 2 ^ 53 ≤ x / 2 ^ 53 :=
    div_le_div_of_nonneg_right (by rw [hx]; linarith) (by positivity)
  have hdiv2 : (acc + d) / 2 ^ 53 ≤ 2 * x / 2 ^ 53 := by
    apply div_le_div_of_nonneg_right _ (by positivity)
    have : (t - last) / 2 ^ 53 ≤ t - last :=
      div_le_self (sub_nonneg.mpr hmono) (by norm_num)
    rw [hx]
    linarith [hderr.2]
  have hax : |a - x| ≤ 3 * x / 2 ^ 53 := by
    rw [abs_le]
    have e3 : 3 * x / 2 ^ 53 = x / 2 ^ 53 + 2 * x / 2 ^ 53 := by ring
    rw [e3]
    constructor
    · linarith [hderr.1, haerr.1]
    · linarith [hderr.2, haerr.2]
  rw [abs_le] at hax
  have hsmall : 3 * x / 2 ^ 53 ≤ x := by
    rw [div_le_iff₀ (by positivity)]
    nlinarith
  have ha2 : a ≤ 2 * x := by linarith [hax.2]
  have haB : a ≤ 2 ^ 55 := by norm_num at hxB ⊢; linarith
  obtain ⟨k, h1, h2, h3, h4, h5⟩ := drain_exists (2 ^ 52 + 1) a (IsDouble_toDouble _) ha0 haB
    (by push_cast; norm_num at haB ⊢; linarith)
  refine ⟨k, h1, h2, h3, h4, ?_⟩
  have hk : (k : ℚ) * a / 2 ^ 53 ≤ 2 * k * x / 2 ^ 53 := by
    apply div_le_div_of_nonneg_right _ (by positivity)
    have : (k : ℚ) * a ≤ k * (2 * x) := mul_le_mul_of_nonneg_left ha2 (Nat.cast_nonneg k)
    linarith
  rw [abs_le] at h5 ⊢
  have e4 : (2 * (k : ℚ) + 3) * x / 2 ^ 53 = 2 * k * x / 2 ^ 53 + 3 * x / 2 ^ 53 := by ring
  rw [e4]
  constructor
  · linarith [h5.1, hax.1]
  · linarith [h5.2, hax.2]

theorem error_small (k : ℕ) (c r x y : ℚ) (h0 : 0 ≤ r) (hc0 : 0 ≤ c) (hc : c ≤ 3 * 2 ^ 24)
    (hy : y ≤ 2 ^ 29) (hx : x ≤ 2 ^ 29)
    (herr : |k * toDouble (1000 / 60) + r - x| ≤ (2 * k + c) * y / 2 ^ 53) :
    (2 * k + c) * y / 2 ^ 53 ≤ 9 ∧ (k : ℚ) ≤ 2 ^ 26 := by
  obtain ⟨hS1, hS2⟩ := tickDuration_bounds
  have hk0 : (0 : ℚ) ≤ k := Nat.cast_nonneg k
  have e24 : (2 : ℚ) ^ 24 = 16777216 := by norm_num
  have e26 : (2 : ℚ) ^ 26 = 67108864 := by norm_num
  have e29 : (2 : ℚ) ^ 29 = 536870912 := by norm_num
  have hE : (2 * k + c) * y / 2 ^ 53 ≤ (2 * k + c) / 16777216 := by
    rw [div_le_div_iff₀ (by positivity) (by positivity)]
    have h2 : (2 * (k : ℚ) + c) * y ≤ (2 * k + c) * 2 ^ 29 :=
      mul_le_mul_of_nonneg_left hy (by positivity)
    have e : (2 * (k : ℚ) + c) * 2 ^ 53 = (2 * k + c) * 2 ^ 29 * 16777216 := by ring
    rw [e]
    exact mul_le_mul_of_nonneg_right h2 (by positivity)
  rw [abs_le] at herr
  rw [e24] at hc
  rw [e29] at hx
  rw [e26]
  have hkS : 16 * (k : ℚ) ≤ k * toDouble (1000 / 60) := by nlinarith
  have hk1 : (k : ℚ) ≤ 33554433 := by linarith [herr.2]
  constructor <;> linarith

theorem ticks_near_floor (k : ℕ) (r x E : ℚ) (h0 : 0 ≤ r) (h1 : r < toDouble (1000 / 60))
    (herr : |k * toDouble (1000 / 60) + r - x| ≤ E) (hE : E ≤ 9) (hk : (k : ℚ) ≤ 2 ^ 26) :
    |(k : ℤ) - ⌊x / (1000 / 60)⌋| ≤ 1 := by
  rw [toDouble_tickDuration] at h1 herr
  rw [abs_le] at herr
  have hk0 : (0 : ℚ) ≤ k := Nat.cast_nonneg k
  have e26 : (2 : ℚ) ^ 26 = 67108864 := by norm_num
  rw [e26] at hk
  have hup : ⌊x / (1000 / 60)⌋ < (k : ℤ) + 2 := by
    rw [Int.floor_lt, div_lt_iff₀ (by norm_num)]
    push_cast
    linarith [herr.1]
  have hlow : (k : ℤ) - 1 ≤ ⌊x / (1000 / 60)⌋ := by
    rw [Int.le_floor, le_div_iff₀ (by norm_num)]
    push_cast
    linarith [herr.2]
  rw [abs_le]
  constructor <;> omega

/-! ## Particular roundings -/

theorem IsDouble_natCast (n : ℕ) (h : n ≤ 2 ^ 53) : IsDouble (n : ℚ) := by
  have h2 := toDouble_of_repr (n : ℤ) 0 (by norm_num)
    (by rw [abs_of_nonneg (by positivity)]; exact_mod_cast h)
  simpa [IsDouble] using h2

theorem toDouble_natCast (n : ℕ) (h : n ≤ 2 ^ 53) : toDouble (n : ℚ) = n :=
  IsDouble_natCast n h

theorem toDouble_big : toDouble (10 ^ 20) = 10 ^ 20 := by
  have h := toDouble_of_repr 6103515625000000 14 (by norm_num) (by norm_num)
  norm_num at h ⊢
  exact h

theorem drainStep_big : drainStep (10 ^ 20) = 10 ^ 20 := by
  rw [drainStep, toDouble_tickDuration,
    toDouble_eval _ (14) 6103515625000000 (by norm_num)
    (by norm_num [abs_of_pos]) (by norm_num [abs_of_pos])
    (roundHalfEven_eq_of_abs_sub_lt _ _ (by norm_num [abs_lt]))]
  norm_num

theorem drainStep_50 : drainStep 50 = 2345624805922133 / 70368744177664 := by
  rw [drainStep, toDouble_tickDuration,
    toDouble_eval _ (-47) 4691249611844266 (by norm_num)
    (by norm_num [abs_of_pos]) (by norm_num [abs_of_pos])
    (by rw [roundHalfEven_tie _ 4691249611844266 (by norm_num)]; norm_num)]
  norm_num

theorem drainStep_50_twice : drainStep (2345624805922133 / 70368744177664) = 4691249611844265 / 281474976710656 := by
  rw [drainStep, toDouble_tickDuration,
    toDouble_eval _ (-48) 4691249611844265 (by norm_num)
    (by norm_num [abs_of_pos]) (by norm_num [abs_of_pos])
    (roundHalfEven_eq_of_abs_sub_lt _ _ (by norm_num [abs_lt]))]
  norm_num

theorem drainStep_40 : drainStep 40 = 6567749456581973 / 281474976710656 := by
  rw [drainStep, toDouble_tickDuration,
    toDouble_eval _ (-48) 6567749456581973 (by norm_num)
    (by norm_num [abs_of_pos]) (by norm_num [abs_of_pos])
    (roundHalfEven_eq_of_abs_sub_lt _ _ (by norm_num [abs_lt]))]
  norm_num

theorem drainStep_40_twice : drainStep (6567749456581973 / 281474976710656) = 938249922368853 / 140737488355328 := by
  rw [drainStep, toDouble_tickDuration,
    toDouble_eval _ (-50) 7505999378950824 (by norm_num)
    (by norm_num [abs_of_pos]) (by norm_num [abs_of_pos])
    (roundHalfEven_eq_of_abs_sub_lt _ _ (by norm_num [abs_lt]))]
  norm_num

theorem toDouble_sum_100 : toDouble (938249922368853 / 140737488355328 + 60) = 2345624805922133 / 35184372088832 := by
  rw [toDouble_eval (938249922368853 / 140737488355328 + 60) (-46) 4691249611844266 (by norm_num)
    (by norm_num [abs_of_pos]) (by norm_num [abs_of_pos])
    (by rw [roundHalfEven_tie _ 4691249611844266 (by norm_num)]; norm_num)]
  norm_num

theorem drainStep_100 : drainStep (2345624805922133 / 35184372088832) = 3518437208883199 / 70368744177664 := by
  rw [drainStep, toDouble_tickDuration,
    toDouble_eval _ (-47) 7036874417766398 (by norm_num)
    (by norm_num [abs_of_pos]) (by norm_num [abs_of_pos])
    (by rw [roundHalfEven_tie _ 7036874417766398 (by norm_num)]; norm_num)]
  norm_num

theorem drainStep_100_twice : drainStep (3518437208883199 / 70368744177664) = 586406201480533 / 17592186044416 := by
  rw [drainStep, toDouble_tickDuration,
    toDouble_eval _ (-47) 4691249611844264 (by norm_num)
    (by norm_num [abs_of_pos]) (by norm_num [abs_of_pos])
    (by rw [roundHalfEven_tie _ 4691249611844264 (by norm_num)]; norm_num)]
  norm_num

theorem drainStep_100_thrice : drainStep (586406201480533 / 17592186044416) = 4691249611844261 / 281474976710656 := by
  rw [drainStep, toDouble_tickDuration,
    toDouble_eval _ (-48) 4691249611844261 (by norm_num)
    (by norm_num [abs_of_pos]) (by norm_num [abs_of_pos])
    (roundHalfEven_eq_of_abs_sub_lt _ _ (by norm_num [abs_lt]))]
  norm_num

/-! ## Lemmas on the page script -/

theorem loopWhile_spec (env : Env) (timestamp : ℚ) (k : Nat) :
    ∀ (p : Page) (fuel : Nat), k < fuel →
      (∀ j < k, toDouble (1000 / 60) ≤ drainStep^[j] p.acculumatedTime) →
      drainStep^[k] p.acculumatedTime < toDouble (1000 / 60) →
      (∀ s1, World.ticks (List.replicate k (env, timestamp)) p.sim = .ok s1 →
        loopWhile env timestamp fuel p
          = some (.ok { p with sim := s1, ticks := p.ticks + k
                               acculumatedTime := drainStep^[k] p.acculumatedTime }))
      ∧ (∀ e s1, World.ticks (List.replicate k (env, timestamp)) p.sim = .thrown e s1 →
        ∃ p1, loopWhile env timestamp fuel p = some (.thrown e p1)
          ∧ p1.renders = p.renders) := by
  induction k with
  | zero =>
    intro p fuel hfuel _ hlt
    obtain ⟨f, rfl⟩ : ∃ f, fuel = f + 1 := ⟨fuel - 1, by omega⟩
    simp only [Function.iterate_zero, id_eq] at hlt
    constructor
    · intro s1 h1
      simp only [List.replicate, World.ticks] at h1
      cases h1
      rw [loopWhile, if_neg (not_le.mpr hlt)]
      rfl
    · intro e s1 h1
      simp only [List.replicate, World.ticks] at h1
      cases h1
  | succ k ih =>
    intro p fuel hfuel hge hlt
    obtain ⟨f, rfl⟩ : ∃ f, fuel = f + 1 := ⟨fuel - 1, by omega⟩
    have h0 : toDouble (1000 / 60) ≤ p.acculumatedTime := hge 0 (by omega)
    rw [loopWhile, if_pos h0]
    simp only [List.replicate, World.ticks]
    cases hu : World.update env timestamp p.sim with
    | ok s2 =>
      simp only [Result.andThen]
      obtain ⟨ih1, ih2⟩ := ih { p with sim := s2, ticks := p.ticks + 1
                                       acculumatedTime := drainStep p.acculumatedTime } f
        (by omega)
        (by
          intro j hj
          have := hge (j + 1) (by omega)
          rwa [Function.iterate_succ_apply] at this)
        (by rwa [Function.iterate_succ_apply] at hlt)
      constructor
      · intro s1 h1
        have h2 := ih1 s1 h1
        rw [show toDouble (p.acculumatedTime - toDouble (1000 / 60))
          = drainStep p.acculumatedTime from rfl, h2]
        congr 2
        simp only [Page.mk.injEq, true_and, and_true]
        refine ⟨?_, by omega⟩
        rw [Function.iterate_succ_apply]
      · intro e s1 h1
        exact ih2 e s1 h1
    | thrown err s2 =>
      simp only [Result.andThen]
      constructor
      · intro s1 h1
        cases h1
      · intro e s1 h1
        cases h1
        exact ⟨_, rfl, rfl⟩

theorem loop_spec (env : Env) (timestamp : ℚ) (p : Page) (k fuel : Nat) (hfuel : k < fuel)
    (hge : ∀ j < k, toDouble (1000 / 60) ≤ drainStep^[j] (p.accumulated timestamp))
    (hlt : drainStep^[k] (p.accumulated timestamp) < toDouble (1000 / 60)) :
    (∀ s1, World.ticks (List.replicate k (env, timestamp)) p.sim = .ok s1 →
      loop env timestamp fuel p
        = some (.ok { p with
            sim := s1, lastRender := timestamp, ticks := p.ticks + k
            acculumatedTime := drainStep^[k] (p.accumulated timestamp)
            renders := p.renders + 1, requests := p.requests + 1 }))
    ∧ (∀ e s1, World.ticks (List.replicate k (env, timestamp)) p.sim = .thrown e s1 →
      ∃ p1, loop env timestamp fuel p = some (.thrown e p1) ∧ p1.renders = p.renders) := by
  obtain ⟨h1, h2⟩ := loopWhile_spec env timestamp k
    { p with lastRender := timestamp, acculumatedTime := p.accumulated timestamp } fuel hfuel
    hge hlt
  constructor
  · intro s1 hs1
    simp only [loop, won, Bool.false_eq_true, if_false]
    rw [show toDouble (p.acculumatedTime + toDouble (timestamp - p.lastRender))
      = p.accumulated timestamp from rfl, h1 s1 hs1]
    rfl
  · intro e s1 hs1
    obtain ⟨p1, hp1, hr⟩ := h2 e s1 hs1
    refine ⟨p1, ?_, hr⟩
    simp only [loop, won, Bool.false_eq_true, if_false]
    rw [show toDouble (p.acculumatedTime + toDouble (timestamp - p.lastRender))
      = p.accumulated timestamp from rfl, hp1]
    rfl

theorem loop_safe (env : Env) (timestamp : ℚ) (p : Page) (k : Nat)
    (hsys : p.sim.world.systems = World.program.systems) (hsafe : p.sim.bounceSafe)
    (hge : ∀ j < k, toDouble (1000 / 60) ≤ drainStep^[j] (p.accumulated timestamp))
    (hlt : drainStep^[k] (p.accumulated timestamp) < toDouble (1000 / 60)) :
    ∃ p1 : Page, (∀ fuel, k < fuel → loop env timestamp fuel p = some (.ok p1))
      ∧ p1.sim.world.systems = World.program.systems ∧ p1.sim.bounceSafe
      ∧ World.ticks (List.replicate k (env, timestamp)) p.sim = .ok p1.sim
      ∧ p1.ticks = p.ticks + k
      ∧ p1.acculumatedTime = drainStep^[k] (p.accumulated timestamp)
      ∧ p1.lastRender = timestamp ∧ p1.renders = p.renders + 1
      ∧ p1.requests = p.requests + 1
      ∧ p1.i = p.i ∧ p1.delay = p.delay ∧ p1.pending = p.pending := by
  obtain ⟨s1, hticks, hsys1, hsafe1⟩ :=
    World_ticks_safe (List.replicate k (env, timestamp)) p.sim hsys hsafe
  exact ⟨_, fun fuel hfuel => (loop_spec env timestamp p k fuel hfuel hge hlt).1 s1 hticks,
    hsys1, hsafe1, hticks, rfl, rfl, rfl, rfl, rfl, rfl, rfl, rfl⟩

theorem loopWhile_none (env : Env) (timestamp : ℚ) (fuel : Nat) :
    ∀ p : Page, p.sim.world.systems = World.program.systems → p.sim.bounceSafe →
      toDouble (1000 / 60) ≤ p.acculumatedTime →
      drainStep p.acculumatedTime = p.acculumatedTime →
      loopWhile env timestamp fuel p = none := by
  induction fuel with
  | zero => intro p _ _ _ _; rfl
  | succ f ih =>
    intro p hsys hsafe hge hfix
    obtain ⟨s1, h1, hsys1, hsafe1⟩ := World_update_safe env timestamp p.sim hsys hsafe
    rw [loopWhile, if_pos hge, h1]
    exact ih _ hsys1 hsafe1
      (by
        show toDouble (1000 / 60) ≤ drainStep p.acculumatedTime
        rw [hfix]
        exact hge)
      (by
        show drainStep (drainStep p.acculumatedTime) = drainStep p.acculumatedTime
        rw [hfix, hfix])

theorem addPokemonLoop_consistent (env : Env) (p : Page) (h : p.Consistent) :
    (addPokemonLoop env p).Consistent := by
  obtain ⟨hsys, hsafe, hd1, hd2, h0, h1, hl, ht⟩ := h
  obtain ⟨_, _, _, _, _, f6, f7, f8, f9, f10, f11⟩ := addPokemonLoop_fields env p
  obtain ⟨pokemon, hstore, hv⟩ := addPokemonLoop_store env p
  refine ⟨f7.trans hsys, ?_, by rw [f9]; exact hd1, by rw [f8]; exact hd2, by rw [f9]; exact h0,
    by rw [f9]; exact h1, by rw [f8]; exact hl, by rw [f9, f10, f8, f11]; exact ht⟩
  intro e he hp hr
  rw [hstore] at hp hr ⊢
  by_cases hea : e = p.allocated
  · subst hea
    rw [Function.update_same, Option.ne_none_iff_isSome]
    exact hv
  · rw [Function.update_noteq hea] at hp hr ⊢
    rw [f6] at he
    rcases List.mem_append.mp he with hmem | hmem
    · exact hsafe e hmem hp hr
    · rw [List.mem_singleton] at hmem
      exact absurd hmem hea

theorem loop_consistent (env : Env) (timestamp : ℚ) (p : Page) (h : p.Consistent)
    (ht : IsDouble timestamp) (hmono : p.lastRender ≤ timestamp) (hB : timestamp ≤ 2 ^ 53) :
    ∃ (k : Nat) (p1 : Page),
      (∀ fuel, k < fuel → loop env timestamp fuel p = some (.ok p1)) ∧ p1.Consistent
      ∧ (∀ j < k, toDouble (1000 / 60) ≤ drainStep^[j] (p.accumulated timestamp))
      ∧ World.ticks (List.replicate k (env, timestamp)) p.sim = .ok p1.sim
      ∧ p1.ticks = p.ticks + k
      ∧ p1.acculumatedTime = drainStep^[k] (p.accumulated timestamp)
      ∧ |k * toDouble (1000 / 60) + p1.acculumatedTime
          - (p.acculumatedTime + (timestamp - p.lastRender))|
        ≤ (2 * k + 3) * (p.acculumatedTime + (timestamp - p.lastRender)) / 2 ^ 53
      ∧ p1.lastRender = timestamp ∧ p1.renders = p.renders + 1
      ∧ p1.requests = p.requests + 1
      ∧ p1.i = p.i ∧ p1.delay = p.delay ∧ p1.pending = p.pending := by
  obtain ⟨hsys, hsafe, hd1, hd2, h0, h1, hl, herr⟩ := h
  obtain ⟨hS1, hS2⟩ := tickDuration_bounds
  obtain ⟨k, hge, hlt, hr0, hrd, hkerr⟩ := frame_numeric p.acculumatedTime p.lastRender
    timestamp hd1 hd2 ht h0 (by norm_num; linarith) hl hmono hB
  obtain ⟨p1, hrun, hsys1, hsafe1, hticks, hT, hacc, hlast, hren, hreq, hi, hdel, hpend⟩ :=
    loop_safe env timestamp p k hsys hsafe hge hlt
  refine ⟨k, p1, hrun, ⟨hsys1, hsafe1, ?_, ?_, ?_, ?_, ?_, ?_⟩, hge, hticks, hT, hacc, ?_,
    hlast, hren, hreq, hi, hdel, hpend⟩
  · rw [hacc]; exact hrd
  · rw [hlast]; exact ht
  · rw [hacc]; exact hr0
  · rw [hacc]; exact hlt
  · rw [hlast]; linarith
  · rw [hT, hren, hlast, hacc]
    unfold Page.accumulated
    have hx : p.acculumatedTime + (timestamp - p.lastRender)
        ≤ timestamp + toDouble (1000 / 60) := by linarith
    have hc0 : (0 : ℚ) ≤ 2 * (p.ticks : ℚ) + 3 * (p.renders : ℚ) := by positivity
    have hk0 : (0 : ℚ) ≤ 2 * (k : ℚ) + 3 := by positivity
    have e0 : (2 * (p.ticks : ℚ) + 3 * p.renders) * (p.lastRender + toDouble (1000 / 60)) / 2 ^ 53
        ≤ (2 * (p.ticks : ℚ) + 3 * p.renders) * (timestamp + toDouble (1000 / 60)) / 2 ^ 53 :=
      div_le_div_of_nonneg_right (mul_le_mul_of_nonneg_left (by linarith) hc0) (by positivity)
    have e1 : (2 * (k : ℚ) + 3) * (p.acculumatedTime + (timestamp - p.lastRender)) / 2 ^ 53
        ≤ (2 * (k : ℚ) + 3) * (timestamp + toDouble (1000 / 60)) / 2 ^ 53 :=
      div_le_div_of_nonneg_right (mul_le_mul_of_nonneg_left hx hk0) (by positivity)
    have e2 : (2 * ((p.ticks + k : ℕ) : ℚ) + 3 * ((p.renders + 1 : ℕ) : ℚ))
          * (timestamp + toDouble (1000 / 60)) / 2 ^ 53
        = (2 * (p.ticks : ℚ) + 3 * p.renders) * (timestamp + toDouble (1000 / 60)) / 2 ^ 53
          + (2 * (k : ℚ) + 3) * (timestamp + toDouble (1000 / 60)) / 2 ^ 53 := by
      push_cast
      ring
    rw [e2]
    rw [abs_le] at herr hkerr ⊢
    push_cast
    constructor
    · linarith [herr.1, hkerr.1]
    · linarith [herr.2, hkerr.2]
  · rw [hacc]
    exact hkerr

theorem run_consistent (events : List Event) :
    ∀ (env : Env) (p : Page) (t0 : ℚ), p.Consistent → p.lastRender = t0 →
      List.Chain (· ≤ ·) t0 (frameTimes events) →
      (∀ t ∈ frameTimes events, IsDouble t ∧ t ≤ 2 ^ 53) →
      ∃ (N : Nat) (env1 : Env) (p1 : Page),
        (∀ fuel, N ≤ fuel → run fuel events env p = some (env1, .ok p1)) ∧ p1.Consistent
        ∧ p1.lastRender = (frameTimes events).getLastD t0
        ∧ p1.renders = p.renders + (frameTimes events).length := by
  induction events with
  | nil =>
    intro env p t0 hc hl _ _
    exact ⟨0, env, p, fun _ _ => rfl, hc, hl, rfl⟩
  | cons event rest ih =>
    intro env p t0 hc hl hchain hdbl
    cases event with
    | frame timestamp =>
      simp only [frameTimes, List.chain_cons] at hchain
      have hd := hdbl timestamp (by simp [frameTimes])
      obtain ⟨k, p1, h1, hc1, _, _, _, _, _, hl1, hr1, _⟩ :=
        loop_consistent env timestamp p hc hd.1 (hl ▸ hchain.1) hd.2
      obtain ⟨N, env2, p2, h2, hc2, hl2, hr2⟩ := ih env p1 timestamp hc1 hl1 hchain.2
        (fun t hmem => hdbl t (by simp [frameTimes, hmem]))
      refine ⟨max N (k + 1), env2, p2, ?_, hc2, ?_, ?_⟩
      · intro fuel hfuel
        simp only [run, Event.handle, h1 fuel (by omega), Option.map_some']
        exact h2 fuel (by omega)
      · rw [hl2]
        simp only [frameTimes]
        cases frameTimes rest <;> rfl
      · rw [hr2, hr1]
        simp only [frameTimes, List.length_cons]
        omega
    | timeout =>
      simp only [frameTimes] at hchain hdbl ⊢
      cases hpend : p.pending with
      | none =>
        obtain ⟨N, env2, p2, h2, hc2, hl2, hr2⟩ := ih env p t0 hc hl hchain hdbl
        exact ⟨N, env2, p2, fun fuel hfuel => by
          simp only [run, Event.handle, hpend]; exact h2 fuel hfuel, hc2, hl2, hr2⟩
      | some d =>
        obtain ⟨_, _, _, _, _, _, _, f8, _, _, f11⟩ := addPokemonLoop_fields env p
        obtain ⟨N, env2, p2, h2, hc2, hl2, hr2⟩ := ih env (addPokemonLoop env p) t0
          (addPokemonLoop_consistent env p hc) (f8.trans hl) hchain hdbl
        exact ⟨N, env2, p2, fun fuel hfuel => by
          simp only [run, Event.handle, hpend]; exact h2 fuel hfuel, hc2, hl2,
          by rw [hr2, f11]⟩
    | click x y =>
      simp only [frameTimes] at hchain hdbl ⊢
      obtain ⟨s1, h1, hw1, hsafe1⟩ := onClick_safe x y p.sim hc.2.1
      obtain ⟨N, env2, p2, h2, hc2, hl2, hr2⟩ := ih env { p with sim := s1 } t0
        ⟨by rw [show ({ p with sim := s1 } : Page).sim = s1 from rfl, hw1]; exact hc.1, hsafe1,
          hc.2.2⟩ hl hchain hdbl
      exact ⟨N, env2, p2, fun fuel hfuel => by
        simp only [run, Event.handle, h1]; exact h2 fuel hfuel, hc2, hl2, hr2⟩
    | resize w h =>
      simp only [frameTimes] at hchain hdbl ⊢
      obtain ⟨N, env2, p2, h2, hc2, hl2, hr2⟩ := ih (env.resized w h) p t0 hc hl hchain hdbl
      exact ⟨N, env2, p2, fun fuel hfuel => by
        simp only [run, Event.handle]; exact h2 fuel hfuel, hc2, hl2, hr2⟩

theorem Page.initial_consistent : Page.initial.Consistent := by
  obtain ⟨hS1, hS2⟩ := tickDuration_bounds
  refine ⟨rfl, ?_, IsDouble_zero, IsDouble_zero, le_refl _, ?_, le_refl _, ?_⟩
  · intro e he
    cases he
  · show (0 : ℚ) < toDouble (1000 / 60)
    linarith
  · simp [Page.initial]

theorem Page.accumulated_zero (p : Page) (hacc : p.acculumatedTime = 0)
    (hlast : p.lastRender = 0) : p.accumulated 0 = 0 := by
  simp [Page.accumulated, hacc, hlast, toDouble_zero]

theorem script_start (env : Env) :
    ∃ p0 : Page,
      (∀ fuel, 1 ≤ fuel →
        loop (env.resized env.innerWidth env.innerHeight) 0 fuel
          (addPokemonLoop (env.resized env.innerWidth env.innerHeight) Page.initial)
          = some (.ok p0))
      ∧ p0.Consistent ∧ p0.acculumatedTime = 0 ∧ p0.lastRender = 0 ∧ p0.ticks = 0
      ∧ p0.renders = 1 := by
  have hc0 := addPokemonLoop_consistent (env.resized env.innerWidth env.innerHeight)
    Page.initial Page.initial_consistent
  obtain ⟨_, _, _, _, _, _, _, f8, f9, f10, f11⟩ :=
    addPokemonLoop_fields (env.resized env.innerWidth env.innerHeight) Page.initial
  have hl0 : (addPokemonLoop (env.resized env.innerWidth env.innerHeight)
      Page.initial).lastRender = 0 := f8
  have ha0 : (addPokemonLoop (env.resized env.innerWidth env.innerHeight)
      Page.initial).acculumatedTime = 0 := f9
  have ht0 : (addPokemonLoop (env.resized env.innerWidth env.innerHeight)
      Page.initial).ticks = 0 := f10
  have hr0 : (addPokemonLoop (env.resized env.innerWidth env.innerHeight)
      Page.initial).renders = 0 := f11
  generalize addPokemonLoop (env.resized env.innerWidth env.innerHeight) Page.initial = q
    at hc0 hl0 ha0 ht0 hr0 ⊢
  generalize env.resized env.innerWidth env.innerHeight = env0
  obtain ⟨hS1, hS2⟩ := tickDuration_bounds
  have hz := Page.accumulated_zero q ha0 hl0
  obtain ⟨p1, hrun, hsys1, hsafe1, _, hT, hacc, hlast, hren, _⟩ :=
    loop_safe env0 0 q 0 hc0.1 hc0.2.1 (by intro j hj; omega)
      (by rw [Function.iterate_zero, id_eq, hz]; linarith)
  rw [Function.iterate_zero, id_eq, hz] at hacc
  refine ⟨p1, fun fuel hfuel => hrun fuel (by omega),
    ⟨hsys1, hsafe1, by rw [hacc]; exact IsDouble_zero, by rw [hlast]; exact IsDouble_zero,
      by rw [hacc], by rw [hacc]; linarith, by rw [hlast], ?_⟩,
    hacc, hlast, by rw [hT, ht0], by rw [hren, hr0]⟩
  rw [hT, ht0, hacc, hlast, hren, hr0]
  norm_num
  linarith

theorem script_eq_run (env : Env) (events : List Event) :
    ∃ p0 : Page,
      (∀ fuel, 1 ≤ fuel → script fuel env events
        = run fuel events (env.resized env.innerWidth env.innerHeight) p0)
      ∧ p0.Consistent ∧ p0.acculumatedTime = 0 ∧ p0.lastRender = 0 ∧ p0.ticks = 0
      ∧ p0.renders = 1 := by
  obtain ⟨p0, h0, hrest⟩ := script_start env
  refine ⟨p0, fun fuel hfuel => ?_, hrest⟩
  unfold script
  rw [h0 fuel hfuel]

theorem script_consistent (env : Env) (events : List Event)
    (hchain : List.Chain (· ≤ ·) 0 (frameTimes events))
    (hdbl : ∀ t ∈ frameTimes events, IsDouble t ∧ t ≤ 2 ^ 53) :
    ∃ (N : Nat) (env1 : Env) (p1 : Page),
      (∀ fuel, N ≤ fuel → script fuel env events = some (env1, .ok p1)) ∧ p1.Consistent
      ∧ p1.lastRender = (frameTimes events).getLastD 0
      ∧ p1.renders = 1 + (frameTimes events).length := by
  obtain ⟨p0, h0, hc0, _, hl0, _, hr0⟩ := script_eq_run env events
  obtain ⟨N, env2, p2, h2, hc2, hl2, hr2⟩ :=
    run_consistent events (env.resized env.innerWidth env.innerHeight) p0 0 hc0 hl0 hchain hdbl
  refine ⟨max N 1, env2, p2, fun fuel hfuel => ?_, hc2, hl2, by rw [hr2, hr0]⟩
  rw [h0 fuel (by omega)]
  exact h2 fuel (by omega)

theorem run_frame (env : Env) (timestamp : ℚ) (rest : List Event) (p : Page) (k : Nat)
    (hsys : p.sim.world.systems = World.program.systems) (hsafe : p.sim.bounceSafe)
    (hge : ∀ j < k, toDouble (1000 / 60) ≤ drainStep^[j] (p.accumulated timestamp))
    (hlt : drainStep^[k] (p.accumulated timestamp) < toDouble (1000 / 60)) :
    ∃ p1 : Page,
      (∀ fuel, k < fuel → run fuel (.frame timestamp :: rest) env p = run fuel rest env p1)
      ∧ p1.sim.world.systems = World.program.systems ∧ p1.sim.bounceSafe
      ∧ p1.ticks = p.ticks + k
      ∧ p1.acculumatedTime = drainStep^[k] (p.accumulated timestamp)
      ∧ p1.lastRender = timestamp ∧ p1.renders = p.renders + 1 := by
  obtain ⟨p1, hrun, hsys1, hsafe1, _, hT, hacc, hlast, hren, _⟩ :=
    loop_safe env timestamp p k hsys hsafe hge hlt
  refine ⟨p1, fun fuel hfuel => ?_, hsys1, hsafe1, hT, hacc, hlast, hren⟩
  simp only [run, Event.handle, hrun fuel hfuel, Option.map_some']

theorem consistent_near_floor (p : Page) (hc : p.Consistent) (hl : p.lastRender ≤ 2 ^ 28)
    (hr : p.renders ≤ 2 ^ 24) :
    |(p.ticks : ℤ) - ⌊p.lastRender / (1000 / 60)⌋| ≤ 1 := by
  obtain ⟨_, _, _, _, h0, h1, hl0, herr⟩ := hc
  obtain ⟨hS1, hS2⟩ := tickDuration_bounds
  have e28 : (2 : ℚ) ^ 28 = 268435456 := by norm_num
  have e29 : (2 : ℚ) ^ 29 = 536870912 := by norm_num
  have hrq : (p.renders : ℚ) ≤ 2 ^ 24 := by exact_mod_cast hr
  obtain ⟨hE, hk⟩ := error_small p.ticks (3 * p.renders) p.acculumatedTime p.lastRender
    (p.lastRender + toDouble (1000 / 60)) h0 (by positivity) (by linarith)
    (by rw [e28] at hl; rw [e29]; linarith) (by rw [e28] at hl; rw [e29]; linarith) herr
  exact ticks_near_floor p.ticks p.acculumatedTime _ _ h0 h1 herr hE hk

/-! ## Claims -/

/-- C1 fails as stated: in the collection `[0, 0]`, where the same entity is
listed twice, one `VelocitySystem.update` pass moves the entity at `(0, 0)` with
velocity `(1, 1)` to `(2, 2)`, not to `(0 + 1, 0 + 1)`. -/
theorem VelocitySystem_update_twice_listed :
    ((State.uniform [0, 0] [.PositionComponent 0 0, .VelocityComponent 1 1]).store 0).getComponent
        .PositionComponent = some (.PositionComponent 0 0)
    ∧ ((State.uniform [0, 0] [.PositionComponent 0 0, .VelocityComponent 1 1]).store 0).getComponent
        .VelocityComponent = some (.VelocityComponent 1 1)
    ∧ ((VelocitySystem.update [0, 0]
        (State.uniform [0, 0] [.PositionComponent 0 0, .VelocityComponent 1 1])).state.store
          0).getComponent .PositionComponent = some (.PositionComponent 2 2)
    ∧ ((VelocitySystem.update [0, 0]
        (State.uniform [0, 0] [.PositionComponent 0 0, .VelocityComponent 1 1])).state.store
          0).getComponent .PositionComponent ≠ some (.PositionComponent (0 + 1) (0 + 1)) := by
  refine ⟨rfl, rfl, ?_, ?_⟩ <;>
  · rw [VelocitySystem_update_eq]
    simp [Result.state, State.uniform, VelocitySystem.visit, Entity.getComponent,
      Component.instanceof, Component.constructor, Entity.assign, assignFirst] <;> norm_num

/-- C1 (amended): for every entity collection in which no entity is listed
twice, one `VelocitySystem.update` pass returns normally and, for every entity of
the collection with a Position `(px, py)` and a Velocity `(vx, vy)`, assigns the
position `(px + vx, py + vy)` (exact arithmetic) to that Position component and
changes nothing else of the entity, so its velocity is as before; every entity
lacking Position or Velocity, and every entity outside the collection, is
unchanged, as are the world and the random-call count. -/
theorem VelocitySystem_update_spec (entities : List EntityRef) (s : State)
    (hnodup : entities.Nodup) :
    ∃ s1, VelocitySystem.update entities s = .ok s1
      ∧ s1.world = s.world ∧ s1.randomCalls = s.randomCalls
      ∧ (∀ e ∈ entities, ∀ px py vx vy,
          (s.store e).getComponent .PositionComponent = some (.PositionComponent px py) →
          (s.store e).getComponent .VelocityComponent = some (.VelocityComponent vx vy) →
          s1.store e
              = (s.store e).assign .PositionComponent (.PositionComponent (px + vx) (py + vy))
            ∧ (s1.store e).getComponent .PositionComponent
              = some (.PositionComponent (px + vx) (py + vy))
            ∧ (s1.store e).getComponent .VelocityComponent
              = some (.VelocityComponent vx vy))
      ∧ (∀ e, ((s.store e).getComponent .PositionComponent = none
            ∨ (s.store e).getComponent .VelocityComponent = none) → s1.store e = s.store e)
      ∧ (∀ e, e ∉ entities → s1.store e = s.store e) := by
  refine ⟨_, VelocitySystem_update_eq entities s, rfl, rfl, ?_, ?_, ?_⟩
  · intro e he px py vx vy hp hv
    have hcount : entities.count e = 1 := List.count_eq_one_of_mem hnodup he
    have hstore : VelocitySystem.visit^[entities.count e] (s.store e)
        = (s.store e).assign .PositionComponent (.PositionComponent (px + vx) (py + vy)) := by
      rw [hcount]
      simp [VelocitySystem.visit, hp, hv]
    refine ⟨hstore, ?_, ?_⟩
    · show (VelocitySystem.visit^[entities.count e] (s.store e)).getComponent _ = _
      rw [hstore, Entity.getComponent_assign_same (s.store e) .PositionComponent
        (.PositionComponent (px + vx) (py + vy)) rfl, hp]; rfl
    · show (VelocitySystem.visit^[entities.count e] (s.store e)).getComponent _ = _
      rw [hstore, Entity.getComponent_assign_other (s.store e) .PositionComponent
        .VelocityComponent (.PositionComponent (px + vx) (py + vy)) rfl (by decide), hv]
  · intro e h
    exact Function.iterate_fixed (VelocitySystem_visit_of_lacking _ h) _
  · intro e he
    show VelocitySystem.visit^[entities.count e] (s.store e) = s.store e
    rw [List.count_eq_zero_of_not_mem he]; rfl

/-- Witness of `VelocitySystem_update_spec`: the collection `[0, 1]` of two
entities at `(0, 0)` with velocity `(1, 1)`. -/
theorem VelocitySystem_update_spec_witness :
    [0, 1].Nodup
    ∧ ∃ s1, VelocitySystem.update [0, 1]
          (State.uniform [0, 1] [.PositionComponent 0 0, .VelocityComponent 1 1]) = .ok s1
        ∧ (s1.store 1).getComponent .PositionComponent
          = some (.PositionComponent (0 + 1) (0 + 1)) := by
  refine ⟨by decide, ?_⟩
  obtain ⟨s1, h1, _, _, h4, _⟩ := VelocitySystem_update_spec [0, 1]
    (State.uniform [0, 1] [.PositionComponent 0 0, .VelocityComponent 1 1]) (by decide)
  exact ⟨s1, h1, (h4 1 (by decide) 0 0 1 1 rfl rfl).2.1⟩

/-- C2 fails as stated: in the collection `[0, 0]`, where the same entity is
listed twice, one `BounceSystem.update` pass on a 100 by 100 stage leaves the
velocity `(1, 1)` of the entity at `(-1, 0)` with bounds 64 by 64 as it was,
although `position.x < 0`. -/
theorem BounceSystem_update_twice_listed :
    ((State.uniform [0, 0] [.PositionComponent (-1) 0, .RectangleComponent 64 64,
        .VelocityComponent 1 1]).store 0).getComponent .PositionComponent
      = some (.PositionComponent (-1) 0)
    ∧ ((State.uniform [0, 0] [.PositionComponent (-1) 0, .RectangleComponent 64 64,
        .VelocityComponent 1 1]).store 0).getComponent .VelocityComponent
      = some (.VelocityComponent 1 1)
    ∧ (BounceSystem.update (Env.stage 100 100) [0, 0]
        (State.uniform [0, 0] [.PositionComponent (-1) 0, .RectangleComponent 64 64,
          .VelocityComponent 1 1])).isOk = true
    ∧ ((BounceSystem.update (Env.stage 100 100) [0, 0]
        (State.uniform [0, 0] [.PositionComponent (-1) 0, .RectangleComponent 64 64,
          .VelocityComponent 1 1])).state.store 0).getComponent .VelocityComponent
      = some (.VelocityComponent 1 1)
    ∧ ((BounceSystem.update (Env.stage 100 100) [0, 0]
        (State.uniform [0, 0] [.PositionComponent (-1) 0, .RectangleComponent 64 64,
          .VelocityComponent 1 1])).state.store 0).getComponent .VelocityComponent
      ≠ some (.VelocityComponent (-1) 1) := by
  refine ⟨rfl, rfl, ?_, ?_, ?_⟩ <;>
  · simp [BounceSystem.update, forOf, BounceSystem.body, Result.andThen, Result.state,
      Result.isOk, State.uniform, Env.stage, State.assign, Entity.getComponent,
      Component.instanceof, Component.constructor, Entity.assign, assignFirst] <;> norm_num

/-- C2 (amended): for every stage size and every collection, a
`BounceSystem.update` pass returns normally when every listed entity with
Position and Bounds has Velocity; when it returns normally and no entity is
listed twice, every listed entity with Position `(px, py)`, Bounds `(w, h)` and
Velocity `(vx, vy)` ends with velocity.x = `-vx` if `px < 0` or
`px + w > canvas.width` and `vx` otherwise, and independently velocity.y = `-vy`
if `py < 0` or `py + h > canvas.height` and `vy` otherwise.  Whatever the
collection and the outcome, `|velocity.x|` and `|velocity.y|` are as before, and
every component other than Velocity (position and bounds among them), the world
and the random-call count are unchanged. -/
theorem BounceSystem_update_spec (env : Env) (entities : List EntityRef) (s : State) :
    (BounceSystem.update env entities s).state.world = s.world
    ∧ (BounceSystem.update env entities s).state.randomCalls = s.randomCalls
    ∧ (∀ e type, type ≠ .VelocityComponent →
        ((BounceSystem.update env entities s).state.store e).getComponent type
          = (s.store e).getComponent type)
    ∧ (∀ e vx vy, (s.store e).getComponent .VelocityComponent = some (.VelocityComponent vx vy) →
        ∃ wx wy, ((BounceSystem.update env entities s).state.store e).getComponent
            .VelocityComponent = some (.VelocityComponent wx wy) ∧ |wx| = |vx| ∧ |wy| = |vy|)
    ∧ ((∀ e ∈ entities, (s.store e).getComponent .PositionComponent ≠ none →
          (s.store e).getComponent .RectangleComponent ≠ none →
          (s.store e).getComponent .VelocityComponent ≠ none) →
        (BounceSystem.update env entities s).isOk = true)
    ∧ ((BounceSystem.update env entities s).isOk = true → entities.Nodup →
        ∀ e ∈ entities, ∀ px py w h vx vy,
          (s.store e).getComponent .PositionComponent = some (.PositionComponent px py) →
          (s.store e).getComponent .RectangleComponent = some (.RectangleComponent w h) →
          (s.store e).getComponent .VelocityComponent = some (.VelocityComponent vx vy) →
          ((BounceSystem.update env entities s).state.store e).getComponent .VelocityComponent
            = some (.VelocityComponent
                (if px < 0 ∨ px + w > env.canvasWidth then -vx else vx)
                (if py < 0 ∨ py + h > env.canvasHeight then -vy else vy))) := by
  obtain ⟨k, _, hstate, hok⟩ := BounceSystem_update_state env entities s
  rw [hstate]
  refine ⟨rfl, rfl, ?_, ?_, ?_, ?_⟩
  · intro e type ht
    exact (BounceSystem_iterate_visit env (k e) (s.store e)).1 type ht
  · intro e vx vy hv
    exact (BounceSystem_iterate_visit env (k e) (s.store e)).2.1 vx vy hv
  · intro hall
    exact forOf_guarded_ok (BounceSystem.visit env) (BounceSystem.throws env) .typeError
      (BounceSystem.body env) (BounceSystem_body_eq env) (BounceSystem_throws_visit env)
      entities s (fun e he => BounceSystem_throws_of_velocity env _ (hall e he))
  · intro hisOk hnodup e he px py w h vx vy hp hr hv
    have hcount : k e = 1 := by rw [hok hisOk e]; exact List.count_eq_one_of_mem hnodup he
    show ((BounceSystem.visit env)^[k e] (s.store e)).getComponent _ = _
    rw [hcount, Function.iterate_one, BounceSystem_visit_of_all env _ px py w h vx vy hp hr hv,
      Entity.getComponent_assign_same (s.store e) .VelocityComponent (.VelocityComponent _ _)
        rfl, hv]
    rfl

/-- Witness of `BounceSystem_update_spec`: on a 100 by 100 stage, the
collection `[0, 1]` of two entities at `(-1, 50)` with bounds 64 by 64 and
velocity `(1, 1)`; the pass returns normally and negates both components. -/
theorem BounceSystem_update_spec_witness :
    (BounceSystem.update (Env.stage 100 100) [0, 1]
        (State.uniform [0, 1] [.PositionComponent (-1) 50, .RectangleComponent 64 64,
          .VelocityComponent 1 1])).isOk = true
    ∧ [0, 1].Nodup
    ∧ ((BounceSystem.update (Env.stage 100 100) [0, 1]
        (State.uniform [0, 1] [.PositionComponent (-1) 50, .RectangleComponent 64 64,
          .VelocityComponent 1 1])).state.store 1).getComponent .VelocityComponent
      = some (.VelocityComponent (-1) (-1)) := by
  have hspec := BounceSystem_update_spec (Env.stage 100 100) [0, 1]
    (State.uniform [0, 1] [.PositionComponent (-1) 50, .RectangleComponent 64 64,
      .VelocityComponent 1 1])
  have hisOk := hspec.2.2.2.2.1 (fun e _ _ _ => by simp [State.uniform, Entity.getComponent,
    Component.instanceof, Component.constructor])
  refine ⟨hisOk, by decide, ?_⟩
  have h := hspec.2.2.2.2.2 hisOk (by decide) 1 (by decide) (-1) 50 64 64 1 1 rfl rfl rfl
  rw [h]
  norm_num [Env.stage]

/-- C3: for every entity collection, one `SelectedSystem.update` pass returns
normally and leaves every listed entity that has Selectable and Deletable with
`selected = true` with `selected = false` and `deleted = true`; every entity with
`selected = false`, or lacking Selectable or Deletable, or not listed, is
unchanged; components of other classes, the world and the random-call count are
unchanged; no entity has `selected = true` afterwards unless it had before; and
a second pass over the same collection changes nothing. -/
theorem SelectedSystem_update_spec (entities : List EntityRef) (s : State) :
    ∃ s1, SelectedSystem.update entities s = .ok s1
      ∧ s1.world = s.world ∧ s1.randomCalls = s.randomCalls
      ∧ (∀ e ∈ entities, ∀ d,
          (s.store e).getComponent .SelectableComponent = some (.SelectableComponent true) →
          (s.store e).getComponent .DeleteableComponent = some (.DeleteableComponent d) →
          (s1.store e).getComponent .SelectableComponent = some (.SelectableComponent false)
            ∧ (s1.store e).getComponent .DeleteableComponent
              = some (.DeleteableComponent true))
      ∧ (∀ e, ((s.store e).getComponent .SelectableComponent = some (.SelectableComponent false)
            ∨ (s.store e).getComponent .SelectableComponent = none
            ∨ (s.store e).getComponent .DeleteableComponent = none
            ∨ e ∉ entities) → s1.store e = s.store e)
      ∧ (∀ e type, type ≠ .SelectableComponent → type ≠ .DeleteableComponent →
          (s1.store e).getComponent type = (s.store e).getComponent type)
      ∧ (∀ e, (s1.store e).getComponent .SelectableComponent
            = some (.SelectableComponent true) →
          (s.store e).getComponent .SelectableComponent = some (.SelectableComponent true))
      ∧ SelectedSystem.update entities s1 = .ok s1 := by
  have hiter : ∀ e, SelectedSystem.visit^[entities.count e] (s.store e) = s.store e
      ∨ SelectedSystem.visit^[entities.count e] (s.store e)
          = SelectedSystem.visit (s.store e) := by
    intro e
    cases entities.count e with
    | zero => exact Or.inl rfl
    | succ n => exact Or.inr (SelectedSystem_iterate_visit n _)
  refine ⟨_, SelectedSystem_update_eq entities s, rfl, rfl, ?_, ?_, ?_, ?_, ?_⟩
  · intro e he d hs hd
    show (SelectedSystem.visit^[entities.count e] (s.store e)).getComponent _ = _
      ∧ (SelectedSystem.visit^[entities.count e] (s.store e)).getComponent _ = _
    obtain ⟨n, hn⟩ : ∃ n, entities.count e = n + 1 :=
      Nat.exists_eq_succ_of_ne_zero (Nat.pos_iff_ne_zero.mp (List.count_pos_iff.mpr he))
    rw [hn, SelectedSystem_iterate_visit]
    exact (SelectedSystem_visit_selected _ d hs hd).2
  · intro e h
    show SelectedSystem.visit^[entities.count e] (s.store e) = s.store e
    rcases h with h | h | h | h
    · exact Function.iterate_fixed
        (SelectedSystem_visit_of_not_selected _ (Or.inl (by rw [h]; simp))) _
    · exact Function.iterate_fixed
        (SelectedSystem_visit_of_not_selected _ (Or.inl (by rw [h]; simp))) _
    · exact Function.iterate_fixed (SelectedSystem_visit_of_not_selected _ (Or.inr h)) _
    · rw [List.count_eq_zero_of_not_mem h]; rfl
  · intro e type h1 h2
    show (SelectedSystem.visit^[entities.count e] (s.store e)).getComponent _ = _
    rcases hiter e with h | h
    · rw [h]
    · rw [h, SelectedSystem_visit_other _ type h1 h2]
  · intro e h
    change (SelectedSystem.visit^[entities.count e] (s.store e)).getComponent _ = _ at h
    rcases hiter e with h3 | h3
    · rwa [h3] at h
    · rw [h3] at h
      rcases SelectedSystem_visit_cases (s.store e) with hx | ⟨hs, d, hd⟩
      · rwa [hx] at h
      · exact hs
  · rw [SelectedSystem_update_eq]
    congr 1
    simp only
    congr 1
    funext e
    cases entities.count e with
    | zero => rfl
    | succ n => rw [SelectedSystem_iterate_visit, SelectedSystem_iterate_visit,
        SelectedSystem_visit_visit]

/-- Witness of `SelectedSystem_update_spec`: the collection `[0, 0, 1]` (entity
`0` listed twice) of selected, deletable entities. -/
theorem SelectedSystem_update_spec_witness :
    ∃ s1, SelectedSystem.update [0, 0, 1]
          (State.uniform [0, 0, 1] [.SelectableComponent true, .DeleteableComponent false])
        = .ok s1
      ∧ (s1.store 0).getComponent .SelectableComponent = some (.SelectableComponent false)
      ∧ (s1.store 0).getComponent .DeleteableComponent = some (.DeleteableComponent true) := by
  obtain ⟨s1, h1, _, _, h4, _⟩ := SelectedSystem_update_spec [0, 0, 1]
    (State.uniform [0, 0, 1] [.SelectableComponent true, .DeleteableComponent false])
  exact ⟨s1, h1, h4 0 (by decide) false rfl rfl⟩

/-- C4: when `DeleteSystem.update` is called with the World's current entity
collection, it returns normally and the World's collection afterwards is the
prior collection filtered to the entities that do not have a Deletable
component with `deleted = true`: exactly those are removed, the others keep
their relative order (the result is a sub-list), and the entity objects, the
system list and the random-call count are unchanged. -/
theorem DeleteSystem_update_spec (s : State) :
    ∃ s1, DeleteSystem.update s.world.entities s = .ok s1
      ∧ s1.world.entities = s.world.entities.filter (fun e => !s.deleted e)
      ∧ (∀ e, e ∈ s1.world.entities ↔
          e ∈ s.world.entities
            ∧ (s.store e).getComponent .DeleteableComponent
              ≠ some (.DeleteableComponent true))
      ∧ s1.world.entities.Sublist s.world.entities
      ∧ s1.store = s.store ∧ s1.world.systems = s.world.systems
      ∧ s1.randomCalls = s.randomCalls := by
  have hfilter : s.world.entities.filter
        (fun x => !(decide (x ∈ s.world.entities) && s.deleted x))
      = s.world.entities.filter (fun e => !s.deleted e) := by
    apply List.filter_congr
    intro x hx
    simp [hx]
  refine ⟨_, DeleteSystem_update_eq s.world.entities s, hfilter, ?_, ?_, rfl, rfl, rfl⟩
  · intro e
    show e ∈ s.world.entities.filter _ ↔ _
    rw [hfilter, List.mem_filter, Ne, ← State.deleted_iff]
    simp
  · show (s.world.entities.filter _).Sublist _
    exact List.filter_sublist _

/-- C5: registering systems `regs` with `addSystem` appends them to the system
list in that order; `World.update` equals the tick of the specification
(`World.tickSpec`: run the systems of the list first to last, each on the
World's collection as it is when that system is called); so when the systems
before `system` have run to the state `s1`, `system.update` is called with
`s1.world.entities`; every entity absent from the World's collection at some
point of the tick is absent from the collection each later system is passed;
and a system registered right after `DeleteSystem` is passed the collection
from which `DeleteSystem` has removed every entity with `deleted = true`. -/
theorem World_update_spec (env : Env) (timestamp : ℚ) (s : State) :
    (∀ (regs : List System) (w : World),
        (regs.foldl World.addSystem w).systems = w.systems ++ regs)
    ∧ World.update env timestamp s = World.tickSpec env s.world.systems s
    ∧ (∀ pre system post s1, s.world.systems = pre ++ system :: post →
        World.runSystems env pre s = .ok s1 →
        World.update env timestamp s
          = (system.update env s1.world.entities s1).andThen (World.runSystems env post))
    ∧ (∀ pre mid system post s1 s2 e, s.world.systems = pre ++ (mid ++ system :: post) →
        World.runSystems env pre s = .ok s1 → e ∉ s1.world.entities →
        World.runSystems env mid s1 = .ok s2 →
        World.update env timestamp s
            = (system.update env s2.world.entities s2).andThen (World.runSystems env post)
          ∧ e ∉ s2.world.entities)
    ∧ (∀ pre system post s1, s.world.systems = pre ++ System.DeleteSystem :: system :: post →
        World.runSystems env pre s = .ok s1 →
        ∃ s2, DeleteSystem.update s1.world.entities s1 = .ok s2
          ∧ World.update env timestamp s
            = (system.update env s2.world.entities s2).andThen (World.runSystems env post)
          ∧ s2.world.entities = s1.world.entities.filter (fun e => !s1.deleted e)
          ∧ ∀ e, s1.deleted e = true → e ∉ s2.world.entities) := by
  have hstep : ∀ pre system post s1, s.world.systems = pre ++ system :: post →
      World.runSystems env pre s = .ok s1 →
      World.update env timestamp s
        = (system.update env s1.world.entities s1).andThen (World.runSystems env post) := by
    intro pre system post s1 hsys hpre
    rw [World.update, hsys, World_runSystems_append, hpre]
    rfl
  refine ⟨fun regs w => (World_addSystem_foldl regs w).1, ?_, hstep, ?_, ?_⟩
  · rw [World.tickSpec, World_tickSpec_fold]
    rfl
  · intro pre mid system post s1 s2 e hsys hpre he hmid
    constructor
    · apply hstep (pre ++ mid) system post s2 (by rw [hsys, List.append_assoc])
      rw [World_runSystems_append, hpre]
      exact hmid
    · have hsub := (World_runSystems_frame env mid s1).2.1
      rw [hmid] at hsub
      exact fun h => he (hsub.subset h)
  · intro pre system post s1 hsys hpre
    have hfilter : s1.world.entities.filter
          (fun x => !(decide (x ∈ s1.world.entities) && s1.deleted x))
        = s1.world.entities.filter (fun e => !s1.deleted e) := by
      apply List.filter_congr
      intro x hx
      simp [hx]
    refine ⟨_, DeleteSystem_update_eq s1.world.entities s1, ?_, hfilter, ?_⟩
    · apply hstep (pre ++ [System.DeleteSystem]) system post _ (by rw [hsys]; simp)
      rw [World_runSystems_append, hpre]
      simp only [Result.andThen, World.runSystems, System.update, DeleteSystem_update_eq]
    · intro e he
      show e ∉ s1.world.entities.filter _
      simp [List.mem_filter, he]

/-- Witness of `World_update_spec`: in the program's world with one entity
flagged `deleted = true`, the systems before `DeleteSystem` leave the state as
it is, and `RepositionSystem`, registered right after `DeleteSystem`, is passed
the empty collection. -/
theorem World_update_spec_witness :
    ∃ s2, DeleteSystem.update (State.ofObjects [[.DeleteableComponent true]]).world.entities
          (State.ofObjects [[.DeleteableComponent true]]) = .ok s2
      ∧ World.update (Env.stage 100 100) 0 (State.ofObjects [[.DeleteableComponent true]])
        = (System.RepositionSystem.update (Env.stage 100 100) s2.world.entities s2).andThen
            (World.runSystems (Env.stage 100 100) [])
      ∧ s2.world.entities = [] := by
  obtain ⟨s2, h1, h2, h3, _⟩ := (World_update_spec (Env.stage 100 100) 0
    (State.ofObjects [[.DeleteableComponent true]])).2.2.2.2
      [.VelocitySystem, .BounceSystem, .SelectedSystem] .RepositionSystem []
      (State.ofObjects [[.DeleteableComponent true]]) rfl
      (by simp [World.runSystems, System.update, VelocitySystem.update, BounceSystem.update,
            SelectedSystem.update, forOf, VelocitySystem.body, BounceSystem.body,
            SelectedSystem.body, Result.andThen, State.ofObjects, Entity.getComponent,
            Component.instanceof, Component.constructor])
  refine ⟨s2, h1, h2, ?_⟩
  rw [h3]
  simp [State.ofObjects, State.deleted, Entity.getComponent, Component.instanceof,
    Component.constructor]

/-- C6: with the systems registered in the program's order (Velocity, Bounce,
Selected, Delete, Reposition) and every entity of the collection holding
Velocity whenever it holds Position and Bounds, the tick returns normally and
every entity that is in the World's collection with `selected = true` and a
Deletable component at the start of the tick is absent from the World's
collection at the end of that same tick. -/
theorem World_update_selected_removed (env : Env) (timestamp : ℚ) (s : State)
    (hsys : s.world.systems = World.program.systems)
    (hV : ∀ e ∈ s.world.entities, (s.store e).getComponent .PositionComponent ≠ none →
      (s.store e).getComponent .RectangleComponent ≠ none →
      (s.store e).getComponent .VelocityComponent ≠ none) :
    ∃ s1, World.update env timestamp s = .ok s1
      ∧ ∀ e ∈ s.world.entities,
          (s.store e).getComponent .SelectableComponent = some (.SelectableComponent true) →
          (s.store e).getComponent .DeleteableComponent ≠ none → e ∉ s1.world.entities := by
  obtain ⟨s3, h3, _, hdel⟩ := World_runSystems_before_delete env s hV
  obtain ⟨s5, h5, hent⟩ := World_runSystems_delete_reposition env s3
  refine ⟨s5, ?_, ?_⟩
  · rw [World_update_program env timestamp s hsys, h3]
    exact h5
  · intro e he hs hd
    rw [hent]
    simp [List.mem_filter, hdel e he hs hd]

/-- Witness of `World_update_selected_removed`: the program's world on a 100
by 100 stage with one selected entity holding Position, Bounds, Velocity,
Selectable and Deletable; it is gone after the tick. -/
theorem World_update_selected_removed_witness :
    ∃ s1, World.update (Env.stage 100 100) 0
          (State.ofObjects [[.PositionComponent 0 0, .RectangleComponent 64 64,
            .VelocityComponent 1 1, .SelectableComponent true, .DeleteableComponent false]])
        = .ok s1
      ∧ 0 ∉ s1.world.entities := by
  obtain ⟨s1, h1, h2⟩ := World_update_selected_removed (Env.stage 100 100) 0
    (State.ofObjects [[.PositionComponent 0 0, .RectangleComponent 64 64,
      .VelocityComponent 1 1, .SelectableComponent true, .DeleteableComponent false]]) rfl
    (fun e _ hp _ => by
      cases e with
      | zero => simp [State.ofObjects, Entity.getComponent, Component.instanceof,
          Component.constructor]
      | succ n => simp [State.ofObjects, Entity.getComponent] at hp)
  refine ⟨s1, h1, h2 0 (by decide) ?_ ?_⟩ <;>
    simp [State.ofObjects, Entity.getComponent, Component.instanceof, Component.constructor]

/-- C7 fails as stated: in the program's world on a 100 by 100 stage, with
entity `0` flagged `deleted = true` and entity `1` at `(-1, 0)` with bounds 64
by 64 and no Velocity, the tick is cut short by the `TypeError` of
`BounceSystem.update` before `DeleteSystem.update` runs, and entity `0` is
still in the World's collection when the tick is over. -/
theorem World_update_cut_short :
    (State.ofObjects [[.DeleteableComponent true],
        [.PositionComponent (-1) 0, .RectangleComponent 64 64]]).deleted 0 = true
    ∧ (World.update (Env.stage 100 100) 0
        (State.ofObjects [[.DeleteableComponent true],
          [.PositionComponent (-1) 0, .RectangleComponent 64 64]])).isOk = false
    ∧ 0 ∈ (World.update (Env.stage 100 100) 0
        (State.ofObjects [[.DeleteableComponent true],
          [.PositionComponent (-1) 0, .RectangleComponent 64 64]])).state.world.entities := by
  refine ⟨rfl, ?_, ?_⟩ <;>
    simp [World.update, World.runSystems, System.update, VelocitySystem.update,
      BounceSystem.update, forOf, VelocitySystem.body, BounceSystem.body, Result.andThen,
      Result.isOk, Result.state, State.ofObjects, World.program, World.addSystem, World.new,
      Env.stage, List.range_succ, Entity.getComponent, Component.instanceof,
      Component.constructor]

/-- C7 (amended): for a World whose systems are Velocity, Bounce, Selected,
Delete, Reposition in that order, with no `addEntity` call between ticks: an
entity that has `deleted = true` at the start of a tick that returns normally
is absent from the World's collection at the end of that tick and at the end
of every later tick, however those end; the collection after a tick or after
any sequence of ticks, also when cut short by an error, is a sub-list of the
collection before, and the system list stays the same; and a tick returns
normally whenever every entity of the collection that holds Position and
Bounds holds Velocity. -/
theorem World_update_deleted_absent (s : State)
    (hsys : s.world.systems = World.program.systems) :
    (∀ env timestamp,
        (World.update env timestamp s).state.world.entities.Sublist s.world.entities
        ∧ (World.update env timestamp s).state.world.systems = s.world.systems)
    ∧ (∀ frames, (World.ticks frames s).state.world.entities.Sublist s.world.entities)
    ∧ (∀ env timestamp s1, World.update env timestamp s = .ok s1 →
        ∀ e, (s.store e).getComponent .DeleteableComponent = some (.DeleteableComponent true) →
          e ∉ s1.world.entities
          ∧ ∀ frames, e ∉ (World.ticks frames s1).state.world.entities)
    ∧ ((∀ e ∈ s.world.entities, (s.store e).getComponent .PositionComponent ≠ none →
          (s.store e).getComponent .RectangleComponent ≠ none →
          (s.store e).getComponent .VelocityComponent ≠ none) →
        ∀ env timestamp, (World.update env timestamp s).isOk = true) := by
  refine ⟨?_, ?_, ?_, ?_⟩
  · intro env timestamp
    have h := World_runSystems_frame env s.world.systems s
    exact ⟨h.2.1, h.1⟩
  · intro frames
    exact (World_ticks_frame frames s).2
  · intro env timestamp s1 h1 e he
    rw [World_update_program env timestamp s hsys, Result.andThen_eq_ok] at h1
    obtain ⟨s3, h3, h5⟩ := h1
    have hdel : s3.deleted e = true := by
      have := (World_runSystems_frame env
        [.VelocitySystem, .BounceSystem, .SelectedSystem] s).2.2 e
        ((State.deleted_iff s e).mpr he)
      rwa [h3] at this
    obtain ⟨s5, h5b, hent⟩ := World_runSystems_delete_reposition env s3
    rw [h5] at h5b
    cases h5b
    have habsent : e ∉ s1.world.entities := by
      rw [hent]
      simp [List.mem_filter, hdel]
    exact ⟨habsent, fun frames h => habsent ((World_ticks_frame frames s1).2.subset h)⟩
  · intro hV env timestamp
    obtain ⟨s3, h3, _, _⟩ := World_runSystems_before_delete env s hV
    obtain ⟨s5, h5, _⟩ := World_runSystems_delete_reposition env s3
    rw [World_update_program env timestamp s hsys, h3]
    show (World.runSystems env [.DeleteSystem, .RepositionSystem] s3).isOk = true
    rw [h5]
    rfl

/-- Witness of `World_update_deleted_absent`: the program's world on a 100 by
100 stage with one entity flagged `deleted = true`; the tick returns normally
and the entity is gone, also three ticks later. -/
theorem World_update_deleted_absent_witness :
    (State.ofObjects [[.DeleteableComponent true]]).world.systems = World.program.systems
    ∧ ∃ s1, World.update (Env.stage 100 100) 0 (State.ofObjects [[.DeleteableComponent true]])
          = .ok s1
        ∧ 0 ∉ s1.world.entities
        ∧ 0 ∉ (World.ticks [(Env.stage 100 100, 1), (Env.stage 90 90, 2), (Env.stage 80 80, 3)]
            s1).state.world.entities := by
  have h := World_update_deleted_absent (State.ofObjects [[.DeleteableComponent true]]) rfl
  have hok := h.2.2.2 (fun e _ hp _ => by
    cases e with
    | zero => simp [State.ofObjects, Entity.getComponent, Component.instanceof,
        Component.constructor] at hp
    | succ n => simp [State.ofObjects, Entity.getComponent] at hp) (Env.stage 100 100) 0
  have hrun := Result.eq_ok_of_isOk _ hok
  have habs := h.2.2.1 (Env.stage 100 100) 0 _ hrun 0 rfl
  exact ⟨rfl, _, hrun, habs.1, habs.2 _⟩

/-- C8: `World.removeEntity(e)` sets the World's collection to the old list
filtered to the elements other than `e`: `e` no longer occurs, every other
element occurs as often as before and in the same order (the result is a
sub-list), and the system list is unchanged.  The list handed to a running
`DeleteSystem.update` pass is a value that the replacement does not alter, so
the pass visits all of it: whatever list `given` it is handed (the World's own
collection included), it returns normally having removed from the World every
entity of `given` that has `deleted = true`, also those that come after a
removed one, and nothing else. -/
theorem World_removeEntity_spec (w : World) (e : EntityRef) :
    (w.removeEntity e).entities = w.entities.filter (fun x => decide (x ≠ e))
    ∧ e ∉ (w.removeEntity e).entities
    ∧ (∀ x, x ≠ e → (w.removeEntity e).entities.count x = w.entities.count x)
    ∧ (w.removeEntity e).entities.Sublist w.entities
    ∧ (w.removeEntity e).systems = w.systems
    ∧ (∀ (given : List EntityRef) (s : State),
        ∃ s1, DeleteSystem.update given s = .ok s1
          ∧ (∀ x, x ∈ given → s.deleted x = true → x ∉ s1.world.entities)
          ∧ (∀ x, ¬ (x ∈ given ∧ s.deleted x = true) →
              s1.world.entities.count x = s.world.entities.count x)
          ∧ s1.world.entities.Sublist s.world.entities
          ∧ s1.store = s.store ∧ s1.world.systems = s.world.systems) := by
  refine ⟨rfl, ?_, ?_, ?_, rfl, ?_⟩
  · simp [World.removeEntity, List.mem_filter]
  · intro x hx
    simp only [World.removeEntity]
    rw [List.count_filter]
    simpa using hx
  · exact List.filter_sublist _
  · intro given s
    refine ⟨_, DeleteSystem_update_eq given s, ?_, ?_, List.filter_sublist _, rfl, rfl⟩
    · intro x hx hd
      simp [List.mem_filter, hx, hd]
    · intro x hx
      show (s.world.entities.filter _).count x = _
      rw [List.count_filter]
      by_cases hg : x ∈ given
      · have : s.deleted x = false := by simpa using fun h => hx ⟨hg, h⟩
        simp [this]
      · simp [hg]

/-- C9: attaching components `cs` one by one to a new entity gives the
components array `cs`; and for every entity holding at most one component per
class, `getComponent(kind)` returns the component `c` exactly when `c` is the
entity's component of class `kind`, and the empty result exactly when the
entity has no component of that class; after `addComponent(c)` on an entity
with no component of the class of `c`, `getComponent` of that class returns `c`,
`getComponent` of every other class returns what it returned before, and the
entity still holds at most one component per class. -/
theorem Entity_getComponent_spec (self : Entity)
    (hone : (self.components.map Component.constructor).Nodup) :
    (∀ cs : List Component, (cs.foldl Entity.addComponent Entity.new).components = cs)
    ∧ (∀ kind c, self.getComponent kind = some c ↔ c ∈ self.components ∧ c.constructor = kind)
    ∧ (∀ kind, self.getComponent kind = none ↔ ∀ c ∈ self.components, c.constructor ≠ kind)
    ∧ (∀ c, self.getComponent c.constructor = none →
        (self.addComponent c).getComponent c.constructor = some c
        ∧ (∀ kind, kind ≠ c.constructor →
            (self.addComponent c).getComponent kind = self.getComponent kind)
        ∧ ((self.addComponent c).components.map Component.constructor).Nodup) := by
  refine ⟨fun cs => by simp [addComponent_foldl, Entity.new], ?_,
    fun kind => Entity.getComponent_eq_none self kind, ?_⟩
  · intro kind c
    constructor
    · intro h
      exact ⟨Entity.getComponent_mem self kind c h, Entity.getComponent_instanceof self kind c h⟩
    · rintro ⟨hmem, hkind⟩
      exact find_instanceof_of_mem kind c self.components hone hmem hkind
  · intro c hnone
    refine ⟨?_, ?_, ?_⟩
    · rw [Entity.getComponent_addComponent, hnone]; simp
    · intro kind hkind
      rw [Entity.getComponent_addComponent, if_neg (fun h => hkind h.symm)]
      simp
    · simp only [Entity.addComponent, List.map_append, List.map_cons, List.map_nil]
      rw [List.nodup_append]
      refine ⟨hone, List.nodup_singleton _, ?_⟩
      intro k hk hk2
      rw [List.mem_singleton] at hk2
      subst hk2
      obtain ⟨d, hd, hdk⟩ := List.mem_map.mp hk
      exact (Entity.getComponent_eq_none self _).mp hnone d hd hdk

/-- Witness of `Entity_getComponent_spec`: an entity with a Position and a
Velocity, to which a Selectable component is added. -/
theorem Entity_getComponent_spec_witness :
    ((Entity.mk [.PositionComponent 0 0, .VelocityComponent 1 1]).components.map
        Component.constructor).Nodup
    ∧ ((Entity.mk [.PositionComponent 0 0, .VelocityComponent 1 1]).addComponent
        (.SelectableComponent false)).getComponent .SelectableComponent
      = some (.SelectableComponent false) := by
  have hone : ((Entity.mk [.PositionComponent 0 0, .VelocityComponent 1 1]).components.map
      Component.constructor).Nodup := by decide
  exact ⟨hone, ((Entity_getComponent_spec _ hone).2.2.2 (.SelectableComponent false) rfl).1⟩

/-- C10: the stage being the window (`window.innerWidth` by
`window.innerHeight`, read by the test of lines 254-256), for every stage size,
collection and sequence of random draws, one `RepositionSystem.update` pass
returns normally and leaves unchanged every entity with Repositionable,
Position `(px, py)` and Bounds `(w, h)` such that `px <= stageWidth - w` and
`py <= stageHeight - h` (in particular every entity within
`[0, stageWidth - w] x [0, stageHeight - h]`), every entity lacking
Repositionable, Position or Bounds, and every entity outside the collection;
the same holds with the canvas size as the stage when the canvas has the size
of the window, as lines 269-270 and 299-300 keep it; the World is unchanged and
only Position components are ever assigned. -/
theorem RepositionSystem_update_within (env : Env) (entities : List EntityRef) (s : State) :
    ∃ s1, RepositionSystem.update env entities s = .ok s1
      ∧ s1.world = s.world
      ∧ (∀ e px py w h,
          (s.store e).getComponent .RepositionableComponent ≠ none →
          (s.store e).getComponent .PositionComponent = some (.PositionComponent px py) →
          (s.store e).getComponent .RectangleComponent = some (.RectangleComponent w h) →
          px ≤ env.innerWidth - w → py ≤ env.innerHeight - h →
          s1.store e = s.store e)
      ∧ (env.canvasWidth = env.innerWidth → env.canvasHeight = env.innerHeight →
          ∀ e px py w h,
            (s.store e).getComponent .RepositionableComponent ≠ none →
            (s.store e).getComponent .PositionComponent = some (.PositionComponent px py) →
            (s.store e).getComponent .RectangleComponent = some (.RectangleComponent w h) →
            0 ≤ px → px ≤ env.canvasWidth - w → 0 ≤ py → py ≤ env.canvasHeight - h →
            s1.store e = s.store e)
      ∧ (∀ e, ((s.store e).getComponent .RepositionableComponent = none
            ∨ (s.store e).getComponent .PositionComponent = none
            ∨ (s.store e).getComponent .RectangleComponent = none) → s1.store e = s.store e)
      ∧ (∀ e, e ∉ entities → s1.store e = s.store e)
      ∧ (∀ e type, type ≠ .PositionComponent →
          (s1.store e).getComponent type = (s.store e).getComponent type) := by
  obtain ⟨s1, h1, h2, h3, h4, h5⟩ := RepositionSystem_update_frame env entities s
  refine ⟨s1, h1, h2, ?_, ?_, ?_, h5, h4⟩
  · intro e px py w h _ hp hr hx hy
    exact h3 e (RepositionSystem_triggered_of_within env _ px py w h hp hr hx hy)
  · intro hcw hch e px py w h _ hp hr _ hx _ hy
    rw [hcw] at hx
    rw [hch] at hy
    exact h3 e (RepositionSystem_triggered_of_within env _ px py w h hp hr hx hy)
  · intro e hlack
    exact h3 e (RepositionSystem_triggered_of_lacking env _ hlack)

/-- Witness of `RepositionSystem_update_within`: on an 800 by 600 stage, two
repositionable entities at `(10, 20)` with bounds 64 by 64 stay where they are. -/
theorem RepositionSystem_update_within_witness :
    ∃ s1, RepositionSystem.update (Env.stage 800 600) [0, 1]
          (State.uniform [0, 1] [.PositionComponent 10 20, .RectangleComponent 64 64,
            .RepositionableComponent]) = .ok s1
      ∧ s1.store 0 = (State.uniform [0, 1] [.PositionComponent 10 20,
          .RectangleComponent 64 64, .RepositionableComponent]).store 0 := by
  obtain ⟨s1, h1, _, h3, _⟩ := RepositionSystem_update_within (Env.stage 800 600) [0, 1]
    (State.uniform [0, 1] [.PositionComponent 10 20, .RectangleComponent 64 64,
      .RepositionableComponent])
  exact ⟨s1, h1, h3 0 10 20 64 64 (by simp [State.uniform, Entity.getComponent,
    Component.instanceof, Component.constructor]) rfl rfl (by norm_num [Env.stage])
    (by norm_num [Env.stage])⟩

/-- C11 fails as stated, in two ways.  On an 800 by 600 stage with every
random draw equal to `9/10`, the out-of-bound entity at `(900, 0)` with bounds
200 by 200 is assigned `x = 9/10 * (800 - 64) = 3312/5`, which is not below
`800 - 200`.  On a 50 by 50 stage with every draw equal to `0`, the entity at
`(100, 0)` with bounds 64 by 64 is assigned `x = 0`, which is not below
`50 - 64`. -/
theorem RepositionSystem_update_outside :
    ((RepositionSystem.update
        { canvasWidth := 800, canvasHeight := 600, innerWidth := 800, innerHeight := 600
          random := fun _ => 9 / 10 } [0]
        (State.uniform [0] [.PositionComponent 900 0, .RectangleComponent 200 200,
          .RepositionableComponent])).state.store 0).getComponent .PositionComponent
      = some (.PositionComponent (3312 / 5) (2412 / 5))
    ∧ ¬ ((3312 / 5 : ℚ) < 800 - 200)
    ∧ ((RepositionSystem.update (Env.stage 50 50) [0]
        (State.uniform [0] [.PositionComponent 100 0, .RectangleComponent 64 64,
          .RepositionableComponent])).state.store 0).getComponent .PositionComponent
      = some (.PositionComponent 0 0)
    ∧ ¬ ((0 : ℚ) < 50 - 64) := by
  refine ⟨?_, by norm_num, ?_, by norm_num⟩ <;>
  · simp [RepositionSystem.update, forOf, RepositionSystem.body, Result.andThen, Result.state,
      State.uniform, Env.stage, State.assign, Entity.getComponent, Component.instanceof,
      Component.constructor, Entity.assign, assignFirst]
    norm_num

/-- C11 (amended): for every stage (canvas) wider and higher than 64, every
collection, and random draws all in `[0, 1)`, one `RepositionSystem.update`
pass returns normally and every listed entity with Repositionable, Position
`(px, py)` and Bounds `(w, h)` whose far edge minus the inset exceeds the window
(`px + w - 4 > window.innerWidth` or `py + h - 4 > window.innerHeight`) ends at
a position `(x, y)` with `0 <= x`, `0 <= y`, and `x < canvas.width - w` when
`w <= 64`, `y < canvas.height - h` when `h <= 64` (as for the 64 by 64 bounds
of the entities the program creates).  The bounds proved for every `w` and `h`
are those of lines 258-259, `x < canvas.width - 64` and
`y < canvas.height - 64`. -/
theorem RepositionSystem_update_relocates (env : Env) (entities : List EntityRef) (s : State)
    (hdraws : ∀ n, 0 ≤ env.random n ∧ env.random n < 1)
    (hwidth : 64 < env.canvasWidth) (hheight : 64 < env.canvasHeight) :
    ∃ s1, RepositionSystem.update env entities s = .ok s1
      ∧ ∀ e ∈ entities, ∀ px py w h,
          (s.store e).getComponent .RepositionableComponent ≠ none →
          (s.store e).getComponent .PositionComponent = some (.PositionComponent px py) →
          (s.store e).getComponent .RectangleComponent = some (.RectangleComponent w h) →
          (px + w - 4 > env.innerWidth ∨ py + h - 4 > env.innerHeight) →
          ∃ x y, (s1.store e).getComponent .PositionComponent = some (.PositionComponent x y)
            ∧ 0 ≤ x ∧ x < env.canvasWidth - 64 ∧ 0 ≤ y ∧ y < env.canvasHeight - 64
            ∧ (w ≤ 64 → x < env.canvasWidth - w) ∧ (h ≤ 64 → y < env.canvasHeight - h) := by
  obtain ⟨s1, h1, _, h3⟩ := RepositionSystem_update_relocated env entities s
  refine ⟨s1, h1, ?_⟩
  intro e he px py w h hq hp hr hc
  obtain ⟨n, m, hpos⟩ := h3 e he
    ((RepositionSystem_triggered_iff env _).mpr ⟨hq, px, py, w, h, hp, hr, hc⟩)
  have hw0 : 0 < env.canvasWidth - 64 := by linarith
  have hh0 : 0 < env.canvasHeight - 64 := by linarith
  have hx0 : 0 ≤ env.random n * (env.canvasWidth - 64) :=
    mul_nonneg (hdraws n).1 hw0.le
  have hy0 : 0 ≤ env.random m * (env.canvasHeight - 64) :=
    mul_nonneg (hdraws m).1 hh0.le
  have hx1 : env.random n * (env.canvasWidth - 64) < env.canvasWidth - 64 := by
    have := mul_lt_mul_of_pos_right (hdraws n).2 hw0
    simpa using this
  have hy1 : env.random m * (env.canvasHeight - 64) < env.canvasHeight - 64 := by
    have := mul_lt_mul_of_pos_right (hdraws m).2 hh0
    simpa using this
  exact ⟨_, _, hpos, hx0, hx1, hy0, hy1, fun hw => by linarith, fun hh => by linarith⟩

/-- Witness of `RepositionSystem_update_relocates`: on an 800 by 600 stage with
every draw equal to `0`, the entity at `(900, 0)` with bounds 64 by 64 is
relocated into the rectangle. -/
theorem RepositionSystem_update_relocates_witness :
    (∀ n, 0 ≤ (Env.stage 800 600).random n ∧ (Env.stage 800 600).random n < 1)
    ∧ 64 < (Env.stage 800 600).canvasWidth ∧ 64 < (Env.stage 800 600).canvasHeight
    ∧ ∃ s1, RepositionSystem.update (Env.stage 800 600) [0]
          (State.uniform [0] [.PositionComponent 900 0, .RectangleComponent 64 64,
          .RepositionableComponent]) = .ok s1
        ∧ ∃ x y, (s1.store 0).getComponent .PositionComponent = some (.PositionComponent x y)
          ∧ 0 ≤ x ∧ x < 800 - 64 ∧ 0 ≤ y ∧ y < 600 - 64 := by
  have hdraws : ∀ n, 0 ≤ (Env.stage 800 600).random n ∧ (Env.stage 800 600).random n < 1 :=
    fun n => by norm_num [Env.stage]
  have hwidth : 64 < (Env.stage 800 600).canvasWidth := by norm_num [Env.stage]
  have hheight : 64 < (Env.stage 800 600).canvasHeight := by norm_num [Env.stage]
  refine ⟨hdraws, hwidth, hheight, ?_⟩
  obtain ⟨s1, h1, h2⟩ := RepositionSystem_update_relocates (Env.stage 800 600) [0]
    (State.uniform [0] [.PositionComponent 900 0, .RectangleComponent 64 64,
          .RepositionableComponent]) hdraws hwidth hheight
  obtain ⟨x, y, hp, hx0, hx1, hy0, hy1, _⟩ := h2 0 (by decide) 900 0 64 64
    (by simp [State.uniform, Entity.getComponent, Component.instanceof, Component.constructor])
    rfl rfl (by norm_num [Env.stage])
  exact ⟨s1, h1, x, y, hp, hx0, hx1, hy0, hy1⟩

/-- C12 fails as stated: on a 100 by 100 stage, the pass over the collection
`[0]` whose entity has Position `(10, 10)`, Bounds 64 by 64 and no Velocity
returns normally and leaves the entity as it was: within bounds, no negation
is attempted. -/
theorem BounceSystem_update_no_velocity_ok :
    ((State.uniform [0] [.PositionComponent 10 10, .RectangleComponent 64 64]).store
        0).getComponent .VelocityComponent = none
    ∧ (BounceSystem.update (Env.stage 100 100) [0]
        (State.uniform [0] [.PositionComponent 10 10, .RectangleComponent 64 64])).isOk = true
    ∧ (BounceSystem.update (Env.stage 100 100) [0]
        (State.uniform [0] [.PositionComponent 10 10, .RectangleComponent 64 64])).state.store 0
      = (State.uniform [0] [.PositionComponent 10 10, .RectangleComponent 64 64]).store 0 := by
  refine ⟨rfl, ?_, ?_⟩ <;>
  · simp [BounceSystem.update, forOf, BounceSystem.body, Result.andThen, Result.state,
      Result.isOk, State.uniform, Env.stage, Entity.getComponent, Component.instanceof,
      Component.constructor]
    norm_num

/-- C12 (amended): for every stage size, a `BounceSystem.update` pass fails
with a `TypeError` instead of completing exactly when the collection contains
an entity that has Position `(px, py)` and Bounds `(w, h)`, no Velocity, and is
out of bounds on some axis (`px < 0`, `px + w > canvas.width`, `py < 0` or
`py + h > canvas.height`); otherwise it returns normally. -/
theorem BounceSystem_update_fails_iff (env : Env) (entities : List EntityRef) (s : State) :
    ((∃ e ∈ entities, (s.store e).getComponent .VelocityComponent = none
        ∧ ∃ px py w h,
          (s.store e).getComponent .PositionComponent = some (.PositionComponent px py)
          ∧ (s.store e).getComponent .RectangleComponent = some (.RectangleComponent w h)
          ∧ ((px < 0 ∨ px + w > env.canvasWidth) ∨ (py < 0 ∨ py + h > env.canvasHeight)))
      ↔ ∃ s1, BounceSystem.update env entities s = .thrown .typeError s1)
    ∧ ((¬ ∃ e ∈ entities, (s.store e).getComponent .VelocityComponent = none
        ∧ ∃ px py w h,
          (s.store e).getComponent .PositionComponent = some (.PositionComponent px py)
          ∧ (s.store e).getComponent .RectangleComponent = some (.RectangleComponent w h)
          ∧ ((px < 0 ∨ px + w > env.canvasWidth) ∨ (py < 0 ∨ py + h > env.canvasHeight)))
      ↔ (BounceSystem.update env entities s).isOk = true) := by
  have hthrown : (∃ e ∈ entities, BounceSystem.throws env (s.store e) = true) →
      ∃ s1, BounceSystem.update env entities s = .thrown .typeError s1 :=
    forOf_guarded_thrown (BounceSystem.visit env) (BounceSystem.throws env) .typeError
      (BounceSystem.body env) (BounceSystem_body_eq env) entities s
  have hok : (¬ ∃ e ∈ entities, BounceSystem.throws env (s.store e) = true) →
      (BounceSystem.update env entities s).isOk = true := by
    intro hno
    apply forOf_guarded_ok (BounceSystem.visit env) (BounceSystem.throws env) .typeError
      (BounceSystem.body env) (BounceSystem_body_eq env) (BounceSystem_throws_visit env)
    intro e he
    cases ht : BounceSystem.throws env (s.store e) with
    | false => rfl
    | true => exact absurd ⟨e, he, ht⟩ hno
  simp only [← BounceSystem_throws_iff]
  constructor
  · constructor
    · exact hthrown
    · rintro ⟨s1, h1⟩
      by_contra hno
      have := hok hno
      rw [h1] at this
      cases this
  · constructor
    · exact hok
    · intro hisOk hsome
      obtain ⟨s1, h1⟩ := hthrown hsome
      rw [h1] at hisOk
      cases hisOk

/-- Witness of `BounceSystem_update_fails_iff`: on a 100 by 100 stage, the
pass over an entity at `(-1, 0)` with bounds 64 by 64 and no Velocity fails
with a `TypeError`. -/
theorem BounceSystem_update_fails_iff_witness :
    ∃ s1, BounceSystem.update (Env.stage 100 100) [0]
      (State.uniform [0] [.PositionComponent (-1) 0, .RectangleComponent 64 64])
        = .thrown .typeError s1 :=
  (BounceSystem_update_fails_iff (Env.stage 100 100) [0]
    (State.uniform [0] [.PositionComponent (-1) 0, .RectangleComponent 64 64])).1.mp
    ⟨0, by decide, rfl, -1, 0, 64, 64, rfl, rfl, Or.inl (Or.inl (by norm_num))⟩

/-- C13 fails as stated: `loop` computes with binary64 numbers, not with exact
arithmetic.  After the script's `loop(0)` on an 800 by 600 window the
accumulator and `lastRender` are `0`; the frame at 50 ms then runs 2 World
ticks, not `floor(50 / (1000 / 60)) = 3`, and leaves the accumulator at
`4691249611844265 / 2 ^ 48` (16.66666666666666), not at
`50 - 3 * (1000 / 60) = 0`.  And the frame at `10 ^ 20` ms, a timestamp not
earlier than the previous frame's, does not terminate:
`10 ^ 20 - 1000 / 60` rounds to `10 ^ 20`, so no number of iterations ends its
`while` loop. -/
theorem loop_frame_rounded :
    ∃ (env1 : Env) (p p1 : Page),
      (∀ fuel, 1 ≤ fuel → script fuel (Env.stage 800 600) [] = some (env1, .ok p))
      ∧ p.acculumatedTime = 0 ∧ p.lastRender = 0
      ∧ (∀ fuel, 3 ≤ fuel → loop env1 50 fuel p = some (.ok p1))
      ∧ p1.ticks = p.ticks + 2
      ∧ ⌊(p.acculumatedTime + (50 - p.lastRender)) / (1000 / 60)⌋ = 3
      ∧ p1.acculumatedTime = 4691249611844265 / 281474976710656
      ∧ p.acculumatedTime + (50 - p.lastRender) - 3 * (1000 / 60) = 0
      ∧ (∀ fuel, loop env1 (10 ^ 20) fuel p = none) := by
  obtain ⟨p0, h0, hc0, ha0, hl0, _, _⟩ := script_eq_run (Env.stage 800 600) []
  generalize (Env.stage 800 600).resized (Env.stage 800 600).innerWidth
    (Env.stage 800 600).innerHeight = env1 at h0
  have h50 : p0.accumulated 50 = 50 := by
    have h := toDouble_natCast 50 (by norm_num)
    norm_num at h
    rw [Page.accumulated, ha0, hl0, sub_zero, h, zero_add, h]
  have hbig : p0.accumulated (10 ^ 20) = 10 ^ 20 := by
    rw [Page.accumulated, ha0, hl0, sub_zero, toDouble_big, zero_add, toDouble_big]
  obtain ⟨p1, hrun, _, _, _, hT, hacc, _⟩ := loop_safe env1 50 p0 2 hc0.1 hc0.2.1
    (by
      intro j hj
      rw [h50, toDouble_tickDuration]
      interval_cases j
      · norm_num
      · rw [Function.iterate_one, drainStep_50]
        norm_num)
    (by
      rw [h50, toDouble_tickDuration, Function.iterate_succ_apply, Function.iterate_one,
        drainStep_50, drainStep_50_twice]
      norm_num)
  refine ⟨env1, p0, p1, fun fuel hfuel => (h0 fuel hfuel).trans rfl, ha0, hl0,
    fun fuel hfuel => hrun fuel (by omega), hT, ?_, ?_, ?_, ?_⟩
  · rw [ha0, hl0, Int.floor_eq_iff]
    norm_num
  · rw [hacc, h50, Function.iterate_succ_apply, Function.iterate_one, drainStep_50,
      drainStep_50_twice]
  · rw [ha0, hl0]
    norm_num
  · intro fuel
    unfold loop
    simp only [won, Bool.false_eq_true, if_false]
    rw [show toDouble (p0.acculumatedTime + toDouble (10 ^ 20 - p0.lastRender))
      = p0.accumulated (10 ^ 20) from rfl, hbig,
      loopWhile_none env1 (10 ^ 20) fuel
        { p0 with lastRender := 10 ^ 20, acculumatedTime := 10 ^ 20 } hc0.1 hc0.2.1
        (by
          show toDouble (1000 / 60) ≤ (10 : ℚ) ^ 20
          rw [toDouble_tickDuration]
          norm_num)
        drainStep_big]
    rfl

/-- C13, amended to the arithmetic of the program (binary64, rounding to
nearest, ties to even; `S = toDouble (1000 / 60)` is the tick duration the
program compares with and subtracts).  In every state `p` the page script
reaches by handling events whose frame timestamps are binary64 numbers that do
not decrease and do not exceed `2 ^ 53`, a frame whose timestamp is a binary64
number not earlier than the previous frame's and at most `2 ^ 53` terminates
(every `fuel` above `k` gives the result) and returns normally after running
exactly `k` World ticks, where `k` is the number of rounded subtractions of `S`
that bring the rounded sum `acc + delta` (`p.accumulated timestamp`) below `S`;
it leaves the accumulator at the value so reached, which lies in `[0, S)`, and
invokes the render pass exactly once, after the ticks.  `k * S` plus the new
accumulator differs from the exact `acc + delta` by at most
`(2 * k + 3) * (acc + delta) / 2 ^ 53`, and for timestamps up to `2 ^ 28` the
number `k` differs from `floor((acc + delta) / (1000 / 60))` by at most one.
For an arbitrary page state whose accumulator and `lastRender` are binary64
numbers in `[0, 2 ^ 53]` the same `k` exists; the frame then returns normally
with those values when its `k` ticks do, which they do when the World has the
program's systems and its entities holding Position and Bounds hold Velocity,
and raises the exception of the first tick that throws, without rendering,
otherwise. -/
theorem loop_frame_spec (env : Env) (events : List Event) (timestamp : ℚ)
    (hchain : List.Chain (· ≤ ·) 0 (frameTimes events))
    (hdouble : ∀ t ∈ frameTimes events, IsDouble t ∧ t ≤ 2 ^ 53)
    (hlater : (frameTimes events).getLastD 0 ≤ timestamp)
    (htime : IsDouble timestamp) (hbound : timestamp ≤ 2 ^ 53) :
    (∃ (N : Nat) (env1 : Env) (p p1 : Page) (k : Nat),
      (∀ fuel, N ≤ fuel → script fuel env events = some (env1, .ok p))
      ∧ (∀ fuel, k < fuel → loop env1 timestamp fuel p = some (.ok p1))
      ∧ (∀ j < k, toDouble (1000 / 60) ≤ drainStep^[j] (p.accumulated timestamp))
      ∧ World.ticks (List.replicate k (env1, timestamp)) p.sim = .ok p1.sim
      ∧ p1.ticks = p.ticks + k
      ∧ p1.acculumatedTime = drainStep^[k] (p.accumulated timestamp)
      ∧ 0 ≤ p1.acculumatedTime ∧ p1.acculumatedTime < toDouble (1000 / 60)
      ∧ |k * toDouble (1000 / 60) + p1.acculumatedTime
          - (p.acculumatedTime + (timestamp - p.lastRender))|
        ≤ (2 * k + 3) * (p.acculumatedTime + (timestamp - p.lastRender)) / 2 ^ 53
      ∧ (timestamp ≤ 2 ^ 28 →
        |(k : ℤ) - ⌊(p.acculumatedTime + (timestamp - p.lastRender)) / (1000 / 60)⌋| ≤ 1)
      ∧ p1.renders = p.renders + 1 ∧ p1.lastRender = timestamp)
    ∧ (∀ (env0 : Env) (q : Page), IsDouble q.acculumatedTime → IsDouble q.lastRender →
        0 ≤ q.acculumatedTime → q.acculumatedTime ≤ 2 ^ 53 →
        0 ≤ q.lastRender → q.lastRender ≤ timestamp →
        ∃ k : Nat,
          (∀ j < k, toDouble (1000 / 60) ≤ drainStep^[j] (q.accumulated timestamp))
          ∧ drainStep^[k] (q.accumulated timestamp) < toDouble (1000 / 60)
          ∧ 0 ≤ drainStep^[k] (q.accumulated timestamp)
          ∧ |k * toDouble (1000 / 60) + drainStep^[k] (q.accumulated timestamp)
              - (q.acculumatedTime + (timestamp - q.lastRender))|
            ≤ (2 * k + 3) * (q.acculumatedTime + (timestamp - q.lastRender)) / 2 ^ 53
          ∧ (∀ fuel s1, k < fuel →
              World.ticks (List.replicate k (env0, timestamp)) q.sim = .ok s1 →
              loop env0 timestamp fuel q
                = some (.ok { q with
                    sim := s1, lastRender := timestamp, ticks := q.ticks + k
                    acculumatedTime := drainStep^[k] (q.accumulated timestamp)
                    renders := q.renders + 1, requests := q.requests + 1 }))
          ∧ (∀ fuel e s1, k < fuel →
              World.ticks (List.replicate k (env0, timestamp)) q.sim = .thrown e s1 →
              ∃ q1, loop env0 timestamp fuel q = some (.thrown e q1)
                ∧ q1.renders = q.renders)
          ∧ (q.sim.world.systems = World.program.systems → q.sim.bounceSafe →
              ∃ s1, World.ticks (List.replicate k (env0, timestamp)) q.sim = .ok s1)) := by
  refine ⟨?_, ?_⟩
  · obtain ⟨N, env1, p, hrun, hc, hl, _⟩ := script_consistent env events hchain hdouble
    obtain ⟨k, p1, h1, hc1, hge, hticks, hT, hacc, herr, hl1, hr1, _⟩ :=
      loop_consistent env1 timestamp p hc htime (hl ▸ hlater) hbound
    obtain ⟨_, _, _, _, hp0, hp1, hpl, _⟩ := hc
    obtain ⟨hS1, hS2⟩ := tickDuration_bounds
    refine ⟨N, env1, p, p1, k, hrun, h1, hge, hticks, hT, hacc, hc1.2.2.2.2.1,
      hc1.2.2.2.2.2.1, herr, ?_, hr1, hl1⟩
    intro hsmall
    have e28 : (2 : ℚ) ^ 28 = 268435456 := by norm_num
    have e29 : (2 : ℚ) ^ 29 = 536870912 := by norm_num
    have hx : p.acculumatedTime + (timestamp - p.lastRender) ≤ 2 ^ 29 := by
      rw [e28] at hsmall
      rw [e29]
      linarith
    obtain ⟨hE, hk⟩ := error_small k 3 p1.acculumatedTime
      (p.acculumatedTime + (timestamp - p.lastRender))
      (p.acculumatedTime + (timestamp - p.lastRender)) hc1.2.2.2.2.1 (by norm_num)
      (by norm_num) hx hx herr
    exact ticks_near_floor k p1.acculumatedTime _ _ hc1.2.2.2.2.1 hc1.2.2.2.2.2.1 herr hE hk
  · intro env0 q hd1 hd2 h0 hB hl0 hmono
    obtain ⟨k, hge, hlt, hr0, _, herr⟩ := frame_numeric q.acculumatedTime q.lastRender
      timestamp hd1 hd2 htime h0 hB hl0 hmono hbound
    refine ⟨k, hge, hlt, hr0, herr, ?_, ?_, ?_⟩
    · intro fuel s1 hfuel hticks
      exact (loop_spec env0 timestamp q k fuel hfuel hge hlt).1 s1 hticks
    · intro fuel e s1 hfuel hticks
      exact (loop_spec env0 timestamp q k fuel hfuel hge hlt).2 e s1 hticks
    · intro hsys hsafe
      obtain ⟨s1, hticks, _⟩ :=
        World_ticks_safe (List.replicate k (env0, timestamp)) q.sim hsys hsafe
      exact ⟨s1, hticks⟩

/-- Witness of `loop_frame_spec`: the first animation frame, at 20 ms, of the
page on an 800 by 600 window. -/
theorem loop_frame_spec_witness :
    List.Chain (· ≤ ·) (0 : ℚ) (frameTimes []) ∧ (frameTimes []).getLastD 0 ≤ (20 : ℚ)
    ∧ IsDouble 20
    ∧ ∃ (N : Nat) (env1 : Env) (p p1 : Page),
      (∀ fuel, N ≤ fuel → script fuel (Env.stage 800 600) [] = some (env1, .ok p))
      ∧ (∀ fuel, N ≤ fuel → loop env1 20 fuel p = some (.ok p1))
      ∧ 0 ≤ p1.acculumatedTime ∧ p1.acculumatedTime < toDouble (1000 / 60)
      ∧ p1.renders = p.renders + 1 := by
  have hchain : List.Chain (· ≤ ·) (0 : ℚ) (frameTimes []) := List.Chain.nil
  have hlater : (frameTimes []).getLastD 0 ≤ (20 : ℚ) := by norm_num [frameTimes]
  have htime : IsDouble 20 := by
    have h := IsDouble_natCast 20 (by norm_num)
    norm_num at h
    exact h
  obtain ⟨N, env1, p, p1, k, h1, h2, _, _, _, _, h7, h8, _, _, h9, _⟩ :=
    (loop_frame_spec (Env.stage 800 600) [] 20 hchain (by simp [frameTimes]) hlater htime
      (by norm_num)).1
  exact ⟨hchain, hlater, htime, max N (k + 1), env1, p, p1,
    fun fuel hfuel => h1 fuel (by omega), fun fuel hfuel => h2 fuel (by omega), h7, h8, h9⟩

/-- C14 fails as stated: the 14th invocation of `addPokemonLoop` re-schedules
itself with the delay `800 * 0.9 ^ 14` (about 183.01), which is below 200. -/
theorem addPokemonLoop_below_floor :
    ((addPokemonLoop (Env.stage 800 600))^[14] Page.initial).pending
      = some (800 * (9 / 10) ^ 14)
    ∧ (800 : ℚ) * (9 / 10) ^ 14 < 200 := by
  refine ⟨?_, by norm_num⟩
  rw [addPokemonLoop_iterate_pending]
  rfl

/-- C14 (amended): in the spawn schedule (initial delay 800, factor 0.9,
threshold 200), whose invocations are the 151 iterations of `addPokemonLoop`
from the initial page, the invocation number `n + 1` re-schedules itself, if it
does, with the delay `800 * 0.9 ^ min (n + 1, 14)`: the delay decays
geometrically while it exceeds 200 and is then kept; it is above 200 for the
first 13 invocations, equal to `800 * 0.9 ^ 14 < 200` from the 14th on, and
always above 180. -/
theorem addPokemonLoop_delay_bounds (env : Env) (n : Nat) :
    spawnSchedule env = (addPokemonLoop env)^[151] Page.initial
    ∧ ((addPokemonLoop env)^[n + 1] Page.initial).pending
      = (if n + 1 < 151 then some (800 * (9 / 10) ^ (min (n + 1) 14)) else none)
    ∧ (∀ d, ((addPokemonLoop env)^[n + 1] Page.initial).pending = some d →
        180 < d ∧ d ≤ 720
        ∧ (n + 1 < 14 → 200 < d)
        ∧ (14 ≤ n + 1 → d = 800 * (9 / 10) ^ 14 ∧ d < 200)) := by
  refine ⟨spawnSchedule_eq env, addPokemonLoop_iterate_pending env n, ?_⟩
  intro d hd
  rw [addPokemonLoop_iterate_pending] at hd
  by_cases hlt : n + 1 < 151
  · rw [if_pos hlt] at hd
    cases hd
    have hlow : (9 / 10 : ℚ) ^ 14 ≤ (9 / 10) ^ (min (n + 1) 14) :=
      pow_le_pow_of_le_one (by norm_num) (by norm_num) (by omega)
    have hhigh : (9 / 10 : ℚ) ^ (min (n + 1) 14) ≤ (9 / 10) ^ 1 :=
      pow_le_pow_of_le_one (by norm_num) (by norm_num) (by omega)
    have h14 : (180 : ℚ) < 800 * (9 / 10) ^ 14 := by norm_num
    refine ⟨by linarith, by linarith, ?_, ?_⟩
    · intro hn
      have hpow : (9 / 10 : ℚ) ^ 13 ≤ (9 / 10) ^ (min (n + 1) 14) :=
        pow_le_pow_of_le_one (by norm_num) (by norm_num) (by omega)
      have h13 : (200 : ℚ) < 800 * (9 / 10) ^ 13 := by norm_num
      linarith
    · intro hn
      have hmin : min (n + 1) 14 = 14 := by omega
      rw [hmin]
      exact ⟨rfl, by norm_num⟩
  · rw [if_neg hlt] at hd
    cases hd

/-- Witness of `addPokemonLoop_delay_bounds`: the 20th invocation re-schedules
itself with `800 * 0.9 ^ 14`. -/
theorem addPokemonLoop_delay_bounds_witness :
    ((addPokemonLoop (Env.stage 800 600))^[20] Page.initial).pending
      = some (800 * (9 / 10) ^ 14) :=
  (addPokemonLoop_delay_bounds (Env.stage 800 600) 19).2.1

/-- C15: the spawn schedule terminates (`spawnSchedule` is a total function):
when every timeout fires, `addPokemonLoop` is invoked exactly 151 times (the
schedule is its 151-fold iteration from the initial page); every invocation
calls `addPokemon` once, with the current `i`, and adds exactly one entity, a
new one, at the end of the World's collection; the sprite numbers passed are
`0, 1, ..., 150` in that order; and after the 151st invocation `i = 151`, no
timeout is pending and nothing further runs. -/
theorem spawnSchedule_spec (env : Env) :
    spawnSchedule env = (addPokemonLoop env)^[151] Page.initial
    ∧ (∀ p : Page, (addPokemonLoop env p).spawned = p.spawned ++ [p.i]
        ∧ (addPokemonLoop env p).sim.world.entities = p.sim.world.entities ++ [p.allocated]
        ∧ (addPokemonLoop env p).allocated = p.allocated + 1
        ∧ (addPokemonLoop env p).i = p.i + 1
        ∧ ((addPokemonLoop env p).pending ≠ none ↔ p.i + 1 < 151))
    ∧ (spawnSchedule env).spawned = List.range 151
    ∧ (spawnSchedule env).spawned.length = 151
    ∧ (spawnSchedule env).sim.world.entities = List.range 151
    ∧ (spawnSchedule env).i = 151
    ∧ (spawnSchedule env).pending = none
    ∧ runTimeouts env (spawnSchedule env) = spawnSchedule env := by
  have hiter := addPokemonLoop_iterate env 151 Page.initial
  have hpending : (spawnSchedule env).pending = none := by
    rw [spawnSchedule_eq, addPokemonLoop_iterate_pending]
    rfl
  have hspawned : (spawnSchedule env).spawned = List.range 151 := by
    rw [spawnSchedule_eq, hiter.2.1, List.range_eq_range']
    rfl
  refine ⟨spawnSchedule_eq env, ?_, hspawned, ?_, ?_, ?_, hpending,
    runTimeouts_none env _ hpending⟩
  · intro p
    obtain ⟨f1, _, f3, f4, f5, f6, _⟩ := addPokemonLoop_fields env p
    refine ⟨f4, f6, f5, f1, ?_⟩
    rw [f3]
    by_cases h : p.i + 1 < 151 <;> simp [h]
  · rw [hspawned, List.length_range]
  · rw [spawnSchedule_eq, hiter.2.2.2.1, List.range_eq_range']
    rfl
  · rw [spawnSchedule_eq, hiter.1]
    rfl

/-- C16 fails as stated: a click at `(0, 10)` on the entity at `(0, 0)` with
bounds 64 by 64 and `selected = false` leaves `selected = false`, although
`0 <= 0 < 0 + 64` and `0 <= 10 < 0 + 64`: the near edge is not included. -/
theorem onClick_near_edge :
    (0 : ℚ) ≤ 0 ∧ (0 : ℚ) < 0 + 64 ∧ (0 : ℚ) ≤ 10 ∧ (10 : ℚ) < 0 + 64
    ∧ ((onClick 0 10
        (State.uniform [0] [.PositionComponent 0 0, .RectangleComponent 64 64,
          .SelectableComponent false])).state.store 0).getComponent .SelectableComponent
      = some (.SelectableComponent false) := by
  refine ⟨by norm_num, by norm_num, by norm_num, by norm_num, ?_⟩
  simp [onClick, forOf, onClick.body, Result.andThen, Result.state, State.uniform,
    Entity.getComponent, Component.instanceof, Component.constructor]

/-- C16 (amended): for every click at `(x, y)`, the handler returns normally
and, for every entity of the World's collection with Position `(px, py)`,
Bounds `(w, h)` and a Selectable with `selected = false`, sets `selected = true`
if and only if `px < x < px + w` and `py < y < py + h` (open box test, no edge
included), and leaves `selected = false` otherwise. -/
theorem onClick_selects_iff (x y : ℚ) (s : State) :
    ∃ s1, onClick x y s = .ok s1
      ∧ ∀ e ∈ s.world.entities, ∀ px py w h,
          (s.store e).getComponent .PositionComponent = some (.PositionComponent px py) →
          (s.store e).getComponent .RectangleComponent = some (.RectangleComponent w h) →
          (s.store e).getComponent .SelectableComponent = some (.SelectableComponent false) →
          ((s1.store e).getComponent .SelectableComponent = some (.SelectableComponent true)
              ↔ (px < x ∧ x < px + w ∧ py < y ∧ y < py + h))
          ∧ ((s1.store e).getComponent .SelectableComponent
                ≠ some (.SelectableComponent true) →
              (s1.store e).getComponent .SelectableComponent
                = some (.SelectableComponent false)) := by
  obtain ⟨s1, h1, _, _, _, h5⟩ := onClick_frame x y s
  refine ⟨s1, h1, ?_⟩
  intro e he px py w h hp hr hs
  rw [h5 e he]
  rcases onClick_visit_cases x y (s.store e) with ⟨hv, hno⟩ | ⟨hv, px1, py1, w1, h1, hp1, hr1, _, hc⟩
  · rw [hv, hs]
    refine ⟨⟨fun h => (by cases h), fun hc => ?_⟩, fun _ => rfl⟩
    exact absurd ⟨px, py, w, h, hp, hr, hs, hc.1, hc.2.1, hc.2.2.1, hc.2.2.2⟩ hno
  · rw [hp] at hp1
    rw [hr] at hr1
    cases hp1
    cases hr1
    rw [hv, Entity.getComponent_assign_same (s.store e) .SelectableComponent
      (.SelectableComponent true) rfl, hs]
    exact ⟨⟨fun _ => hc, fun _ => rfl⟩, fun h => absurd rfl h⟩

/-- Witness of `onClick_selects_iff`: a click at `(10, 10)` selects the entity
at `(0, 0)` with bounds 64 by 64. -/
theorem onClick_selects_iff_witness :
    ∃ s1, onClick 10 10 (State.uniform [0] [.PositionComponent 0 0, .RectangleComponent 64 64,
          .SelectableComponent false]) = .ok s1
      ∧ (s1.store 0).getComponent .SelectableComponent = some (.SelectableComponent true) := by
  obtain ⟨s1, h1, h2⟩ := onClick_selects_iff 10 10
    (State.uniform [0] [.PositionComponent 0 0, .RectangleComponent 64 64,
      .SelectableComponent false])
  exact ⟨s1, h1, (h2 0 (by decide) 0 0 64 64 rfl rfl rfl).1.mpr (by norm_num)⟩

/-- C17: for every click coordinate, the handler returns normally, leaves the
World (its collection included) unchanged, and leaves every entity either as it
was or with the `selected` field of its Selectable component set to `true` and
nothing else changed; an entity with `selected = true` before is unchanged, so
`selected` is still `true` afterwards.  Scenario: a click at `(10, 10)` on the
entity at `(0, 0)` with bounds 64 by 64 and `selected = false` makes `selected`
true, and a second click at `(10, 10)` leaves it true. -/
theorem onClick_monotonic (x y : ℚ) (s : State) :
    (∃ s1, onClick x y s = .ok s1 ∧ s1.world = s.world
      ∧ (∀ e, (s.store e).getComponent .SelectableComponent
            = some (.SelectableComponent true) →
          s1.store e = s.store e
          ∧ (s1.store e).getComponent .SelectableComponent
            = some (.SelectableComponent true))
      ∧ (∀ e, s1.store e = s.store e
          ∨ s1.store e = (s.store e).assign .SelectableComponent (.SelectableComponent true))
      ∧ (∀ e type, type ≠ .SelectableComponent →
          (s1.store e).getComponent type = (s.store e).getComponent type))
    ∧ (∃ s1 s2, onClick 10 10 (State.uniform [0] [.PositionComponent 0 0,
            .RectangleComponent 64 64, .SelectableComponent false]) = .ok s1
        ∧ (s1.store 0).getComponent .SelectableComponent = some (.SelectableComponent true)
        ∧ onClick 10 10 s1 = .ok s2
        ∧ (s2.store 0).getComponent .SelectableComponent
          = some (.SelectableComponent true)) := by
  have hvisit : ∀ (a b : ℚ) (entity : Entity), onClick.visit a b entity = entity
      ∨ onClick.visit a b entity
        = entity.assign .SelectableComponent (.SelectableComponent true) := by
    intro a b entity
    rcases onClick_visit_cases a b entity with ⟨h, _⟩ | ⟨h, _⟩
    · exact Or.inl h
    · exact Or.inr h
  constructor
  · obtain ⟨s1, h1, h2, _, h4, _⟩ := onClick_frame x y s
    have hstore : ∀ e, s1.store e = s.store e
        ∨ s1.store e = (s.store e).assign .SelectableComponent (.SelectableComponent true) := by
      intro e
      rcases h4 e with h | h
      · exact Or.inl h
      · rcases hvisit x y (s.store e) with hv | hv
        · exact Or.inl (h.trans hv)
        · exact Or.inr (h.trans hv)
    refine ⟨s1, h1, h2, ?_, hstore, ?_⟩
    · intro e hs
      have hsame : s1.store e = s.store e := by
        rcases h4 e with h | h
        · exact h
        · exact h.trans (onClick_visit_selected x y _ hs)
      exact ⟨hsame, by rw [hsame]; exact hs⟩
    · intro e type ht
      rcases hstore e with h | h
      · rw [h]
      · rw [h]
        exact Entity.getComponent_assign_other _ .SelectableComponent type
          (.SelectableComponent true) rfl ht
  · obtain ⟨s1, h1, _, _, _, h5⟩ := onClick_frame 10 10
      (State.uniform [0] [.PositionComponent 0 0, .RectangleComponent 64 64,
        .SelectableComponent false])
    have hsel : (s1.store 0).getComponent .SelectableComponent
        = some (.SelectableComponent true) := by
      rw [h5 0 (by decide)]
      rcases onClick_visit_cases 10 10 ((State.uniform [0] [.PositionComponent 0 0,
        .RectangleComponent 64 64, .SelectableComponent false]).store 0) with
        ⟨_, hno⟩ | ⟨hv, _⟩
      · exact absurd ⟨0, 0, 64, 64, rfl, rfl, rfl, by norm_num⟩ hno
      · rw [hv, Entity.getComponent_assign_same _ .SelectableComponent
          (.SelectableComponent true) rfl]
        rfl
    obtain ⟨s2, h6, _, _, h9, _⟩ := onClick_frame 10 10 s1
    refine ⟨s1, s2, h1, hsel, h6, ?_⟩
    rcases h9 0 with h | h
    · rw [h]; exact hsel
    · rw [h, onClick_visit_selected 10 10 _ hsel]; exact hsel

/-- C18: for every entity collection and every state, calling `update` on a
system whose class (constructor name `name`) does not override it raises an
`Error` and never returns normally; the message is the text of line 116
followed by `name`, so it names the class; the World, its collection, every
entity and the random-call count are as before the call.  Inside `World.update`
the error ends the tick before the systems registered after it are called. -/
theorem System_update_abstract (env : Env) (name : String) (entities : List EntityRef)
    (s : State) :
    System.update env (.subclass name) entities s
      = .thrown (.error (System.abstractMessage name)) s
    ∧ System.abstractMessage name
      = "Abstract \x27method\x27 update not implemented for System subclass:" ++ name
    ∧ (∀ s1, System.update env (.subclass name) entities s ≠ .ok s1)
    ∧ (System.update env (.subclass name) entities s).isOk = false
    ∧ (System.update env (.subclass name) entities s).state = s
    ∧ (∀ rest, World.runSystems env (.subclass name :: rest) s
        = .thrown (.error (System.abstractMessage name)) s) := by
  refine ⟨rfl, ?_, fun s1 h => (by cases h), rfl, rfl, fun rest => rfl⟩
  have h : "Abstract " ++ String.singleton (Char.ofNat 39) ++ "method"
      ++ String.singleton (Char.ofNat 39) ++ " update not implemented for System subclass:"
      = "Abstract \x27method\x27 update not implemented for System subclass:" := by decide
  rw [System.abstractMessage, h]

/-- C19 fails as stated: on a 100 by 100 stage, with the entity at `(36, 0)`
with bounds 64 by 64 and velocity `(2, 0)` listed twice in the collection, one
tick (a Velocity pass, then a Bounce pass) moves it to `(40, 0)` with its
velocity still `(2, 0)`, and `40` exceeds `100 - 64 + |2|`. -/
theorem velocityBounce_twice_listed :
    (0 : ℚ) ≤ 36 ∧ (36 : ℚ) ≤ 100 - 64
    ∧ ((velocityBounce (Env.stage 100 100) [0, 0] 1
        (State.uniform [0, 0] [.PositionComponent 36 0, .RectangleComponent 64 64,
          .VelocityComponent 2 0])).state.store 0).getComponent .PositionComponent
      = some (.PositionComponent 40 0)
    ∧ ((velocityBounce (Env.stage 100 100) [0, 0] 1
        (State.uniform [0, 0] [.PositionComponent 36 0, .RectangleComponent 64 64,
          .VelocityComponent 2 0])).state.store 0).getComponent .VelocityComponent
      = some (.VelocityComponent 2 0)
    ∧ ¬ ((40 : ℚ) ≤ 100 - 64 + |2|) := by
  refine ⟨by norm_num, by norm_num, ?_, ?_, by norm_num⟩ <;>
  · simp [velocityBounce, VelocitySystem.update, BounceSystem.update, forOf,
      VelocitySystem.body, BounceSystem.body, Result.andThen, Result.state, State.uniform,
      Env.stage, State.assign, Entity.getComponent, Component.instanceof,
      Component.constructor, Entity.assign, assignFirst]
    norm_num

/-- C19 (amended): for a fixed stage of width `W` and height `H` (the canvas)
and an entity listed exactly once in the collection, with Position `(px, py)`,
Velocity `(vx, vy)` and Bounds `(w, h)` such that `w <= W`, `h <= H`,
`0 <= px <= W - w` and `0 <= py <= H - h`: after any number of ticks, each a
`VelocitySystem.update` pass followed by a `BounceSystem.update` pass, that
return normally, the entity has a position `(x, y)` and a velocity `(ux, uy)`
with `|ux| = |vx|`, `|uy| = |vy|`, `-|vx| <= x <= W - w + |vx|` and
`-|vy| <= y <= H - h + |vy|`, and its bounds are as before; and the ticks return
normally whenever every listed entity with Position and Bounds has Velocity. -/
theorem velocityBounce_contained (env : Env) (entities : List EntityRef) (e : EntityRef)
    (s : State) (px py w h vx vy : ℚ) (hcount : entities.count e = 1)
    (hp : (s.store e).getComponent .PositionComponent = some (.PositionComponent px py))
    (hr : (s.store e).getComponent .RectangleComponent = some (.RectangleComponent w h))
    (hv : (s.store e).getComponent .VelocityComponent = some (.VelocityComponent vx vy))
    (hw : w ≤ env.canvasWidth) (hh : h ≤ env.canvasHeight)
    (hx : 0 ≤ px ∧ px ≤ env.canvasWidth - w) (hy : 0 ≤ py ∧ py ≤ env.canvasHeight - h) :
    (∀ n s1, velocityBounce env entities n s = .ok s1 →
      ∃ x y ux uy,
        (s1.store e).getComponent .PositionComponent = some (.PositionComponent x y)
        ∧ (s1.store e).getComponent .VelocityComponent = some (.VelocityComponent ux uy)
        ∧ (s1.store e).getComponent .RectangleComponent = some (.RectangleComponent w h)
        ∧ |ux| = |vx| ∧ |uy| = |vy|
        ∧ -|vx| ≤ x ∧ x ≤ env.canvasWidth - w + |vx|
        ∧ -|vy| ≤ y ∧ y ≤ env.canvasHeight - h + |vy|)
    ∧ ((∀ e1 ∈ entities, (s.store e1).getComponent .PositionComponent ≠ none →
          (s.store e1).getComponent .RectangleComponent ≠ none →
          (s.store e1).getComponent .VelocityComponent ≠ none) →
        ∀ n, (velocityBounce env entities n s).isOk = true) := by
  constructor
  · intro n s1 hrun
    obtain ⟨x, y, ux, uy, hp1, hr1, hv1, ha, hb, hcx, hcy⟩ :=
      velocityBounce_invariant env entities e hcount w h |vx| |vy| hw hh n s s1 px py vx vy
        hp hr hv rfl rfl (Or.inl hx) (Or.inl hy) hrun
    have hbx := Contained_bounds x ux _ w hw hcx
    have hby := Contained_bounds y uy _ h hh hcy
    rw [ha] at hbx
    rw [hb] at hby
    exact ⟨x, y, ux, uy, hp1, hv1, hr1, ha, hb, hbx.1, hbx.2, hby.1, hby.2⟩
  · intro hsafe n
    exact velocityBounce_ok env entities n s hsafe

/-- Witness of `velocityBounce_contained`: the stage 100 by 100 with one entity
at `(0, 0)`, bounds 64 by 64 and velocity `(2, 2)`; after 50 ticks it is still
within `[-2, 38]` on both axes. -/
theorem velocityBounce_contained_witness :
    ∃ s1, velocityBounce (Env.stage 100 100) [0] 50
          (State.uniform [0] [.PositionComponent 0 0, .RectangleComponent 64 64,
            .VelocityComponent 2 2]) = .ok s1
      ∧ ∃ x y ux uy,
        (s1.store 0).getComponent .PositionComponent = some (.PositionComponent x y)
        ∧ (s1.store 0).getComponent .VelocityComponent = some (.VelocityComponent ux uy)
        ∧ -|(2 : ℚ)| ≤ x ∧ x ≤ 100 - 64 + |(2 : ℚ)| ∧ -|(2 : ℚ)| ≤ y
        ∧ y ≤ 100 - 64 + |(2 : ℚ)| := by
  have hspec := velocityBounce_contained (Env.stage 100 100) [0] 0
    (State.uniform [0] [.PositionComponent 0 0, .RectangleComponent 64 64,
      .VelocityComponent 2 2]) 0 0 64 64 2 2 (by decide) rfl rfl rfl
    (by norm_num [Env.stage]) (by norm_num [Env.stage]) (by norm_num [Env.stage])
    (by norm_num [Env.stage])
  have hok := hspec.2 (fun e1 _ _ _ => by
    simp [State.uniform, Entity.getComponent, Component.instanceof, Component.constructor]) 50
  have hrun := Result.eq_ok_of_isOk _ hok
  obtain ⟨x, y, ux, uy, h1, h2, _, _, _, h6, h7, h8, h9⟩ := hspec.1 50 _ hrun
  exact ⟨_, hrun, x, y, ux, uy, h1, h2, h6, h7, h8, h9⟩

/-- C20 fails as stated: `loop` computes with binary64 numbers, not with exact
arithmetic.  On an 800 by 600 window the page script followed by the frames at
10, 40 and 100 ms runs 0, 2 and 3 World ticks: 5 in all, not
`floor(100 / (1000 / 60)) = 6`, and the accumulator is left at
`4691249611844261 / 2 ^ 48` (16.666666666666647), so that (total ticks)
`* (1000 / 60) + accumulator` is not 100. -/
theorem script_time_drifts :
    ∃ (env1 : Env) (p1 : Page),
      (∀ fuel, 4 ≤ fuel →
        script fuel (Env.stage 800 600) [.frame 10, .frame 40, .frame 100]
          = some (env1, .ok p1))
      ∧ p1.ticks = 5 ∧ ⌊(100 : ℚ) / (1000 / 60)⌋ = 6
      ∧ p1.acculumatedTime = 4691249611844261 / 281474976710656
      ∧ p1.ticks * (1000 / 60) + p1.acculumatedTime ≠ 100 := by
  obtain ⟨p0, h0, hc0, ha0, hl0, ht0, _⟩ :=
    script_eq_run (Env.stage 800 600) [.frame 10, .frame 40, .frame 100]
  generalize (Env.stage 800 600).resized (Env.stage 800 600).innerWidth
    (Env.stage 800 600).innerHeight = env1 at h0
  have hS := toDouble_tickDuration
  have t10 : toDouble 10 = 10 := by
    have h := toDouble_natCast 10 (by norm_num)
    norm_num at h
    exact h
  have t30 : toDouble 30 = 30 := by
    have h := toDouble_natCast 30 (by norm_num)
    norm_num at h
    exact h
  have t40 : toDouble 40 = 40 := by
    have h := toDouble_natCast 40 (by norm_num)
    norm_num at h
    exact h
  have t60 : toDouble 60 = 60 := by
    have h := toDouble_natCast 60 (by norm_num)
    norm_num at h
    exact h
  -- the frame at 10 ms
  have hs1 : p0.accumulated 10 = 10 := by
    rw [Page.accumulated, ha0, hl0, sub_zero, t10, zero_add, t10]
  obtain ⟨q1, hq1, hsys1, hsafe1, hT1, hA1, hL1, _⟩ :=
    run_frame env1 10 [.frame 40, .frame 100] p0 0 hc0.1 hc0.2.1
      (by intro j hj; omega)
      (by rw [hs1, Function.iterate_zero, id_eq, hS]; norm_num)
  rw [hs1, Function.iterate_zero, id_eq] at hA1
  -- the frame at 40 ms
  have hs2 : q1.accumulated 40 = 40 := by
    rw [Page.accumulated, hA1, hL1, show (40 : ℚ) - 10 = 30 by norm_num, t30,
      show (10 : ℚ) + 30 = 40 by norm_num, t40]
  obtain ⟨q2, hq2, hsys2, hsafe2, hT2, hA2, hL2, _⟩ :=
    run_frame env1 40 [.frame 100] q1 2 hsys1 hsafe1
      (by
        intro j hj
        rw [hs2, hS]
        interval_cases j
        · norm_num
        · rw [Function.iterate_one, drainStep_40]
          norm_num)
      (by
        rw [hs2, hS, Function.iterate_succ_apply, Function.iterate_one, drainStep_40,
          drainStep_40_twice]
        norm_num)
  rw [hs2, Function.iterate_succ_apply, Function.iterate_one, drainStep_40,
    drainStep_40_twice] at hA2
  -- the frame at 100 ms
  have hs3 : q2.accumulated 100 = 2345624805922133 / 35184372088832 := by
    rw [Page.accumulated, hA2, hL2, show (100 : ℚ) - 40 = 60 by norm_num, t60,
      toDouble_sum_100]
  obtain ⟨q3, hq3, _, _, hT3, hA3, _, _⟩ :=
    run_frame env1 100 [] q2 3 hsys2 hsafe2
      (by
        intro j hj
        rw [hs3, hS]
        interval_cases j
        · norm_num
        · rw [Function.iterate_one, drainStep_100]
          norm_num
        · rw [Function.iterate_succ_apply, Function.iterate_one, drainStep_100,
            drainStep_100_twice]
          norm_num)
      (by
        rw [hs3, hS, Function.iterate_succ_apply, Function.iterate_succ_apply,
          Function.iterate_one, drainStep_100, drainStep_100_twice, drainStep_100_thrice]
        norm_num)
  rw [hs3, Function.iterate_succ_apply, Function.iterate_succ_apply, Function.iterate_one,
    drainStep_100, drainStep_100_twice, drainStep_100_thrice] at hA3
  have hticks : q3.ticks = 5 := by omega
  refine ⟨env1, q3, fun fuel hfuel => ?_, hticks, ?_, hA3, ?_⟩
  · rw [h0 fuel (by omega), hq1 fuel (by omega), hq2 fuel (by omega), hq3 fuel (by omega)]
    rfl
  · rw [Int.floor_eq_iff]
    norm_num
  · rw [hticks, hA3]
    norm_num

/-- C20, amended to the arithmetic of the program (binary64, rounding to
nearest, ties to even; `S = toDouble (1000 / 60)` is the tick duration the
program compares with and subtracts).  The page script, started with
`lastRender = 0` and accumulator `0`, handles every sequence of events (frames,
timeouts, clicks, resizes) whose frame timestamps are binary64 numbers that are
non-negative, non-decreasing and at most `2 ^ 53` without an error, every
frame terminating (every `fuel` from some `N` on gives the result).
Afterwards `0 <= accumulator < S`, and (total ticks run) `* S + accumulator`
differs from the timestamp `tn` of the last frame (`0` if there was none beyond
the initial `loop(0)`) by at most
`(2 * ticks + 3 * frames rendered) * (tn + S) / 2 ^ 53`, the rounding error
accumulated, which depends on how the frames were spaced.  When `tn` is at most
`2 ^ 28` and fewer than `2 ^ 24` frames were handled, the number of World ticks
run differs from `floor(tn / (1000 / 60))` by at most one.  The same holds of
the events handled from any page state with `lastRender = 0`, accumulator `0`,
no tick and no frame counted, whose World has the program's systems and whose
entities holding Position and Bounds hold Velocity. -/
theorem script_tracks_time (env : Env) (events : List Event)
    (hchain : List.Chain (· ≤ ·) 0 (frameTimes events))
    (hdouble : ∀ t ∈ frameTimes events, IsDouble t ∧ t ≤ 2 ^ 53) :
    (∃ (N : Nat) (env1 : Env) (p1 : Page),
      (∀ fuel, N ≤ fuel → script fuel env events = some (env1, .ok p1))
      ∧ |p1.ticks * toDouble (1000 / 60) + p1.acculumatedTime
          - (frameTimes events).getLastD 0|
        ≤ (2 * p1.ticks + 3 * p1.renders)
          * ((frameTimes events).getLastD 0 + toDouble (1000 / 60)) / 2 ^ 53
      ∧ 0 ≤ p1.acculumatedTime ∧ p1.acculumatedTime < toDouble (1000 / 60)
      ∧ p1.renders = 1 + (frameTimes events).length
      ∧ ((frameTimes events).getLastD 0 ≤ 2 ^ 28 → (frameTimes events).length < 2 ^ 24 →
          |(p1.ticks : ℤ) - ⌊(frameTimes events).getLastD 0 / (1000 / 60)⌋| ≤ 1))
    ∧ (∀ (env0 : Env) (p : Page), p.lastRender = 0 → p.acculumatedTime = 0 →
        p.ticks = 0 → p.renders = 0 →
        p.sim.world.systems = World.program.systems → p.sim.bounceSafe →
        ∃ (N : Nat) (env1 : Env) (p1 : Page),
          (∀ fuel, N ≤ fuel → run fuel events env0 p = some (env1, .ok p1))
          ∧ |p1.ticks * toDouble (1000 / 60) + p1.acculumatedTime
              - (frameTimes events).getLastD 0|
            ≤ (2 * p1.ticks + 3 * p1.renders)
              * ((frameTimes events).getLastD 0 + toDouble (1000 / 60)) / 2 ^ 53
          ∧ 0 ≤ p1.acculumatedTime ∧ p1.acculumatedTime < toDouble (1000 / 60)
          ∧ p1.renders = (frameTimes events).length
          ∧ ((frameTimes events).getLastD 0 ≤ 2 ^ 28 →
              (frameTimes events).length < 2 ^ 24 →
              |(p1.ticks : ℤ) - ⌊(frameTimes events).getLastD 0 / (1000 / 60)⌋| ≤ 1)) := by
  refine ⟨?_, ?_⟩
  · obtain ⟨N, env1, p1, hrun, hc, hl, hr⟩ := script_consistent env events hchain hdouble
    have hnear := consistent_near_floor p1 hc
    obtain ⟨_, _, _, _, h0, h1, _, herr⟩ := hc
    rw [hl] at herr hnear
    refine ⟨N, env1, p1, hrun, herr, h0, h1, hr, ?_⟩
    intro hsmall hfew
    exact hnear hsmall (by rw [hr]; omega)
  · intro env0 p hl0 ha0 ht0 hr0 hsys hsafe
    obtain ⟨hS1, hS2⟩ := tickDuration_bounds
    have hc0 : p.Consistent := by
      refine ⟨hsys, hsafe, by rw [ha0]; exact IsDouble_zero, by rw [hl0]; exact IsDouble_zero,
        by rw [ha0], by rw [ha0]; linarith, by rw [hl0], ?_⟩
      rw [ht0, ha0, hl0, hr0]
      norm_num
    obtain ⟨N, env1, p1, hrun, hc, hl, hr⟩ :=
      run_consistent events env0 p 0 hc0 hl0 hchain hdouble
    have hnear := consistent_near_floor p1 hc
    obtain ⟨_, _, _, _, h0, h1, _, herr⟩ := hc
    rw [hl] at herr hnear
    refine ⟨N, env1, p1, hrun, herr, h0, h1, by rw [hr, hr0, Nat.zero_add], ?_⟩
    intro hsmall hfew
    exact hnear hsmall (by rw [hr, hr0]; omega)

/-- Witness of `script_tracks_time`: on an 800 by 600 window, frames at 10, 40
and 100 ms with a timeout, a click and a resize in between; the four frames
render once each, and 5, 6 or 7 ticks have run. -/
theorem script_tracks_time_witness :
    List.Chain (· ≤ ·) (0 : ℚ)
      (frameTimes [.frame 10, .timeout, .click 5 5, .frame 40, .resize 300 200, .frame 100])
    ∧ (∀ t ∈ frameTimes
        [.frame 10, .timeout, .click 5 5, .frame 40, .resize 300 200, .frame 100],
        IsDouble t ∧ t ≤ 2 ^ 53)
    ∧ ∃ (N : Nat) (env1 : Env) (p1 : Page),
      (∀ fuel, N ≤ fuel →
        script fuel (Env.stage 800 600)
            [.frame 10, .timeout, .click 5 5, .frame 40, .resize 300 200, .frame 100]
          = some (env1, .ok p1))
      ∧ 0 ≤ p1.acculumatedTime ∧ p1.acculumatedTime < toDouble (1000 / 60)
      ∧ p1.renders = 4
      ∧ |(p1.ticks : ℤ) - 6| ≤ 1 := by
  have hchain : List.Chain (· ≤ ·) (0 : ℚ)
      (frameTimes [.frame 10, .timeout, .click 5 5, .frame 40, .resize 300 200, .frame 100]) := by
    norm_num [frameTimes]
  have hdouble : ∀ t ∈ frameTimes
      [.frame 10, .timeout, .click 5 5, .frame 40, .resize 300 200, .frame 100],
      IsDouble t ∧ t ≤ 2 ^ 53 := by
    intro t ht
    simp only [frameTimes, List.mem_cons, List.mem_singleton, List.not_mem_nil, or_false] at ht
    rcases ht with rfl | rfl | rfl
    · have h := IsDouble_natCast 10 (by norm_num)
      norm_num at h
      exact ⟨h, by norm_num⟩
    · have h := IsDouble_natCast 40 (by norm_num)
      norm_num at h
      exact ⟨h, by norm_num⟩
    · have h := IsDouble_natCast 100 (by norm_num)
      norm_num at h
      exact ⟨h, by norm_num⟩
  obtain ⟨N, env1, p1, h1, _, h3, h4, h5, h6⟩ :=
    (script_tracks_time (Env.stage 800 600)
      [.frame 10, .timeout, .click 5 5, .frame 40, .resize 300 200, .frame 100] hchain
      hdouble).1
  have hfloor : ⌊(100 : ℚ) / (1000 / 60)⌋ = 6 := by
    rw [Int.floor_eq_iff]
    norm_num
  have hnear := h6 (by norm_num [frameTimes]) (by norm_num [frameTimes])
  have hlast : (frameTimes
      [.frame 10, .timeout, .click 5 5, .frame 40, .resize 300 200, .frame 100]).getLastD 0
      = (100 : ℚ) := by
    simp [frameTimes]
  rw [hlast, hfloor] at hnear
  exact ⟨hchain, hdouble, N, env1, p1, h1, h3, h4, h5, hnear⟩

end PokemonParty
